import Mathlib

/-!
# e45g/webserver: request parser, routes, pools, responses and JSON

A shallow embedding of `src/utils.c`, `src/server.c`, `src/routes.c`,
`src/main.c` and `src/json/`.

* A C string is the list of its bytes before the terminating NUL; a byte is a
  natural number (the `unsigned char` value), written in decimal with the
  character in a comment, or through `str` for whole literals.
* A pointer into a string is the list of the bytes from that position on.
* `malloc`, `strdup`, `strndup`, `calloc` and `realloc` are taken to succeed.
* What the outside decides (the results of `recv` and `send`, the file system,
  the clock, the addresses of new blocks) is given to the functions as
  arguments; what they do to the outside is returned as a trace.
-/

namespace Webserver

/-- A byte of a C string or of a socket buffer. -/
abbrev Byte := Nat

/-- The bytes of an ASCII string literal. -/
def str (s : String) : List Byte := s.toList.map Char.toNat

/-! ## Constants of `server.h` -/

def MAX_PATH_LENGTH : Nat := 1024
def MAX_METHOD_LENGTH : Nat := 16
def MAX_URI_LENGTH : Nat := 2048
def MAX_REQUEST_SIZE : Nat := 128 * 1024
def MAX_HEADER_COUNT : Nat := 32
def MAX_HEADER_LENGTH : Nat := 2048

/-- The enum `server_status_t` of `server.h`. -/
inductive server_status_t where
  | SERVER_OK
  | SERVER_ERR_MEMORY
  | SERVER_ERR_NETWORK
  | SERVER_ERR_FILE
  | SERVER_ERR_PROTOCOL
  | SERVER_ERR_SECURITY
  | SERVER_ERR_RESOURCE
  deriving DecidableEq, Repr

open server_status_t

/-- The struct `header_t` of `server.h`. -/
structure header_t where
  name : List Byte
  value : List Byte
  deriving DecidableEq, Repr

/-- The struct `http_req_t` of `server.h`; a NULL pointer is `none`, and
`headers_len` is the length of `headers`. -/
structure http_req_t where
  sub_domain : Option (List Byte) := none
  method : List Byte := []
  path : List Byte := []
  version : List Byte := []
  headers : List header_t := []
  body : Option (List Byte) := none
  wildcards : List (List Byte) := []
  deriving DecidableEq, Repr

/-! ## libc -/

/-- The C string held by a buffer: its bytes before the first NUL. -/
def cstr (buf : List Byte) : List Byte := buf.takeWhile (fun c => c ≠ 0)

/-- The libc `strstr`, as the offset of the first occurrence of `needle`. -/
def strstr : List Byte → List Byte → Option Nat
  | [], needle => if needle = [] then some 0 else none
  | c :: hay, needle =>
    if needle.isPrefixOf (c :: hay) then some 0
    else (strstr hay needle).map (fun n => n + 1)

/-- The libc `strchr` (and `memchr` on a bounded slice), as the offset of the
first occurrence of the byte `c`. -/
def strchr : List Byte → Byte → Option Nat
  | [], _ => none
  | x :: xs, c => if x = c then some 0 else (strchr xs c).map (fun n => n + 1)

/-- The libc `isalnum` in the "C" locale (the server never calls `setlocale`). -/
def isalnum (c : Byte) : Bool :=
  (48 ≤ c && c ≤ 57) || (65 ≤ c && c ≤ 90) || (97 ≤ c && c ≤ 122)

/-- The libc `tolower` in the "C" locale. -/
def tolower (c : Byte) : Byte := if 65 ≤ c ∧ c ≤ 90 then c + 32 else c

/-- The libc `strcasecmp(a, b) == 0`. -/
def strcasecmp_eq (a b : List Byte) : Bool := a.map tolower == b.map tolower

/-- The libc `isspace` in the "C" locale. -/
def isspace (c : Byte) : Bool := c = 32 || (9 ≤ c && c ≤ 13)

/-- The libc `isdigit`. -/
def isdigit (c : Byte) : Bool := 48 ≤ c && c ≤ 57

/-- The digits loop of `atoi`: the value of the leading decimal digits. -/
def atoi_digits : List Byte → Int → Int
  | [], acc => acc
  | c :: cs, acc => if isdigit c then atoi_digits cs (acc * 10 + ((c : Int) - 48)) else acc

/-- The libc `strtol` in base 10 on the text of a number: leading white space,
an optional sign, decimal digits; a value outside the range of `long` (64 bits)
is replaced by LONG_MIN or LONG_MAX. -/
def strtol (s : List Byte) : Int :=
  let value : Int :=
    match s.dropWhile isspace with
    | 45 :: t => - atoi_digits t 0   -- '-'
    | 43 :: t => atoi_digits t 0     -- '+'
    | t => atoi_digits t 0
  if value < -(2 ^ 63) then -(2 ^ 63)
  else if value > 2 ^ 63 - 1 then 2 ^ 63 - 1
  else value

/-- The libc `atoi`, which glibc defines as `(int) strtol(s, NULL, 10)`: the
conversion to `int` keeps the low 32 bits, so `4294967306` gives 10. -/
def atoi (s : List Byte) : Int :=
  (strtol s + 2 ^ 31) % 2 ^ 32 - 2 ^ 31

/-! ## `utils.c` -/

/-- The `while (*src)` loop of `sanitize_path` (utils.c 174-193), from the
position `src` on: `none` is `return NULL`, `some dst` the bytes written.
Byte 46 is `.`, 47 is `/`, 45 is `-`, 95 is `_`. -/
def sanitize_loop : List Byte → Option (List Byte)
  | [] => some []
  | c :: rest =>
    if c = 46 then
      match rest with
      | [] => sanitize_loop []                    -- src[1] == 0: src += 1
      | d :: rest2 =>
        if d = 46 ∧ (rest2.head? = some 47 ∨ rest2 = []) then none
        else if d = 47 then sanitize_loop rest2    -- src[1] == '/': src += 2
        else (sanitize_loop (d :: rest2)).map (fun dst => c :: dst)
    else if isalnum c || c = 45 || c = 95 || c = 46 || c = 47 then
      (sanitize_loop rest).map (fun dst => c :: dst)
    else none

/-- The function `sanitize_path` of utils.c 162-202. -/
def sanitize_path (path : List Byte) : Option (List Byte) :=
  if path.length = 0 then none
  else if path.length ≥ MAX_PATH_LENGTH then none
  else sanitize_loop path

/-- The table `allowed_methods` of `validate_http_method`:
GET, POST, PUT, DELETE, HEAD, OPTIONS. -/
def allowed_methods : List (List Byte) :=
  [[71, 69, 84], [80, 79, 83, 84], [80, 85, 84], [68, 69, 76, 69, 84, 69],
   [72, 69, 65, 68], [79, 80, 84, 73, 79, 78, 83]]

/-- The function `validate_http_method` of utils.c 204-217. -/
def validate_http_method (method : List Byte) : Bool :=
  if method.length = 0 ∨ method.length > MAX_METHOD_LENGTH then false
  else allowed_methods.any (fun m => method == m)

/-- The table `forbidden_headers` of `validate_header`:
content-length, transfer-encoding. -/
def forbidden_headers : List (List Byte) :=
  [[99, 111, 110, 116, 101, 110, 116, 45, 108, 101, 110, 103, 116, 104],
   [116, 114, 97, 110, 115, 102, 101, 114, 45, 101, 110, 99, 111, 100, 105, 110, 103]]

/-- The function `validate_header` of utils.c 219-243. -/
def validate_header (name value : List Byte) : Bool :=
  if name.length = 0 ∨ name.length > MAX_HEADER_LENGTH ∨
      value.length > MAX_HEADER_LENGTH then false
  else if name.any (fun c => !isalnum c && c ≠ 45 && c ≠ 95) then false
  else if forbidden_headers.any (fun f => strcasecmp_eq name f) then false
  else true

/-- The function `get_header` of utils.c 145-152. -/
def get_header (request : http_req_t) (name : List Byte) : Option (List Byte) :=
  (request.headers.find? (fun h => h.name == name)).map (fun h => h.value)

/-! ## `server.c`: the request parser -/

/-- The two bytes CR LF. -/
def CRLF : List Byte := [13, 10]

/-- The header loop of `parse_http_request` (server.c 399-448) from the position
`header_line` on, with `fuel` iterations allowed; `none` when they run out.
Byte 58 is `:` and 32 the space. -/
def parse_headers : Nat → List Byte → http_req_t → Option http_req_t
  | 0, _, _ => none
  | fuel + 1, header_line, req =>
    if header_line = [] ∨ req.headers.length ≥ MAX_HEADER_COUNT then some req
    else
      match strstr header_line CRLF with
      | none => some req
      | some header_len =>
        if header_len = 0 then some { req with body := some (header_line.drop 2) }
        else
          let next := header_line.drop (header_len + 2)
          if header_len > MAX_HEADER_LENGTH then parse_headers fuel next req
          else
            match strchr (header_line.take header_len) 58 with
            | none => parse_headers fuel next req
            | some name_len =>
              let name := header_line.take name_len
              let value :=
                ((header_line.take header_len).drop (name_len + 1)).dropWhile (fun c => c = 32)
              if validate_header name value then
                parse_headers fuel next
                  { req with headers := req.headers ++ [{ name := name, value := value }] }
              else parse_headers fuel next req

/-- The literal `HTTP/1.` compared by `strncmp` in `parse_http_request`. -/
def HTTP_1 : List Byte := [72, 84, 84, 80, 47, 49, 46]

/-- The function `parse_http_request` of server.c 336-451 on the received
bytes `buffer` (NUL-terminated by the caller) and the length argument
`buffer_len`. The header loop gets more iterations than the text has bytes;
`parse_headers_isSome` shows they never run out. -/
def parse_http_request (buffer : List Byte) (buffer_len : Nat) :
    Except server_status_t http_req_t :=
  if buffer_len > MAX_REQUEST_SIZE then .error SERVER_ERR_PROTOCOL
  else
    let text := cstr buffer
    match strstr text CRLF with
    | none => .error SERVER_ERR_PROTOCOL
    | some request_line_len =>
      if request_line_len > MAX_URI_LENGTH then .error SERVER_ERR_PROTOCOL
      else
        let request_line := text.take request_line_len
        match strchr request_line 32 with
        | none => .error SERVER_ERR_PROTOCOL
        | some method_end =>
          let method := request_line.take method_end
          if !validate_http_method method then .error SERVER_ERR_PROTOCOL
          else
            let path_start := request_line.drop (method_end + 1)
            match strchr path_start 32 with
            | none => .error SERVER_ERR_PROTOCOL
            | some path_end =>
              match sanitize_path (path_start.take path_end) with
              | none => .error SERVER_ERR_SECURITY
              | some sanitized_path =>
                let version_start := path_start.drop (path_end + 1)
                if version_start.take 7 ≠ HTTP_1 then .error SERVER_ERR_PROTOCOL
                else
                  let req : http_req_t :=
                    { method := method.take MAX_METHOD_LENGTH
                      path := sanitized_path
                      version := version_start.take 16 }
                  let header_line := text.drop (request_line_len + 2)
                  .ok ((parse_headers (header_line.length + 1) header_line req).getD req)

/-- The `while (body_received < content_length)` loop of `read_full_body`
(server.c 628-647). `recvs` lists what the coming `recv` calls deliver: a
non-empty list of bytes is a successful receive of that many bytes, an empty
one (or the end of the list) a receive that returns 0 or -1. The result holds
the status, the request and the receives not yet consumed; `none` is the
undefined `strlen(NULL)` on a request without body. -/
def read_body_loop : List (List Byte) → Int → Int → http_req_t →
    Option (server_status_t × http_req_t × List (List Byte))
  | [], body_received, content_length, req =>
    if body_received < content_length then some (SERVER_ERR_NETWORK, req, [])
    else some (SERVER_OK, req, [])
  | more :: recvs, body_received, content_length, req =>
    if body_received < content_length then
      if more.length = 0 then some (SERVER_ERR_NETWORK, req, recvs)
      else
        match req.body with
        | none => none
        | some body =>
          read_body_loop recvs (body_received + more.length) content_length
            { req with body := some (body ++ cstr more) }
    else some (SERVER_OK, req, more :: recvs)

/-- The header name `Content-Length` looked up by `read_full_body`. -/
def CONTENT_LENGTH : List Byte :=
  [67, 111, 110, 116, 101, 110, 116, 45, 76, 101, 110, 103, 116, 104]

/-- The function `read_full_body` of server.c 609-650; `buf` is the request
buffer and `recvs` what further `recv` calls deliver. -/
def read_full_body (recvs : List (List Byte)) (req : http_req_t) (buf : List Byte) :
    Option (server_status_t × http_req_t × List (List Byte)) :=
  match get_header req CONTENT_LENGTH with
  | none => some (SERVER_OK, req, recvs)
  | some content_len_header =>
    let content_length := atoi content_len_header
    if content_length ≤ 0 ∨ content_length > MAX_REQUEST_SIZE then
      some (SERVER_ERR_PROTOCOL, req, recvs)
    else
      match strstr (cstr buf) (CRLF ++ CRLF) with
      | none => some (SERVER_ERR_PROTOCOL, req, recvs)
      | some body_start =>
        let body_received : Int := ((cstr buf).length : Int) - (body_start + 4 : Nat)
        read_body_loop recvs body_received content_length req

/-- The request-reading steps of `handle_client` (server.c 700-714) on a first
receive `buffer`: `parse_http_request`, then `read_full_body` when it
succeeded. The result is the status that decides the 400 response, the request
and the receives left unconsumed. -/
def read_request (buffer : List Byte) (recvs : List (List Byte)) :
    Option (server_status_t × Option http_req_t × List (List Byte)) :=
  match parse_http_request buffer buffer.length with
  | .error status => some (status, none, recvs)
  | .ok req =>
    (read_full_body recvs req buffer).map (fun r => (r.1, some r.2.1, r.2.2))

/-! ## Vocabulary of the claims -/

/-- The characters the sanitizer lets through: ASCII letters, digits, `.`, `_`,
the slash and `-`. -/
def path_char (c : Byte) : Prop :=
  (48 ≤ c ∧ c ≤ 57) ∨ (65 ≤ c ∧ c ≤ 90) ∨ (97 ≤ c ∧ c ≤ 122) ∨ c = 46 ∨ c = 95 ∨ c = 47 ∨ c = 45

instance path_char_decidable (c : Byte) : Decidable (path_char c) := by unfold path_char; infer_instance

/-- Some `.` of the path is directly followed by the slash or by the end of
the path. -/
def dot_before_sep : List Byte → Prop
  | [] => False
  | c :: rest => (c = 46 ∧ (rest = [] ∨ rest.head? = some 47)) ∨ dot_before_sep rest

instance dot_before_sep_decidable : (s : List Byte) → Decidable (dot_before_sep s)
  | [] => isFalse (fun h => h)
  | c :: rest =>
    have := dot_before_sep_decidable rest
    inferInstanceAs (Decidable ((c = 46 ∧ (rest = [] ∨ rest.head? = some 47)) ∨ dot_before_sep rest))

/-- A `..` path segment: a `..` bounded on each side by the slash or by an end
of the path. -/
def has_dotdot_segment (p : List Byte) : Prop :=
  ∃ pre post, p = pre ++ 46 :: 46 :: post ∧
    (pre = [] ∨ pre.getLast? = some 47) ∧ (post = [] ∨ post.head? = some 47)

/-- The character class the specification gives for paths: ASCII letters,
digits, `.`, the slash and `-` (no `_`). -/
def claimed_path_char (c : Byte) : Prop :=
  (48 ≤ c ∧ c ≤ 57) ∨ (65 ≤ c ∧ c ≤ 90) ∨ (97 ≤ c ∧ c ≤ 122) ∨ c = 46 ∨ c = 47 ∨ c = 45

instance claimed_path_char_decidable (c : Byte) : Decidable (claimed_path_char c) := by
  unfold claimed_path_char; infer_instance

/-- The request line `M P V`: method, path and version joined by single spaces. -/
def request_line (M P V : List Byte) : List Byte := M ++ 32 :: (P ++ 32 :: V)

/-- The request that `parse_http_request` hands to its header loop, and the
loop's result on the header text `hdr`. -/
def parsed (M sp V hdr : List Byte) : http_req_t :=
  (parse_headers (hdr.length + 1) hdr
    { method := M.take MAX_METHOD_LENGTH, path := sp, version := V.take 16 }).getD
    { method := M.take MAX_METHOD_LENGTH, path := sp, version := V.take 16 }

/-- The request line lacks its method, path or version token: it has no space,
or the text before its first space is empty, or there is no second space, or
the text between the two spaces or the text after the second is empty. -/
def missing_token (line : List Byte) : Prop :=
  32 ∉ line ∨
  ∃ M r, line = M ++ 32 :: r ∧ 32 ∉ M ∧
    (M = [] ∨ 32 ∉ r ∨ ∃ P V, r = P ++ 32 :: V ∧ 32 ∉ P ∧ (P = [] ∨ V = []))

/-! ## `routes.c` and the dispatch of `server.c` -/

/-- The struct `route_t` of `server.h`; `callback` names the handler, and the
`next` pointers are the order of the list that holds the routes. -/
structure route_t where
  sub_domain : Option (List Byte) := none
  method : List Byte
  path : List Byte
  callback : Nat
  deriving DecidableEq, Repr

/-- The libc `strrchr`, as the offset of the last occurrence of the byte `c`. -/
def strrchr : List Byte → Byte → Option Nat
  | [], _ => none
  | x :: xs, c =>
    match strrchr xs c with
    | some n => some (n + 1)
    | none => if x = c then some 0 else none

/-- The function `match_route` of routes.c 10-30: `route` is the request path,
`handle` the route pattern. Byte 42 is `*`, 47 the slash. -/
def match_route : List Byte → List Byte → Bool
  | route, [] => route = []
  | [], c :: _ => c = 42
  | x :: r, c :: h =>
    if c = 42 then
      match strchr (x :: r) 47 with
      | none => true
      | some n => match_route ((x :: r).drop n) h
    else if c ≠ x then false
    else match_route r h

/-- The inner copy loop of `get_wildcards` (routes.c 49-51): the bytes copied
into the capture, at most 63 and none of them a slash. -/
def wildcard_run (req_path : List Byte) : List Byte :=
  (req_path.takeWhile (fun c => c ≠ 47)).take 63

/-- The loop of `get_wildcards` (routes.c 44-58) with `route_path` and
`req_path` the texts from the positions `j` and `i` on and `wildcards` the
captures stored so far (`wildcard_num` is their number). -/
def get_wildcards_loop : List Byte → List Byte → List (List Byte) → List (List Byte)
  | [], _, wildcards => wildcards
  | c :: route_rest, req_path, wildcards =>
    if req_path = [] then wildcards
    else if c = 42 then
      let run := if wildcards.length < 16 then wildcard_run req_path else []
      let wildcards2 := if wildcards.length < 16 then wildcards ++ [run] else wildcards
      match route_rest with
      | [] => wildcards2
      | _ :: route_rest2 =>
        get_wildcards_loop route_rest2 ((req_path.drop run.length).drop 1) wildcards2
    else get_wildcards_loop route_rest (req_path.drop 1) wildcards

/-- The function `get_wildcards` of routes.c 32-59. -/
def get_wildcards (req : http_req_t) (r : route_t) : http_req_t :=
  { req with wildcards := get_wildcards_loop r.path req.path [] }

/-- The function `add_route` of routes.c 61-76 on the route list `server.route`.
`strncpy` keeps 15 bytes of the method and 264 of the path; a longer argument
leaves the array without its terminator in C, here the cut text stands. -/
def add_route (server : List route_t) (method path : List Byte)
    (sub_dom : Option (List Byte)) (callback : Nat) : List route_t :=
  { sub_domain := sub_dom, method := method.take 15, path := path.take 264,
    callback := callback } :: server

/-- The function `process_routes` of server.c 574-595 on the route list: the
value returned, and the handler calls made, each with the route whose callback
is called and the request passed to it. -/
def process_routes : List route_t → http_req_t → Nat × List (route_t × http_req_t)
  | [], _ => (0, [])
  | r :: next, req =>
    if req.method ≠ r.method then process_routes next req
    else if !match_route req.path r.path then process_routes next req
    else
      let subdomain_match : Bool :=
        if r.sub_domain = none ∧ req.sub_domain = none then true
        else if r.sub_domain ≠ none ∧ req.sub_domain ≠ none ∧ r.sub_domain = req.sub_domain then
          true
        else false
      if !subdomain_match then process_routes next req
      else (1, [(r, get_wildcards req r)])

/-- The header name `Host` looked up by `extract_subdomain`. -/
def HOST : List Byte := [72, 111, 115, 116]

/-- The function `extract_subdomain` of server.c 539-572. Byte 58 is `:` and
46 is `.`. -/
def extract_subdomain (req : http_req_t) : http_req_t :=
  match get_header req HOST with
  | none => { req with sub_domain := none }
  | some host =>
    let sub := match strchr host 58 with
      | some port => host.take port
      | none => host
    match strrchr sub 46 with
    | none => { req with sub_domain := none }
    | some dot1 =>
      let sub := sub.take dot1
      match strchr sub 46 with
      | some dot2 => { req with sub_domain := some (sub.take dot2) }
      | none => { req with sub_domain := none }

/-! ## Vocabulary of the header and routing claims -/

/-- The characters of a header name: ASCII letters, digits, `_` and `-`. -/
def header_name_char (c : Byte) : Prop :=
  (48 ≤ c ∧ c ≤ 57) ∨ (65 ≤ c ∧ c ≤ 90) ∨ (97 ≤ c ∧ c ≤ 122) ∨ c = 95 ∨ c = 45

instance header_name_char_decidable (c : Byte) : Decidable (header_name_char c) := by
  unfold header_name_char; infer_instance

/-- The CRLF-terminated lines of a text, in order, `cur` being the bytes of the
line under way; what follows the last CRLF is no line. -/
def split_crlf : List Byte → List Byte → List (List Byte)
  | [], _ => []
  | [_], _ => []
  | c :: d :: rest, cur =>
    if c = 13 ∧ d = 10 then cur :: split_crlf rest []
    else split_crlf (d :: rest) (cur ++ [c])

/-- The header lines of a header text: its CRLF-terminated lines that precede
the blank line (all of them when there is none). -/
def header_lines (hdr : List Byte) : List (List Byte) :=
  (split_crlf hdr []).takeWhile (fun l => l ≠ [])

/-- The entry a header line stands for, in the words of the specification: the
line is at most MAX_HEADER_LENGTH bytes long and holds a colon, the name is the
text before the first colon, the value the text after it without its leading
spaces, and the pair passes `validate_header`. -/
def header_entry (line : List Byte) : Option header_t :=
  if line.length ≤ MAX_HEADER_LENGTH ∧ 58 ∈ line then
    let name := line.takeWhile (fun c => c ≠ 58)
    let value := ((line.dropWhile (fun c => c ≠ 58)).drop 1).dropWhile (fun c => c = 32)
    if validate_header name value then some { name := name, value := value } else none
  else none

/-- The header list the specification describes for a header text: the entries
of its header lines in arrival order, cut off after MAX_HEADER_COUNT. -/
def listed_headers (hdr : List Byte) : List header_t :=
  ((header_lines hdr).filterMap header_entry).take MAX_HEADER_COUNT

/-- The route list after the calls `add_route(c.method, c.path, c.sub_domain,
c.callback)` made in the order of `calls`, from the empty list. -/
def add_routes (calls : List route_t) : List route_t :=
  calls.foldl (fun server c => add_route server c.method c.path c.sub_domain c.callback) []

/-- The route that `add_route` stores for the arguments `c`. -/
def stored (c : route_t) : route_t :=
  { c with method := c.method.take 15, path := c.path.take 264 }

/-- The route matches the request: same method, `match_route` accepts the path
for the pattern, and the subdomains are both absent or both present and equal. -/
def route_matches (req : http_req_t) (r : route_t) : Prop :=
  req.method = r.method ∧ match_route req.path r.path = true ∧ r.sub_domain = req.sub_domain

instance route_matches_decidable (req : http_req_t) (r : route_t) :
    Decidable (route_matches req r) := by
  unfold route_matches; infer_instance

/-- The pattern made of the literal pieces `lit` of `pieces`, each followed by a
`*`, and the literal `tail`. -/
def pattern_of : List (List Byte × List Byte) → List Byte → List Byte
  | [], tail => tail
  | (lit, _) :: rest, tail => lit ++ 42 :: pattern_of rest tail

/-- The path that puts the segment `seg` of each piece in the place of its `*`. -/
def fill : List (List Byte × List Byte) → List Byte → List Byte
  | [], tail => tail
  | (lit, seg) :: rest, tail => lit ++ seg ++ fill rest tail

/-- Each `*` of `pattern_of pieces tail` stands for a whole segment of
`fill pieces tail`: the literals hold no `*`, the segments no slash and at most
63 bytes, a slash follows each `*` unless the pattern ends there, and the path
does not end just where the last `*` begins. -/
def whole_segments : List (List Byte × List Byte) → List Byte → Prop
  | [], tail => 42 ∉ tail
  | (lit, seg) :: rest, tail =>
    42 ∉ lit ∧ 47 ∉ seg ∧ seg.length ≤ 63 ∧
      ((pattern_of rest tail).head? = some 47 ∨ (rest = [] ∧ tail = [] ∧ seg ≠ [])) ∧
      whole_segments rest tail

instance whole_segments_decidable :
    (pieces : List (List Byte × List Byte)) → (tail : List Byte) →
      Decidable (whole_segments pieces tail)
  | [], tail => inferInstanceAs (Decidable (42 ∉ tail))
  | (lit, seg) :: rest, tail =>
    have := whole_segments_decidable rest tail
    inferInstanceAs (Decidable (42 ∉ lit ∧ 47 ∉ seg ∧ seg.length ≤ 63 ∧
      ((pattern_of rest tail).head? = some 47 ∨ (rest = [] ∧ tail = [] ∧ seg ≠ [])) ∧
      whole_segments rest tail))

/-- The text before the last `.`, empty when there is none: the host with its
rightmost label stripped. -/
def strip_last_label (h : List Byte) : List Byte :=
  ((h.reverse.dropWhile (fun c => c ≠ 46)).drop 1).reverse

/-- The subdomain the specification derives from a `Host` value: with the value
cut at its port, the leftmost label when a `.` remains after the rightmost label
is stripped. -/
def subdomain_of_host (value : List Byte) : Option (List Byte) :=
  let h := value.takeWhile (fun c => c ≠ 58)
  if 46 ∈ strip_last_label h then some (h.takeWhile (fun c => c ≠ 46)) else none

/-! ## `server.c`: the buffer pool and the connection pool -/

def BUFFER_SIZE : Nat := 1024 * 1024
def BUFFER_POOL_SIZE : Nat := 100
def CONNECTION_POOL_SIZE : Nat := 1000
def KEEPALIVE_TIMEOUT : Int := 30

/-- The number of values of a `size_t`: the counters of the pools wrap at it. -/
def SIZE_T : Nat := 2 ^ 64

/-- The struct `buffer_t` of `server.h`: `addr` is the address of the record
(its identity), `size` the capacity of `data`; `next` is the order of the free
list, and the bytes of `data` are kept by the code that uses the buffer. -/
structure buffer_t where
  addr : Nat
  size : Nat
  deriving DecidableEq, Repr

/-- The struct `buffer_pool_t` of `server.h`, with the list `free_buffers` from
its head on. -/
structure buffer_pool_t where
  free_buffers : List buffer_t := []
  count : Nat := 0
  deriving DecidableEq, Repr

/-- The function `get_buffer` of server.c 286-307: the buffer returned and the
pool left. `fresh` is the address that `malloc` gives to a new record. -/
def get_buffer (pool : buffer_pool_t) (min_size fresh : Nat) : buffer_t × buffer_pool_t :=
  match pool.free_buffers with
  | buf :: next =>
    if buf.size ≥ min_size then
      (buf, { free_buffers := next, count := (pool.count + SIZE_T - 1) % SIZE_T })
    else
      ({ addr := fresh, size := if min_size < BUFFER_SIZE then BUFFER_SIZE else min_size }, pool)
  | [] =>
    ({ addr := fresh, size := if min_size < BUFFER_SIZE then BUFFER_SIZE else min_size }, pool)

/-- The function `release_buffer` of server.c 309-320 (`none` is the NULL
argument): the pool left and the buffer handed to `free`, if any. -/
def release_buffer (pool : buffer_pool_t) (buf : Option buffer_t) :
    buffer_pool_t × Option buffer_t :=
  match buf with
  | none => (pool, none)
  | some b =>
    if pool.count < BUFFER_POOL_SIZE then
      ({ free_buffers := b :: pool.free_buffers, count := (pool.count + 1) % SIZE_T }, none)
    else (pool, some b)

/-- A call on the buffer pool. -/
inductive buffer_op where
  | get (min_size fresh : Nat)
  | release (buf : Option buffer_t)
  deriving DecidableEq, Repr

/-- The buffer pool after a sequence of calls. -/
def run_buffer_ops : buffer_pool_t → List buffer_op → buffer_pool_t
  | pool, [] => pool
  | pool, .get min_size fresh :: ops => run_buffer_ops (get_buffer pool min_size fresh).2 ops
  | pool, .release buf :: ops => run_buffer_ops (release_buffer pool buf).1 ops

/-- The struct `client_con_t` of `server.h`: `addr` is the address of the
record (its identity); `next` is the order of the list that holds it. -/
structure client_con_t where
  addr : Nat
  fd : Int := 0
  last_activity : Int := 0
  keepalive_requests : Int := 0
  deriving DecidableEq, Repr

/-- The struct `connection_pool_t` of `server.h`, with both lists from their
heads on. -/
structure connection_pool_t where
  active_connections : List client_con_t := []
  free_connections : List client_con_t := []
  active_count : Nat := 0
  total_count : Nat := 0
  deriving DecidableEq, Repr

/-- The function `get_connection` of server.c 247-269: the record returned and
the pool left, `none` for NULL. `now` is what `time(NULL)` returns and `fresh`
the address that `malloc` gives to a new record. -/
def get_connection (pool : connection_pool_t) (fd now : Int) (fresh : Nat) :
    Option (client_con_t × connection_pool_t) :=
  let taken : Option (Nat × connection_pool_t) :=
    match pool.free_connections with
    | conn :: next => some (conn.addr, { pool with free_connections := next })
    | [] =>
      if pool.total_count < CONNECTION_POOL_SIZE then
        some (fresh, { pool with total_count := pool.total_count + 1 })
      else none
  match taken with
  | none => none
  | some (addr, pool) =>
    let conn : client_con_t :=
      { addr := addr, fd := fd, last_activity := now, keepalive_requests := 0 }
    some (conn, { pool with active_connections := conn :: pool.active_connections,
                            active_count := (pool.active_count + 1) % SIZE_T })

/-- The walk of `release_connection` (server.c 272-279) along the active list:
the list without the first record at the address `addr`, `none` when the walk
reaches the end of the list. -/
def unlink_connection : List client_con_t → Nat → Option (List client_con_t)
  | [], _ => none
  | c :: next, addr =>
    if c.addr = addr then some next
    else (unlink_connection next addr).map (fun l => c :: l)

/-- The function `release_connection` of server.c 271-283; `conn` is the record
at the pointer passed, with the values it holds at the call. -/
def release_connection (pool : connection_pool_t) (conn : client_con_t) : connection_pool_t :=
  let pool :=
    match unlink_connection pool.active_connections conn.addr with
    | some active =>
      { pool with active_connections := active,
                  active_count := (pool.active_count + SIZE_T - 1) % SIZE_T }
    | none => pool
  { pool with free_connections := conn :: pool.free_connections }

/-- The loop of `cleanup_expired_connections` (server.c 775-786) from the
position `current` of the active list on: the records it keeps, the free list,
`active_count` and the descriptors closed, in the order of the calls. -/
def cleanup_loop : List client_con_t → Int → List client_con_t → Nat →
    List client_con_t × List client_con_t × Nat × List Int
  | [], _, free, count => ([], free, count, [])
  | conn :: next, now, free, count =>
    if now - conn.last_activity > KEEPALIVE_TIMEOUT then
      let r := cleanup_loop next now (conn :: free) ((count + SIZE_T - 1) % SIZE_T)
      (r.1, r.2.1, r.2.2.1, conn.fd :: r.2.2.2)
    else
      let r := cleanup_loop next now free count
      (conn :: r.1, r.2.1, r.2.2.1, r.2.2.2)

/-- The function `cleanup_expired_connections` of server.c 771-787 at the time
`now`: the pool left and the descriptors closed. -/
def cleanup_expired_connections (pool : connection_pool_t) (now : Int) :
    connection_pool_t × List Int :=
  let r := cleanup_loop pool.active_connections now pool.free_connections pool.active_count
  ({ pool with active_connections := r.1, free_connections := r.2.1, active_count := r.2.2.1 },
    r.2.2.2)

/-- A call on the connection pool. -/
inductive conn_op where
  | get (fd now : Int) (fresh : Nat)
  | release (conn : client_con_t)
  | cleanup (now : Int)
  deriving DecidableEq, Repr

/-- The connection pool after a sequence of calls. -/
def run_conn_ops : connection_pool_t → List conn_op → connection_pool_t
  | pool, [] => pool
  | pool, .get fd now fresh :: ops =>
    match get_connection pool fd now fresh with
    | some r => run_conn_ops r.2 ops
    | none => run_conn_ops pool ops
  | pool, .release conn :: ops => run_conn_ops (release_connection pool conn) ops
  | pool, .cleanup now :: ops => run_conn_ops (cleanup_expired_connections pool now).1 ops

/-- The addresses of the records a list holds. -/
def addrs (l : List client_con_t) : List Nat := l.map (fun c => c.addr)

/-- Every allocated record is in exactly one of the active list and the free
list, once: no address occurs twice in the two lists together, their lengths
add up to `total_count`, and `active_count` is the length of the active list. -/
def conn_pool_consistent (pool : connection_pool_t) : Prop :=
  (addrs pool.active_connections ++ addrs pool.free_connections).Nodup ∧
    pool.total_count = pool.active_connections.length + pool.free_connections.length ∧
    pool.active_count = pool.active_connections.length

instance conn_pool_consistent_decidable (pool : connection_pool_t) :
    Decidable (conn_pool_consistent pool) := by
  unfold conn_pool_consistent; infer_instance

/-- A sequence of pool calls in which `malloc` never returns the address of a
record of the pool and every `release_connection` is given a record that is on
the active list at the time of the call. -/
def releases_active : connection_pool_t → List conn_op → Prop
  | _, [] => True
  | pool, .get fd now fresh :: ops =>
    fresh ∉ addrs pool.active_connections ++ addrs pool.free_connections ∧
      match get_connection pool fd now fresh with
      | some r => releases_active r.2 ops
      | none => releases_active pool ops
  | pool, .release conn :: ops =>
    conn.addr ∈ addrs pool.active_connections ∧
      releases_active (release_connection pool conn) ops
  | pool, .cleanup now :: ops => releases_active (cleanup_expired_connections pool now).1 ops

/-! ## The heap blocks of a request -/

/-- A call of `malloc` (also through `strdup`, `strndup` and `calloc`) or of
`free` on a block that belongs to the request. The blocks are numbered in the
order of their allocation; `free(NULL)` does nothing and is no event. -/
inductive heap_event where
  | malloc (block : Nat)
  | free (block : Nat)
  deriving DecidableEq, Repr

/-- The pointers that an `http_req_t` holds: `none` is NULL, `some b` points to
the block `b`, freed or not. `header_strings` lists the name and the value of the
entries of `headers` below `headers_len`. -/
structure http_req_ptrs where
  sub_domain : Option Nat := none
  method : Option Nat := none
  path : Option Nat := none
  version : Option Nat := none
  headers : Option Nat := none
  header_strings : List (Nat × Nat) := []
  body : Option Nat := none
  deriving DecidableEq, Repr

/-- The allocations and releases of `parse_http_request` (server.c 336-451,
with those of `sanitize_path`, utils.c 162-202) and the pointers it leaves in
`*http_req`, along the same tests as `parse_http_request`. Block 1 is the method,
2 the buffer of `sanitize_path`, 3 the version, 4 the header array, then two
blocks for each header stored and one for the body. -/
def parse_http_request_heap (buffer : List Byte) (buffer_len : Nat) :
    server_status_t × http_req_ptrs × List heap_event :=
  if buffer_len > MAX_REQUEST_SIZE then (SERVER_ERR_PROTOCOL, {}, [])
  else
    let text := cstr buffer
    match strstr text CRLF with
    | none => (SERVER_ERR_PROTOCOL, {}, [])
    | some request_line_len =>
      if request_line_len > MAX_URI_LENGTH then (SERVER_ERR_PROTOCOL, {}, [])
      else
        let request_line := text.take request_line_len
        match strchr request_line 32 with
        | none => (SERVER_ERR_PROTOCOL, {}, [])
        | some method_end =>
          let method := request_line.take method_end
          if !validate_http_method method then (SERVER_ERR_PROTOCOL, {}, [])
          else
            let path_start := request_line.drop (method_end + 1)
            match strchr path_start 32 with
            | none =>
              -- 365, 371: strndup, then free(http_req->method)
              (SERVER_ERR_PROTOCOL, { method := some 1 }, [.malloc 1, .free 1])
            | some path_end =>
              let path := path_start.take path_end
              if path.length = 0 ∨ path.length ≥ MAX_PATH_LENGTH then
                -- sanitize_path returns NULL before its malloc; 378
                (SERVER_ERR_SECURITY, { method := some 1 }, [.malloc 1, .free 1])
              else
                match sanitize_loop path with
                | none =>
                  -- sanitize_path frees its buffer and returns NULL; 378
                  (SERVER_ERR_SECURITY, { method := some 1 },
                    [.malloc 1, .malloc 2, .free 2, .free 1])
                | some sanitized_path =>
                  let version_start := path_start.drop (path_end + 1)
                  if version_start.take 7 ≠ HTTP_1 then
                    -- 385-386
                    (SERVER_ERR_PROTOCOL, { method := some 1, path := some 2 },
                      [.malloc 1, .malloc 2, .free 1, .free 2])
                  else
                    let req0 : http_req_t :=
                      { method := method.take MAX_METHOD_LENGTH
                        path := sanitized_path
                        version := version_start.take 16 }
                    let header_line := text.drop (request_line_len + 2)
                    let req := (parse_headers (header_line.length + 1) header_line req0).getD req0
                    let n := req.headers.length
                    let header_strings := (List.range n).map (fun i => (5 + 2 * i, 6 + 2 * i))
                    let body := if req.body.isSome then some (5 + 2 * n) else none
                    (SERVER_OK,
                      { method := some 1, path := some 2, version := some 3, headers := some 4,
                        header_strings := header_strings, body := body },
                      [.malloc 1, .malloc 2, .malloc 3, .malloc 4] ++
                        header_strings.flatMap (fun p => [.malloc p.1, .malloc p.2]) ++
                        (if req.body.isSome then [.malloc (5 + 2 * n)] else []))

/-- The calls of `free` made by `http_req_free` (server.c 453-465). -/
def http_req_free_heap (req : http_req_ptrs) : List heap_event :=
  let free (p : Option Nat) : List heap_event :=
    match p with
    | some b => [.free b]
    | none => []
  free req.sub_domain ++ free req.method ++ free req.path ++ free req.version ++
    req.header_strings.flatMap (fun p => [.free p.1, .free p.2]) ++
    free req.headers ++ free req.body

/-- The allocations and releases of `extract_subdomain` (server.c 539-572) and
the pointer it leaves in `sub_domain`; `next` is the number of its first block,
the copy `sub` of the host. -/
def extract_subdomain_heap (req : http_req_t) (next : Nat) : Option Nat × List heap_event :=
  match get_header req HOST with
  | none => (none, [])
  | some _ =>
    if (extract_subdomain req).sub_domain.isSome then
      (some (next + 1), [.malloc next, .malloc (next + 1), .free next])
    else (none, [.malloc next, .free next])

/-- The allocations and releases of the strings of the request during
`handle_client` (server.c 700-731) on the received bytes `buffer`. When
`parse_http_request` fails, `cleanup_request` calls `http_req_free`; otherwise
`read_full_body` returns at once (the parser keeps no `Content-Length`, see
`read_full_body_after_parse`), `extract_subdomain` runs, the handlers leave the
request alone, and `http_req_free` ends the exchange. -/
def handle_client_heap (buffer : List Byte) : List heap_event :=
  let parsed := parse_http_request_heap buffer buffer.length
  if parsed.1 ≠ SERVER_OK then parsed.2.2 ++ http_req_free_heap parsed.2.1
  else
    match parse_http_request buffer buffer.length with
    | .error _ => parsed.2.2 ++ http_req_free_heap parsed.2.1
    | .ok req =>
      let next := 5 + 2 * req.headers.length + (if req.body.isSome then 1 else 0)
      let sub := extract_subdomain_heap req next
      parsed.2.2 ++ sub.2 ++ http_req_free_heap { parsed.2.1 with sub_domain := sub.1 }

/-- The blocks a trace allocates. -/
def allocated (trace : List heap_event) : List Nat :=
  trace.filterMap (fun e => match e with
    | .malloc b => some b
    | .free _ => none)

/-- The blocks a trace frees, one entry for each call of `free`. -/
def released (trace : List heap_event) : List Nat :=
  trace.filterMap (fun e => match e with
    | .malloc _ => none
    | .free b => some b)

/-- Every block the trace allocates is freed exactly once in it. -/
def released_exactly_once (trace : List heap_event) : Prop :=
  ∀ b ∈ allocated trace, trace.count (.free b) = 1

instance released_exactly_once_decidable (trace : List heap_event) :
    Decidable (released_exactly_once trace) := by
  unfold released_exactly_once; infer_instance

/-! ## `server.c`: responses and `handle_client` -/

/-- The enum `response_status_t` of `server.h`. -/
inductive response_status_t where
  | OK_OK
  | OK_CREATED
  | OK_NOCONTENT
  | ERR_AUTH
  | ERR_NOTFOUND
  | ERR_BADREQ
  | ERR_UNPROC
  | ERR_INTERR
  deriving DecidableEq, Repr

open response_status_t

/-- The numeric value of each member of `response_status_t` (server.h 25-32). -/
def response_status_t.code : response_status_t → Nat
  | OK_OK => 200
  | OK_CREATED => 201
  | OK_NOCONTENT => 204
  | ERR_AUTH => 401
  | ERR_NOTFOUND => 404
  | ERR_BADREQ => 400
  | ERR_UNPROC => 422
  | ERR_INTERR => 500

/-- The struct `response_info_t` of `server.h`. -/
structure response_info_t where
  status : Nat
  message : List Byte
  deriving DecidableEq, Repr

/-- The function `get_response_info` of server.c 48-67; the last line is the
`default` branch of the switch. -/
def get_response_info (status : response_status_t) : response_info_t :=
  match status with
  | OK_OK => { status := 200, message := str "OK" }
  | OK_CREATED => { status := 201, message := str "Created" }
  | OK_NOCONTENT => { status := 204, message := str "No Content" }
  | ERR_NOTFOUND => { status := 404, message := str "Not Found" }
  | ERR_BADREQ => { status := 400, message := str "Bad Request" }
  | ERR_UNPROC => { status := 422, message := str "Unprocessable Content" }
  | ERR_INTERR => { status := 500, message := str "Internal Server Error" }
  | _ => { status := 500, message := str "Unknown Error" }

/-- The text that `printf` writes for `%d` or `%zu` and a natural number. -/
def decimal (n : Nat) : List Byte := (Nat.toDigits 10 n).map Char.toNat

/-- The array `body` that `send_error_response` fills (server.c 79-80);
`snprintf` keeps at most 511 bytes. -/
def send_error_response_body (status : response_status_t) : List Byte :=
  let info := get_response_info status
  (str "<html><body><h1>" ++ decimal info.status ++ str " " ++ info.message ++
    str "</h1></body></html>").take 511

/-- The array `response` that `send_error_response` fills and sends
(server.c 82-88); `snprintf` keeps at most 1023 bytes. -/
def send_error_response_text (status : response_status_t) : List Byte :=
  let info := get_response_info status
  let body := send_error_response_body status
  (str "HTTP/1.1 " ++ decimal info.status ++ str " " ++ info.message ++ str "\r\n" ++
    str "Content-Type: text/html\r\n" ++
    str "Content-Length: " ++ decimal body.length ++ str "\r\n" ++
    str "Connection: close\r\n\r\n" ++ body).take 1023

/-- The ways a call of `serve_file` (server.c 467-537) can end, one for each of
its `return` statements; which one is taken is decided by the file system and
the socket. -/
inductive serve_outcome where
  | open_failed        -- 480-482: neither directory holds the file
  | fstat_failed       -- 485-488
  | not_regular        -- 490-493
  | no_buffer          -- 497-501: `get_buffer` returned NULL
  | header_not_sent    -- 515-518
  | sendfile_failed    -- 530-531
  | sent               -- the whole file was transferred
  deriving DecidableEq, Repr

/-- The status that `serve_file` returns for each way it can end. -/
def serve_file : serve_outcome → server_status_t
  | .open_failed => SERVER_ERR_FILE
  | .fstat_failed => SERVER_ERR_FILE
  | .not_regular => SERVER_ERR_FILE
  | .no_buffer => SERVER_ERR_MEMORY
  | .header_not_sent => SERVER_ERR_NETWORK
  | .sendfile_failed => SERVER_ERR_NETWORK
  | .sent => SERVER_OK

/-- What `handle_client` does to the outside, in the order of the calls.
`undefined_behaviour` ends a trace at a call whose behaviour C leaves undefined
(a second `free` of a block; glibc aborts the process there). -/
inductive event where
  | close (fd : Int)
  | send_error_response (fd : Int) (status : response_status_t)
  | callback (fd : Int) (r : route_t) (req : http_req_t)
  | serve_file (fd : Int) (path : List Byte) (result : server_status_t)
  | undefined_behaviour
  deriving DecidableEq, Repr

/-- The function `handle_static_file` of server.c 597-607; `outcome` is how the
call of `serve_file` ends. -/
def handle_static_file (client_fd : Int) (req : http_req_t) (outcome : serve_outcome) :
    List event :=
  if req.method ≠ str "GET" then [.send_error_response client_fd ERR_NOTFOUND]
  else
    let file_result := serve_file outcome
    if file_result ≠ SERVER_OK then
      [.serve_file client_fd req.path file_result, .send_error_response client_fd ERR_NOTFOUND]
    else [.serve_file client_fd req.path file_result]

/-- The result of the first `recv` of `handle_client`: -1 with EAGAIN or
EWOULDBLOCK, -1 with another error, or the bytes received (none: the peer has
closed). -/
inductive recv_result where
  | would_block
  | failed
  | data (bytes : List Byte)
  deriving DecidableEq, Repr

/-- What the outside gives to one call of `handle_client`: the addresses that
`malloc` would return, the two values of `time(NULL)`, the results of `recv`
and the way a call of `serve_file` ends. -/
structure client_io where
  conn_addr : Nat := 0
  buf_addr : Nat := 0
  now : Int := 0
  now_end : Int := 0
  first_recv : recv_result
  more_recvs : List (List Byte) := []
  outcome : serve_outcome := .open_failed

/-- The state of the process that `handle_client` works on: both pools and the
route list `server.route`. -/
structure server_state where
  conn_pool : connection_pool_t := {}
  buffer_pool : buffer_pool_t := {}
  route : List route_t := []

/-- The function `cleanup_request` of server.c 652-657 on the pools, for a
request buffer and a connection that are not NULL. -/
def cleanup_request (st : server_state) (buf : buffer_t) (conn : client_con_t)
    (client_fd : Int) (should_close : Bool) : server_state × List event :=
  ({ st with buffer_pool := (release_buffer st.buffer_pool (some buf)).1,
             conn_pool := release_connection st.conn_pool conn },
    if should_close ∧ client_fd ≥ 0 then [.close client_fd] else [])

/-- The lines 700-733 of `handle_client`, from the status that
`parse_http_request` and `read_full_body` gave (`req` is the request when both
returned SERVER_OK). The heap blocks of the request are not part of this
state: `handle_client` looks at them before it comes here. -/
def handle_request (st : server_state) (client_fd : Int) (io : client_io)
    (conn : client_con_t) (request_buf : buffer_t) (status : server_status_t)
    (req : http_req_t) : server_state × List event :=
  if status ≠ SERVER_OK then
    let r := cleanup_request st request_buf conn client_fd true
    (r.1, .send_error_response client_fd ERR_BADREQ :: r.2)
  else
    let st := { st with buffer_pool := (release_buffer st.buffer_pool (some request_buf)).1 }
    let req := extract_subdomain req
    let routed := process_routes st.route req
    let handled := routed.2.map (fun c => event.callback client_fd c.1 c.2)
    let served := if routed.1 = 0 then handle_static_file client_fd req io.outcome else []
    let conn := { conn with keepalive_requests := conn.keepalive_requests + 1,
                            last_activity := io.now_end }
    ({ st with conn_pool := release_connection st.conn_pool conn },
      handled ++ served ++ [.close client_fd])

/-- The function `handle_client` of server.c 659-733: the state left and what
was done to the outside; `none` stands for the undefined `strlen(NULL)` inside
`read_full_body`. After a failed parse that leaves a freed block in the request
(see `parse_http_request_heap`), `http_req_free` is the first call of
`cleanup_request` and frees that block again: the trace ends there, with the
state as it was before `cleanup_request`. -/
def handle_client (st : server_state) (client_fd : Int) (io : client_io) :
    Option (server_state × List event) :=
  match get_connection st.conn_pool client_fd io.now io.conn_addr with
  | none => some (st, [.close client_fd])
  | some (conn, conn_pool) =>
    let got := get_buffer st.buffer_pool MAX_REQUEST_SIZE io.buf_addr
    let request_buf := got.1
    let st := { st with conn_pool := conn_pool, buffer_pool := got.2 }
    let released : server_state :=
      { st with buffer_pool := (release_buffer st.buffer_pool (some request_buf)).1,
                conn_pool := release_connection st.conn_pool conn }
    match io.first_recv with
    | .would_block => some (released, [])
    | .failed => some (released, [.close client_fd])
    | .data bytes =>
      let received := bytes.take (request_buf.size - 1)
      if received.length = 0 then some (released, [.close client_fd])
      else
        match read_request received io.more_recvs with
        | none => none
        | some (status, req, _) =>
          if status ≠ SERVER_OK ∧ ¬ released_exactly_once (handle_client_heap received) then
            -- 702-704, 711-713: the response is sent, then `cleanup_request` calls
            -- `http_req_free`, which frees a block that the parser has freed
            some (st, [.send_error_response client_fd ERR_BADREQ, .undefined_behaviour])
          else some (handle_request st client_fd io conn request_buf status (req.getD {}))

/-! ## Vocabulary of the capture bound -/

/-- The cells of `req->wildcards` that `get_wildcards` writes for the captures
`wildcards`: capture number `row` goes to the row of that number, its bytes to
the columns from 0 on and its terminator to the column after the last byte. -/
def wildcard_writes (wildcards : List (List Byte)) : List (Nat × Nat) :=
  wildcards.enum.flatMap (fun w => (List.range (w.2.length + 1)).map (fun col => (w.1, col)))

/-! ## `server.c`: the senders and the MIME table -/

/-- The largest value of the type `int`, in which `send_string` and
`send_plain` keep the length of the response. -/
def INT_MAX : Nat := 2147483647

/-- What the format of `send_string` (server.c 114-119) prints for the string
`s`: `%zu` prints `str_len`, which is `strlen(str)`, and `%s` the string. -/
def send_string_format (s : List Byte) : List Byte :=
  str "HTTP/1.1 200 OK\r\n" ++
    str "Content-Type: text/html; charset=utf-8\r\n" ++
    str "Content-Length: " ++ decimal s.length ++ str "\r\n" ++
    str "Connection: close\r\n\r\n" ++ s

/-- The array `response` that `send_string` fills: `snprintf` keeps at most
`response_size - 1` bytes, with `response_size = str_len + 512`. -/
def send_string_text (s : List Byte) : List Byte :=
  (send_string_format s).take (s.length + 512 - 1)

/-- The value `response_len` of `send_string`: what `snprintf` returns, the
length of the text whether it fitted or not. -/
def send_string_response_len (s : List Byte) : Nat := (send_string_format s).length

/-- What the format of `send_plain` (server.c 158-163) prints for the string
`s`. -/
def send_plain_format (s : List Byte) : List Byte :=
  str "HTTP/1.1 200 OK\r\n" ++
    str "Content-Type: text/plain\r\n" ++
    str "Content-Length: " ++ decimal s.length ++ str "\r\n" ++
    str "Connection: close\r\n\r\n" ++ s

/-- The array `response` that `send_plain` fills. -/
def send_plain_text (s : List Byte) : List Byte :=
  (send_plain_format s).take (s.length + 512 - 1)

/-- The value `response_len` of `send_plain`. -/
def send_plain_response_len (s : List Byte) : Nat := (send_plain_format s).length

/-- The array `headers` of `send_json_response` (server.c 193-201) after both
calls of `snprintf`: the first keeps at most 1023 bytes, the second appends the
blank line at the offset `headers_len`. -/
def send_json_response_headers (status : response_status_t) (json : List Byte) : List Byte :=
  let info := get_response_info status
  let first :=
    str "HTTP/1.1 " ++ decimal info.status ++ str " " ++ info.message ++ str "\r\n" ++
      str "Content-Type: application/json\r\n" ++
      str "Content-Length: " ++ decimal json.length ++ str "\r\n" ++
      str "Connection: keep-alive\r\n"
  first.take 1023 ++ (str "\r\n").take 1023

/-- Everything `send_json_response` hands to `send` when no call fails: the
headers, then the JSON text in chunks. -/
def send_json_response_text (status : response_status_t) (json : List Byte) : List Byte :=
  send_json_response_headers status json ++ json

/-- The result of one call of `send`: the number of bytes taken, or -1 with
`errno` set to EAGAIN or EWOULDBLOCK, or -1 with another error. -/
inductive send_result where
  | sent (n : Nat)
  | would_block
  | failed
  deriving DecidableEq, Repr

/-- The loop `while (total_sent < response_len)` of `send_string` (server.c
121-138) on the bytes of the response not yet sent: the bytes the socket took,
given the results of the calls of `send` in their order. The loop leaves on
every negative result and on 0. -/
def send_string_loop : List send_result → List Byte → List Byte
  | [], _ => []
  | result :: results, remaining =>
    if remaining = [] then []
    else
      match result with
      | .sent n => if n = 0 then [] else remaining.take n ++ send_string_loop results (remaining.drop n)
      | .would_block => []
      | .failed => []

/-- The same loop in `send_plain` (server.c 165-182). -/
def send_plain_loop : List send_result → List Byte → List Byte
  | [], _ => []
  | result :: results, remaining =>
    if remaining = [] then []
    else
      match result with
      | .sent n => if n = 0 then [] else remaining.take n ++ send_plain_loop results (remaining.drop n)
      | .would_block => []
      | .failed => []

/-- The loop `while (sent < total)` of `send_error_response` (server.c 90-98):
a would-block result is followed by `continue`, another error by `break`. -/
def send_error_response_loop : List send_result → List Byte → List Byte
  | [], _ => []
  | result :: results, remaining =>
    if remaining = [] then []
    else
      match result with
      | .sent n => remaining.take n ++ send_error_response_loop results (remaining.drop n)
      | .would_block => send_error_response_loop results remaining
      | .failed => []

/-- The bytes a client gets from `send_string(client_fd, s)` for a string that
is not NULL, given the results of the calls of `send`. -/
def send_string (s : List Byte) (results : List send_result) : List Byte :=
  send_string_loop results ((send_string_text s).take (send_string_response_len s))

/-- The bytes a client gets from `send_plain(client_fd, s)` for a string that is
not NULL, given the results of the calls of `send`. -/
def send_plain (s : List Byte) (results : List send_result) : List Byte :=
  send_plain_loop results ((send_plain_text s).take (send_plain_response_len s))

/-- The struct `mime_entry_t` of `server.h`. -/
structure mime_entry_t where
  extension : List Byte
  mime_type : List Byte
  deriving DecidableEq, Repr

/-- The table `mime_types` of server.c 27-39. -/
def mime_types : List mime_entry_t :=
  [{ extension := str ".html", mime_type := str "text/html" },
   { extension := str ".css", mime_type := str "text/css" },
   { extension := str ".js", mime_type := str "application/javascript" },
   { extension := str ".png", mime_type := str "image/png" },
   { extension := str ".jpg", mime_type := str "image/jpeg" },
   { extension := str ".gif", mime_type := str "image/gif" },
   { extension := str ".txt", mime_type := str "text/plain" },
   { extension := str ".json", mime_type := str "application/json" },
   { extension := str ".svg", mime_type := str "image/svg+xml" },
   { extension := str ".pdf", mime_type := str "application/pdf" },
   { extension := str ".txt", mime_type := str "text/plain" }]

/-- The function `get_mime_type` of server.c 322-333. Byte 46 is `.`. -/
def get_mime_type (path : List Byte) : List Byte :=
  match strrchr path 46 with
  | none => str "application/octet-stream"
  | some dot =>
    match mime_types.find? (fun e => e.extension == path.drop dot) with
    | some e => e.mime_type
    | none => str "application/octet-stream"

/-! ## Vocabulary of the response claims -/

/-- A response as the specification lays it out: the status line, the headers
`Content-Type`, `Content-Length` and `Connection` in this order, a blank line
and the body, with the byte length of the body as the value of
`Content-Length`. -/
def response_text (status_line content_type connection body : List Byte) : List Byte :=
  status_line ++ CRLF ++
    str "Content-Type: " ++ content_type ++ CRLF ++
    str "Content-Length: " ++ decimal body.length ++ CRLF ++
    str "Connection: " ++ connection ++ CRLF ++
    CRLF ++ body

/-- The status line that the senders print for `status`. -/
def status_line (status : response_status_t) : List Byte :=
  str "HTTP/1.1 " ++ decimal (get_response_info status).status ++ str " " ++
    (get_response_info status).message

/-- The pairs of extension and MIME type that the specification lists. -/
def listed_mime_types : List (List Byte × List Byte) :=
  [(str ".html", str "text/html"), (str ".css", str "text/css"),
   (str ".js", str "application/javascript"), (str ".png", str "image/png"),
   (str ".jpg", str "image/jpeg"), (str ".gif", str "image/gif"),
   (str ".txt", str "text/plain"), (str ".json", str "application/json"),
   (str ".svg", str "image/svg+xml"), (str ".pdf", str "application/pdf")]

/-! ## Vocabulary of the claim on the request line -/

/-- The condition the specification gives for `parse_http_request` to return
SERVER_OK, in its words: the buffer is at most MAX_REQUEST_SIZE bytes, its text
has a CRLF, the first line `line` is at most MAX_URI_LENGTH bytes, the text `M`
before its first space is an allowed method, a second space ends the text `P`
that `sanitize_path` accepts, and the text `V` after it begins with `HTTP/1.`. -/
def request_line_accepted (buffer : List Byte) (buffer_len : Nat) : Prop :=
  buffer_len ≤ MAX_REQUEST_SIZE ∧
    ∃ line rest, cstr buffer = line ++ CRLF ++ rest ∧ ¬ CRLF <:+: line ∧
      line.length ≤ MAX_URI_LENGTH ∧
      ∃ M P V, line = M ++ 32 :: (P ++ 32 :: V) ∧ 32 ∉ M ∧ 32 ∉ P ∧
        M ∈ allowed_methods ∧ (sanitize_path P).isSome = true ∧ HTTP_1 <+: V

/-! ## `main.c`: the routes of the site -/

/-- The number that stands for the function `handle_root` in `callback`. -/
def handle_root : Nat := 0

/-- The number that stands for the function `handle_robots` in `callback`. -/
def handle_robots : Nat := 1

/-- The number that stands for the function `handle_log` in `callback`. -/
def handle_log : Nat := 2

/-- The literal that `handle_robots` (main.c 20-22) passes to `send_plain`. -/
def ROBOTS_TXT : List Byte := str "User-agent: *\nAllow: /"

/-- What a call of `handle_robots` hands to the socket: it calls `send_plain`
with its literal, once. -/
def handle_robots_sends (results : List send_result) : List Byte := send_plain ROBOTS_TXT results

/-- The route list `server.route` after `load_routes` (main.c 28-33). -/
def load_routes : List route_t :=
  add_route
    (add_route (add_route [] (str "GET") (str "/robots.txt") none handle_robots)
      (str "GET") (str "/") none handle_root)
    (str "GET") (str "/log") none handle_log

/-! ## `json/json.c` and `json/json_utils.c` -/

/-- The struct `json_t` of `json/json.h`. The elements of an array are listed
in index order, the pairs of an object in the order of the `next` pointers from
the head. A number is a `double`: the model covers the doubles that are whole
numbers of magnitude at most 2^53, each of them exact, and holds them as
integers; other doubles, negative zero among them, are outside the model. -/
inductive json_t where
  | JSON_NULL
  | JSON_TRUE
  | JSON_FALSE
  | JSON_NUMBER (number : Int)
  | JSON_STRING (string : List Byte)
  | JSON_ARRAY (elements : List json_t)
  | JSON_OBJECT (next : List (List Byte × json_t))
  deriving Repr

open json_t

/-- The function `json_create_null` of json.c 27-37. -/
def json_create_null : json_t := JSON_NULL

/-- The function `json_create_false` of json.c 39-49. -/
def json_create_false : json_t := JSON_FALSE

/-- The function `json_create_true` of json.c 51-62. -/
def json_create_true : json_t := JSON_TRUE

/-- The function `json_create_string` of json.c 64-82: `strdup` copies the bytes
before the first NUL. -/
def json_create_string (string : List Byte) : json_t := JSON_STRING (cstr string)

/-- The function `json_create_number` of json.c 84-96. -/
def json_create_number (number : Int) : json_t := JSON_NUMBER number

/-- The function `json_create_object` of json.c 98-112. -/
def json_create_object : json_t := JSON_OBJECT []

/-- The function `json_create_array` of json.c 114-132; the capacity has no
part in the value. -/
def json_create_array (_initial_capacity : Nat) : json_t := JSON_ARRAY []

/-- The function `json_array_add` of json.c 166-177: the value goes to the end
of the array; something that is not an array is left as it is (-1 is returned). -/
def json_array_add (array value : json_t) : json_t :=
  match array with
  | JSON_ARRAY elements => JSON_ARRAY (elements ++ [value])
  | other => other

/-- The function `json_object_add` of json.c 179-201: the new pair goes to the
head of the list, with a copy of the key; something that is not an object is
left as it is (-1 is returned). -/
def json_object_add (object : json_t) (key : List Byte) (value : json_t) : json_t :=
  match object with
  | JSON_OBJECT next => JSON_OBJECT ((cstr key, value) :: next)
  | other => other

/-- The digits without the zeros at their end. Byte 48 is `0`. -/
def strip_zeros (digits : List Byte) : List Byte :=
  (digits.reverse.dropWhile (fun c => c = 48)).reverse

/-- What `printf` writes for `%g` and a double that is a whole number (C11
7.21.6.1, precision 6): with X the decimal exponent, the plain digits when
X < 6, otherwise the value rounded to six significant digits (to nearest, ties
to even, as glibc does) in the style `d.ddddde+XX`, zeros at the end of the
fraction removed. Byte 45 is `-`, 46 is `.`. -/
def printf_g (number : Int) : List Byte :=
  let sign : List Byte := if number < 0 then [45] else []
  let m := number.natAbs
  let X := (decimal m).length - 1
  if X < 6 then sign ++ decimal m
  else
    let unit := 10 ^ (X - 5)
    let q := m / unit
    let r := m % unit
    let rounded := if 2 * r > unit ∨ (2 * r = unit ∧ q % 2 = 1) then q + 1 else q
    let mantissa := if rounded = 1000000 then 100000 else rounded
    let X := if rounded = 1000000 then X + 1 else X
    let digits := strip_zeros (decimal mantissa)
    sign ++ digits.take 1 ++ (if digits.drop 1 = [] then [] else 46 :: digits.drop 1) ++
      str "e+" ++ (if X < 10 then 48 :: decimal X else decimal X)

/-- The text that `escape_and_append_string` (json_utils.c 42-58) appends: the
string between two `"`, with a backslash before each `"` and each backslash.
Byte 34 is `"`, 92 the backslash. -/
def escape_and_append_string (s : List Byte) : List Byte :=
  34 :: s.flatMap (fun c => if c = 34 ∨ c = 92 then [92, c] else [c]) ++ [34]

mutual
/-- The text that `json_to_string` (json_utils.c 60-127) appends for a value;
the buffer is taken to grow as asked. Bytes 91 and 93 are the square brackets,
123 and 125 the braces, 44 the comma. -/
def json_to_string : json_t → List Byte
  | JSON_NULL => str "null"
  | JSON_TRUE => str "true"
  | JSON_FALSE => str "false"
  | JSON_NUMBER number => printf_g number
  | JSON_STRING string => escape_and_append_string string
  | JSON_ARRAY elements => 91 :: json_to_string_elements elements ++ [93]
  | JSON_OBJECT next => 123 :: json_to_string_pairs next ++ [125]
/-- The loop over the elements of an array (json_utils.c 90-96): a comma after
each element but the last. -/
def json_to_string_elements : List json_t → List Byte
  | [] => []
  | [element] => json_to_string element
  | element :: rest => json_to_string element ++ 44 :: json_to_string_elements rest
/-- The loop over the pairs of an object (json_utils.c 107-119): key, `: `,
value, and a comma when another pair follows. -/
def json_to_string_pairs : List (List Byte × json_t) → List Byte
  | [] => []
  | [(key, value)] => escape_and_append_string key ++ str ": " ++ json_to_string value
  | (key, value) :: rest =>
    escape_and_append_string key ++ str ": " ++ json_to_string value ++
      44 :: json_to_string_pairs rest
end

/-- The function `json_print` of json.c 223-237: the C string it returns. -/
def json_print (json : json_t) : List Byte := json_to_string json

/-- The result of a parsing function: the value returned with the position `*str`
after it, or NULL, or `outside` when the model does not follow the code (a
number that is not a whole number of magnitude at most 2^53, or no iterations
left). -/
inductive parse_t (α : Type) where
  | ok (value : α) (rest : List Byte)
  | null
  | outside
  deriving Repr

/-- The function `skip_whitespace` of json_utils.c 11-16. -/
def skip_whitespace (s : List Byte) : List Byte := s.dropWhile isspace

/-- The libc `isxdigit`. -/
def isxdigit (c : Byte) : Bool := isdigit c || (97 ≤ c && c ≤ 102) || (65 ≤ c && c ≤ 70)

/-- The value of the decimal digits `ds`. -/
def digits_value (ds : List Byte) : Nat := ds.foldl (fun acc c => acc * 10 + (c - 48)) 0

/-- The result of `strtod` in the model. -/
inductive strtod_t where
  | no_conversion
  | value (number : Int) (endptr : List Byte)
  | outside
  deriving Repr

/-- The libc `strtod` on a text that begins with a digit or a sign (C11
7.22.1.3): an optional sign, digits with an optional `.` among them, and an
optional exponent. The value is returned when it is a whole number of magnitude
at most 2^53 and not negative zero; hexadecimal texts, `inf`, `nan` and every
other value are `outside`. Byte 43 is `+`, 45 is `-`, 46 is `.`, 101 and 69 are
`e` and `E`. -/
def strtod (s : List Byte) : strtod_t :=
  let negative := s.head? = some 45
  let t := if s.head? = some 45 ∨ s.head? = some 43 then s.drop 1 else s
  if (t.take 2).map tolower = str "0x" ∨ (t.take 3).map tolower = str "inf" ∨
      (t.take 3).map tolower = str "nan" then .outside
  else
    let int_part := t.takeWhile isdigit
    let t1 := t.dropWhile isdigit
    let frac_part := if t1.head? = some 46 then (t1.drop 1).takeWhile isdigit else []
    let t2 := if t1.head? = some 46 then (t1.drop 1).dropWhile isdigit else t1
    if int_part = [] ∧ frac_part = [] then .no_conversion
    else
      let has_e := t2.head? = some 101 ∨ t2.head? = some 69
      let t3 := t2.drop 1
      let exp_negative := t3.head? = some 45
      let t4 := if t3.head? = some 45 ∨ t3.head? = some 43 then t3.drop 1 else t3
      let exp_digits := if has_e then t4.takeWhile isdigit else []
      let endptr := if exp_digits = [] then t2 else t4.dropWhile isdigit
      let exponent : Int :=
        if exp_negative then - (digits_value exp_digits : Int) else (digits_value exp_digits : Int)
      let mantissa := digits_value (int_part ++ frac_part)
      let scale : Int := exponent - (frac_part.length : Int)
      let whole : Option Nat :=
        if scale ≥ 0 then some (mantissa * 10 ^ scale.toNat)
        else if mantissa % 10 ^ (-scale).toNat = 0 then some (mantissa / 10 ^ (-scale).toNat)
        else none
      match whole with
      | none => .outside
      | some v =>
        if v > 2 ^ 53 ∨ (negative ∧ v = 0) then .outside
        else .value (if negative then - (v : Int) else (v : Int)) endptr

/-- The function `parse_number` of json_utils.c 129-135: the number and the new
position; when `strtod` converts nothing the number is 0 and the position
stays. -/
def parse_number (s : List Byte) : Option (Int × List Byte) :=
  match strtod s with
  | .no_conversion => some (0, s)
  | .value number endptr => some (number, endptr)
  | .outside => none

/-- The function `utf8_encode` of json_utils.c 182-199: the bytes stored, each
cut to a `char`. -/
def utf8_encode (codepoint : Nat) : List Byte :=
  if codepoint ≤ 0x7F then [codepoint % 256]
  else if codepoint ≤ 0x7FF then
    [(0xC0 ||| (codepoint >>> 6)) % 256, (0x80 ||| (codepoint &&& 0x3F)) % 256]
  else if codepoint ≤ 0xFFFF then
    [(0xE0 ||| (codepoint >>> 12)) % 256, (0x80 ||| ((codepoint >>> 6) &&& 0x3F)) % 256,
      (0x80 ||| (codepoint &&& 0x3F)) % 256]
  else
    [(0xF0 ||| (codepoint >>> 18)) % 256, (0x80 ||| ((codepoint >>> 12) &&& 0x3F)) % 256,
      (0x80 ||| ((codepoint >>> 6) &&& 0x3F)) % 256, (0x80 ||| (codepoint &&& 0x3F)) % 256]

/-- The value that the loop of `parse_string` gives to a hexadecimal digit. -/
def hex_value (c : Byte) : Nat := if isdigit c then c - 48 else tolower c - 97 + 10

/-- The loop `while (**str && **str != '"')` of `parse_string` (json_utils.c
209-260) from the position `*str` on, with the bytes stored so far in `buffer`;
NULL when the loop ends without the closing `"`. Byte 92 is the backslash, 117
is `u`. -/
def parse_string_loop : Nat → List Byte → List Byte → parse_t (List Byte)
  | 0, _, _ => .outside
  | _ + 1, [], _ => .null
  | fuel + 1, c :: rest, buffer =>
    if c = 34 then .ok buffer rest
    else if c = 92 then
      match rest with
      | [] => .null
      | e :: rest2 =>
        if e = 117 then
          let hex := (rest2.take 4).takeWhile isxdigit
          if hex.length = 4 then
            parse_string_loop fuel (rest2.drop 4)
              (buffer ++ utf8_encode (hex.foldl (fun cp d => cp * 16 + hex_value d) 0))
          else .null
        else if e = 110 then parse_string_loop fuel rest2 (buffer ++ [10])   -- n
        else if e = 116 then parse_string_loop fuel rest2 (buffer ++ [9])    -- t
        else if e = 114 then parse_string_loop fuel rest2 (buffer ++ [13])   -- r
        else if e = 98 then parse_string_loop fuel rest2 (buffer ++ [8])     -- b
        else if e = 102 then parse_string_loop fuel rest2 (buffer ++ [12])   -- f
        else if e = 92 then parse_string_loop fuel rest2 (buffer ++ [92])
        else if e = 34 then parse_string_loop fuel rest2 (buffer ++ [34])
        else if e = 47 then parse_string_loop fuel rest2 (buffer ++ [47])
        else .null
    else parse_string_loop fuel rest (buffer ++ [c])

/-- The function `parse_string` of json_utils.c 201-270: the bytes of the
buffer it returns and the position after the closing `"`. -/
def parse_string (s : List Byte) : parse_t (List Byte) :=
  match s with
  | 34 :: rest => parse_string_loop (rest.length + 1) rest []
  | _ => .null

mutual
/-- The function `parse_value` of json_utils.c 137-180, with `fuel` calls of the
three parsing functions allowed. Bytes 116, 102 and 110 are `t`, `f`, `n`. -/
def parse_value : Nat → List Byte → parse_t json_t
  | 0, _ => .outside
  | fuel + 1, s =>
    match skip_whitespace s with
    | [] => .null
    | c :: rest =>
      if c = 123 then parse_object fuel (c :: rest)
      else if c = 91 then parse_array fuel (c :: rest)
      else if c = 34 then
        match parse_string (c :: rest) with
        | .ok parsed_str after => .ok (json_create_string parsed_str) after
        | .null => .null
        | .outside => .outside
      else if c = 116 then
        if (c :: rest).take 4 = str "true" then .ok json_create_true ((c :: rest).drop 4)
        else .null
      else if c = 102 then
        if (c :: rest).take 5 = str "false" then .ok json_create_false ((c :: rest).drop 5)
        else .null
      else if c = 110 then
        if (c :: rest).take 4 = str "null" then .ok json_create_null ((c :: rest).drop 4)
        else .null
      else if isdigit c || c = 45 then
        match parse_number (c :: rest) with
        | some (number, after) => .ok (json_create_number number) after
        | none => .outside
      else .null
/-- The function `parse_object` of json_utils.c 272-346 up to its loop. -/
def parse_object : Nat → List Byte → parse_t json_t
  | 0, _ => .outside
  | fuel + 1, s =>
    match skip_whitespace s with
    | 123 :: rest =>
      match skip_whitespace rest with
      | 125 :: after => .ok json_create_object after
      | inner => parse_object_loop fuel inner json_create_object
    | _ => .null
/-- The loop `while (**str && **str != '}')` of `parse_object` and what follows
it (json_utils.c 290-345), with the object built so far. Byte 58 is `:`. -/
def parse_object_loop : Nat → List Byte → json_t → parse_t json_t
  | 0, _, _ => .outside
  | fuel + 1, s, object =>
    match s with
    | [] => .null
    | c :: rest =>
      if c = 125 then .ok object rest
      else
        match parse_string (skip_whitespace (c :: rest)) with
        | .null => .null
        | .outside => .outside
        | .ok key after_key =>
          match skip_whitespace after_key with
          | 58 :: after_colon =>
            match parse_value fuel (skip_whitespace after_colon) with
            | .null => .null
            | .outside => .outside
            | .ok value after_value =>
              match skip_whitespace after_value with
              | 44 :: after_comma =>
                if (skip_whitespace after_comma).head? = some 125 then .null
                else
                  parse_object_loop fuel (skip_whitespace after_comma)
                    (json_object_add object key value)
              | 125 :: after => .ok (json_object_add object key value) after
              | _ => .null
          | _ => .null
/-- The function `parse_array` of json_utils.c 348-404 up to its loop. -/
def parse_array : Nat → List Byte → parse_t json_t
  | 0, _ => .outside
  | fuel + 1, s =>
    match skip_whitespace s with
    | 91 :: rest =>
      match skip_whitespace rest with
      | 93 :: after => .ok (json_create_array 0) after
      | inner => parse_array_loop fuel inner (json_create_array 0)
    | _ => .null
/-- The loop `while (**str && **str != ']')` of `parse_array` and what follows
it (json_utils.c 366-403), with the array built so far. -/
def parse_array_loop : Nat → List Byte → json_t → parse_t json_t
  | 0, _, _ => .outside
  | fuel + 1, s, array =>
    match s with
    | [] => .null
    | c :: rest =>
      if c = 93 then .ok array rest
      else
        match parse_value fuel (skip_whitespace (c :: rest)) with
        | .null => .null
        | .outside => .outside
        | .ok element after_element =>
          match skip_whitespace after_element with
          | 44 :: after_comma =>
            if (skip_whitespace after_comma).head? = some 93 then .null
            else
              parse_array_loop fuel (skip_whitespace after_comma) (json_array_add array element)
          | 93 :: after => .ok (json_array_add array element) after
          | _ => .null
end

/-- The function `json_parse` of json.c 239-243; the text after the value is
not looked at. The parsing functions get three calls for each byte of the text
and three more, which is more than they make. -/
def json_parse (json_str : List Byte) : parse_t json_t :=
  parse_value (3 * json_str.length + 3) json_str

/-! ## libc lemmas -/

theorem cstr_append_of_not_mem (a b : List Byte) (h : 0 ∉ a) : cstr (a ++ b) = a ++ cstr b := by
  induction a with
  | nil => rfl
  | cons x xs ih =>
    have hx : x ≠ 0 := fun e => h (by simp [e])
    have hxs : 0 ∉ xs := fun e => h (by simp [e])
    have := ih hxs
    simp only [cstr] at this ⊢
    simp only [List.cons_append, List.takeWhile, hx, ne_eq, not_false_eq_true, decide_True]
    exact congrArg _ this

theorem cstr_of_not_mem (a : List Byte) (h : 0 ∉ a) : cstr a = a := by
  have := cstr_append_of_not_mem a [] h
  simpa [cstr] using this

theorem cstr_not_mem (b : List Byte) : 0 ∉ cstr b := by
  intro h
  have := List.mem_takeWhile_imp h
  simp at this

theorem strchr_append (a b : List Byte) (c : Byte) (h : c ∉ a) :
    strchr (a ++ c :: b) c = some a.length := by
  induction a with
  | nil => simp [strchr]
  | cons x xs ih =>
    have hx : x ≠ c := fun e => h (by simp [e])
    have hxs : c ∉ xs := fun e => h (by simp [e])
    simp [strchr, hx, ih hxs]

theorem strchr_none (a : List Byte) (c : Byte) (h : c ∉ a) : strchr a c = none := by
  induction a with
  | nil => rfl
  | cons x xs ih =>
    have hx : x ≠ c := fun e => h (by simp [e])
    have hxs : c ∉ xs := fun e => h (by simp [e])
    simp [strchr, hx, ih hxs]

theorem strchr_some (l : List Byte) (c : Byte) (k : Nat) (h : strchr l c = some k) :
    l = l.take k ++ c :: l.drop (k + 1) ∧ c ∉ l.take k := by
  induction l generalizing k with
  | nil => simp [strchr] at h
  | cons x xs ih =>
    by_cases hx : x = c
    · simp [strchr, hx] at h
      subst h; simp [hx]
    · simp only [strchr, hx, if_false, Option.map_eq_some'] at h
      obtain ⟨n, hn, rfl⟩ := h
      obtain ⟨h1, h2⟩ := ih n hn
      refine ⟨by simpa using h1, ?_⟩
      simp only [List.take_succ_cons, List.mem_cons, not_or]
      exact ⟨fun e => hx e.symm, h2⟩

theorem strstr_CRLF_append (line rest : List Byte) (h : ¬ CRLF <:+: line) :
    strstr (line ++ 13 :: 10 :: rest) CRLF = some line.length := by
  induction line with
  | nil => simp [strstr, CRLF, List.isPrefixOf]
  | cons x xs ih =>
    have hxs : ¬ CRLF <:+: xs := fun e => h (e.trans (List.suffix_cons x xs).isInfix)
    have hp : CRLF.isPrefixOf (x :: xs ++ 13 :: 10 :: rest) = false := by
      cases xs with
      | nil => simp [CRLF, List.isPrefixOf]
      | cons y ys =>
        by_contra hc
        simp only [CRLF, List.cons_append, List.isPrefixOf, Bool.and_true, Bool.not_eq_false,
          Bool.and_eq_true, beq_iff_eq] at hc
        apply h
        refine ⟨[], ys, ?_⟩
        simp [CRLF, hc.1, hc.2]
    simp only [List.cons_append] at hp
    simp [strstr, hp, ih hxs]

theorem strstr_CRLF_none (line : List Byte) (h : ¬ CRLF <:+: line) : strstr line CRLF = none := by
  induction line with
  | nil => simp [strstr, CRLF]
  | cons x xs ih =>
    have hxs : ¬ CRLF <:+: xs := fun e => h (e.trans (List.suffix_cons x xs).isInfix)
    have hp : CRLF.isPrefixOf (x :: xs) = false := by
      by_contra hc
      simp only [Bool.not_eq_false, List.isPrefixOf_iff_prefix] at hc
      exact h hc.isInfix
    simp [strstr, hp, ih hxs]

theorem strstr_CRLF_some (l : List Byte) (k : Nat) (h : strstr l CRLF = some k) :
    l = l.take k ++ 13 :: 10 :: l.drop (k + 2) ∧ ¬ CRLF <:+: l.take k := by
  induction l generalizing k with
  | nil => simp [strstr, CRLF] at h
  | cons x xs ih =>
    by_cases hp : CRLF.isPrefixOf (x :: xs) = true
    · simp only [strstr, hp, if_true, Option.some.injEq] at h
      subst h
      rw [List.isPrefixOf_iff_prefix] at hp
      obtain ⟨t, ht⟩ := hp
      simp only [CRLF, List.cons_append, List.nil_append] at ht
      simp [← ht, CRLF]
    · rw [strstr, if_neg hp, Option.map_eq_some'] at h
      obtain ⟨n, hn, rfl⟩ := h
      obtain ⟨h1, h2⟩ := ih n hn
      refine ⟨by simpa using h1, ?_⟩
      simp only [List.take_succ_cons]
      intro hin
      rcases List.infix_cons_iff.mp hin with hpre | hin2
      · apply hp
        rw [List.isPrefixOf_iff_prefix]
        exact hpre.trans (by simpa using (List.take_prefix (n+1) (x :: xs)))
      · exact h2 hin2

/-! ## `sanitize_path` -/

theorem path_char_iff (c : Byte) :
    (isalnum c || decide (c = 45) || decide (c = 95) || decide (c = 46) || decide (c = 47)) = true
      ↔ path_char c := by
  simp only [isalnum, path_char, Bool.or_eq_true, Bool.and_eq_true, decide_eq_true_eq]
  tauto

theorem sanitize_loop_dotdot (pre post : List Byte) (h : post = [] ∨ post.head? = some 47) :
    sanitize_loop (pre ++ 46 :: 46 :: post) = none := by
  generalize hn : pre.length = n
  induction n using Nat.strong_induction_on generalizing pre with
  | _ n ih =>
    have hdd : sanitize_loop (46 :: 46 :: post) = none := by
      rcases h with h | h <;> simp [sanitize_loop, h]
    match pre, hn with
    | [], _ => exact hdd
    | [c], _ =>
      by_cases hc : c = 46
      · subst hc
        simp only [List.singleton_append]
        rw [sanitize_loop]
        simp [hdd]
      · simp only [List.singleton_append]
        rw [sanitize_loop]
        simp [hc, hdd]
    | c :: d :: pre2, hn =>
      have ih1 := ih (d :: pre2).length (by simp at hn; simp; omega) (d :: pre2) rfl
      have ih2 := ih pre2.length (by simp at hn; omega) pre2 rfl
      simp only [List.cons_append] at ih1 ⊢
      rw [sanitize_loop]
      by_cases hc : c = 46
      · simp only [hc, if_true]
        split_ifs
        · rfl
        · exact ih2
        · simp [ih1]
      · simp [hc, ih1]

theorem sanitize_loop_dot_nil : sanitize_loop [46] = some [] := by
  simp [sanitize_loop]

theorem sanitize_loop_dot_cons (d : Byte) (rest2 : List Byte) :
    sanitize_loop (46 :: d :: rest2) =
      if d = 46 ∧ (rest2.head? = some 47 ∨ rest2 = []) then none
      else if d = 47 then sanitize_loop rest2
      else (sanitize_loop (d :: rest2)).map (fun dst => 46 :: dst) := by
  rw [sanitize_loop.eq_def]
  simp

theorem sanitize_loop_other (c : Byte) (rest : List Byte) (hc : c ≠ 46) :
    sanitize_loop (c :: rest) =
      if isalnum c || c = 45 || c = 95 || c = 46 || c = 47 then
        (sanitize_loop rest).map (fun dst => c :: dst)
      else none := by
  rw [sanitize_loop.eq_def]
  simp [hc]

theorem dot_before_sep_cons (c : Byte) (rest : List Byte) :
    dot_before_sep (c :: rest) ↔
      (c = 46 ∧ (rest = [] ∨ rest.head? = some 47)) ∨ dot_before_sep rest := Iff.rfl

theorem not_dot_before_sep_nil : ¬ dot_before_sep [] := fun h => h

theorem dot_before_sep_append (pre post : List Byte) (h : post = [] ∨ post.head? = some 47) :
    dot_before_sep (pre ++ 46 :: post) := by
  induction pre with
  | nil => exact Or.inl ⟨rfl, h⟩
  | cons x xs ih => exact Or.inr ih

theorem sanitize_loop_head (d : Byte) (rest2 s : List Byte)
    (h : sanitize_loop (d :: rest2) = some s) (h47 : d ≠ 47)
    (hd : d = 46 → ¬ (rest2.head? = some 47 ∨ rest2 = [])) : ∃ t, s = d :: t := by
  by_cases hc : d = 46
  · have hd := hd hc
    subst hc
    cases rest2 with
    | nil => simp at hd
    | cons e r3 =>
      have he : e ≠ 47 := by simpa using hd
      rw [sanitize_loop_dot_cons] at h
      split_ifs at h
      simp only [Option.map_eq_some'] at h
      obtain ⟨t, -, rfl⟩ := h
      exact ⟨t, rfl⟩
  · rw [sanitize_loop_other _ _ hc] at h
    split_ifs at h
    simp only [Option.map_eq_some'] at h
    obtain ⟨t, -, rfl⟩ := h
    exact ⟨t, rfl⟩

theorem sanitize_loop_no_dot_before_sep (p : List Byte) :
    ∀ s, sanitize_loop p = some s → ¬ dot_before_sep s := by
  induction p using sanitize_loop.induct with
  | case1 => intro s h; simp [sanitize_loop] at h; subst h; exact not_dot_before_sep_nil
  | case2 _ => intro s h; simp [sanitize_loop] at h; subst h; exact not_dot_before_sep_nil
  | case3 d rest2 hd => intro s h; rw [sanitize_loop_dot_cons] at h; simp [hd] at h
  | case4 rest2 hd ih =>
    intro s h; rw [sanitize_loop_dot_cons] at h
    simp only [if_true, hd, if_false] at h
    exact ih s h
  | case5 d rest2 hd h47 ih =>
    intro s h; rw [sanitize_loop_dot_cons] at h
    simp only [hd, h47, if_false, Option.map_eq_some'] at h
    obtain ⟨t, ht, rfl⟩ := h
    obtain ⟨u, rfl⟩ := sanitize_loop_head d rest2 t ht h47
      (fun e he => hd ⟨e, he⟩)
    rw [dot_before_sep_cons]
    rintro (⟨-, hp⟩ | hp)
    · simp [h47] at hp
    · exact ih _ ht hp
  | case6 d rest2 hd hw ih =>
    intro s h; rw [sanitize_loop_other _ _ hd] at h
    simp only [hw, if_true, Option.map_eq_some'] at h
    obtain ⟨t, ht, rfl⟩ := h
    rw [dot_before_sep_cons]
    rintro (⟨hc, -⟩ | hp)
    · exact hd hc
    · exact ih _ ht hp
  | case7 d rest2 hd hw =>
    intro s h; rw [sanitize_loop_other _ _ hd] at h
    simp [hw] at h

theorem sanitize_loop_path_char (p : List Byte) :
    ∀ s, sanitize_loop p = some s → ∀ c ∈ p, path_char c := by
  induction p using sanitize_loop.induct with
  | case1 => intro s _ c hc; simp at hc
  | case2 _ => intro s _ c hc; simp at hc; subst hc; decide
  | case3 d rest2 hd => intro s h; rw [sanitize_loop_dot_cons] at h; simp [hd] at h
  | case4 rest2 hd ih =>
    intro s h c hc; rw [sanitize_loop_dot_cons] at h
    simp only [if_true, hd, if_false] at h
    simp only [List.mem_cons] at hc
    rcases hc with rfl | rfl | hc
    · decide
    · decide
    · exact ih s h c hc
  | case5 d rest2 hd h47 ih =>
    intro s h c hc; rw [sanitize_loop_dot_cons] at h
    simp only [hd, h47, if_false, Option.map_eq_some'] at h
    obtain ⟨t, ht, rfl⟩ := h
    rcases List.mem_cons.mp hc with rfl | hc
    · decide
    · exact ih t ht c hc
  | case6 d rest2 hd hw ih =>
    intro s h c hc; rw [sanitize_loop_other _ _ hd] at h
    simp only [hw, if_true, Option.map_eq_some'] at h
    obtain ⟨t, ht, rfl⟩ := h
    rcases List.mem_cons.mp hc with rfl | hc
    · exact (path_char_iff c).mp hw
    · exact ih t ht c hc
  | case7 d rest2 hd hw =>
    intro s h; rw [sanitize_loop_other _ _ hd] at h
    simp [hw] at h

theorem sanitize_loop_sublist (p : List Byte) :
    ∀ s, sanitize_loop p = some s → s.Sublist p := by
  induction p using sanitize_loop.induct with
  | case1 => intro s h; simp [sanitize_loop] at h; subst h; exact List.Sublist.slnil
  | case2 _ => intro s h; simp [sanitize_loop] at h; subst h; exact List.nil_sublist _
  | case3 d rest2 hd => intro s h; rw [sanitize_loop_dot_cons] at h; simp [hd] at h
  | case4 rest2 hd ih =>
    intro s h; rw [sanitize_loop_dot_cons] at h
    simp only [if_true, hd, if_false] at h
    exact ((ih s h).cons _).cons _
  | case5 d rest2 hd h47 ih =>
    intro s h; rw [sanitize_loop_dot_cons] at h
    simp only [hd, h47, if_false, Option.map_eq_some'] at h
    obtain ⟨t, ht, rfl⟩ := h
    exact (ih t ht).cons₂ _
  | case6 d rest2 hd hw ih =>
    intro s h; rw [sanitize_loop_other _ _ hd] at h
    simp only [hw, if_true, Option.map_eq_some'] at h
    obtain ⟨t, ht, rfl⟩ := h
    exact (ih t ht).cons₂ _
  | case7 d rest2 hd hw =>
    intro s h; rw [sanitize_loop_other _ _ hd] at h
    simp [hw] at h

theorem sanitize_loop_id (p : List Byte) :
    (∀ c ∈ p, path_char c) → ¬ dot_before_sep p → sanitize_loop p = some p := by
  induction p using sanitize_loop.induct with
  | case1 => intro _ _; simp [sanitize_loop]
  | case2 _ => intro _ h; exact absurd (Or.inl ⟨rfl, Or.inl rfl⟩) h
  | case3 d rest2 hd =>
    intro _ h
    exact absurd ((dot_before_sep_cons _ _).mpr (Or.inr ((dot_before_sep_cons _ _).mpr
      (Or.inl ⟨hd.1, hd.2.symm⟩)))) h
  | case4 rest2 hd ih =>
    intro _ h
    exact absurd ((dot_before_sep_cons _ _).mpr (Or.inl ⟨rfl, Or.inr (by simp)⟩)) h
  | case5 d rest2 hd h47 ih =>
    intro hw h
    rw [sanitize_loop_dot_cons]
    simp only [hd, h47, if_false]
    rw [ih (fun c hc => hw c (List.mem_cons_of_mem _ hc))
      (fun e => h ((dot_before_sep_cons _ _).mpr (Or.inr e)))]
    rfl
  | case6 d rest2 hd hw ih =>
    intro hall h
    rw [sanitize_loop_other _ _ hd]
    simp only [hw, if_true]
    rw [ih (fun c hc => hall c (List.mem_cons_of_mem _ hc))
      (fun e => h ((dot_before_sep_cons _ _).mpr (Or.inr e)))]
    rfl
  | case7 d rest2 hd hw =>
    intro hall _
    exact absurd ((path_char_iff d).mpr (hall d (List.mem_cons_self _ _))) hw

/-! ## The header loop -/

theorem parse_headers_isSome (fuel : Nat) (s : List Byte) (req : http_req_t)
    (h : s.length < fuel) : (parse_headers fuel s req).isSome = true := by
  induction fuel generalizing s req with
  | zero => omega
  | succ fuel ih =>
    rw [parse_headers]
    split_ifs with h1
    · rfl
    · have hs : s ≠ [] := fun e => h1 (Or.inl e)
      have hpos : 0 < s.length := List.length_pos.mpr hs
      have hnext : ∀ n, (s.drop (n + 2)).length < fuel := by
        intro n; rw [List.length_drop]; omega
      split
      · rfl
      · split_ifs
        · rfl
        · exact ih _ _ (hnext _)
        · split
          · exact ih _ _ (hnext _)
          · dsimp only
            split_ifs
            · exact ih _ _ (hnext _)
            · exact ih _ _ (hnext _)

/-- The fields the header loop never writes. -/
theorem parse_headers_fields (fuel : Nat) (s : List Byte) (req r : http_req_t)
    (h : parse_headers fuel s req = some r) :
    r.method = req.method ∧ r.path = req.path ∧ r.version = req.version ∧
      r.sub_domain = req.sub_domain ∧ r.wildcards = req.wildcards := by
  induction fuel generalizing s req with
  | zero => simp [parse_headers] at h
  | succ fuel ih =>
    rw [parse_headers] at h
    split_ifs at h with h1
    · simp at h; subst h; simp
    · split at h
      · simp at h; subst h; simp
      · split_ifs at h
        · simp at h; subst h; simp
        · exact ih _ _ h
        · split at h
          · exact ih _ _ h
          · dsimp only at h
            split_ifs at h
            · simpa using ih _ _ h
            · exact ih _ _ h

/-! ## The request line -/

theorem parse_request_line (M P V rest : List Byte) (buffer_len : Nat)
    (hlen : buffer_len ≤ MAX_REQUEST_SIZE)
    (hM : 32 ∉ M) (hP : 32 ∉ P)
    (h0 : 0 ∉ request_line M P V)
    (hcrlf : ¬ CRLF <:+: request_line M P V)
    (hline : (request_line M P V).length ≤ MAX_URI_LENGTH) :
    parse_http_request (request_line M P V ++ 13 :: 10 :: rest) buffer_len =
      if validate_http_method M then
        match sanitize_path P with
        | none => .error SERVER_ERR_SECURITY
        | some sp =>
          if V.take 7 ≠ HTTP_1 then .error SERVER_ERR_PROTOCOL
          else .ok (parsed M sp V (cstr rest))
      else .error SERVER_ERR_PROTOCOL := by
  have htext : cstr (request_line M P V ++ 13 :: 10 :: rest) =
      request_line M P V ++ 13 :: 10 :: cstr rest := by
    rw [cstr_append_of_not_mem _ _ h0]
    rfl
  have hstr := strstr_CRLF_append (request_line M P V) (cstr rest) hcrlf
  have hsp1 : strchr (request_line M P V) 32 = some M.length := strchr_append M _ 32 hM
  have hsp2 : strchr (P ++ 32 :: V) 32 = some P.length := strchr_append P _ 32 hP
  have hd1 : (request_line M P V).drop (M.length + 1) = P ++ 32 :: V := by
    simp [request_line, List.drop_append]
  have ht1 : (request_line M P V).take M.length = M := by
    simp [request_line]
  have hd2 : (P ++ 32 :: V).drop (P.length + 1) = V := by
    simp [List.drop_append]
  have hdrop : (request_line M P V ++ 13 :: 10 :: cstr rest).drop
      ((request_line M P V).length + 2) = cstr rest := by
    simp [List.drop_append]
  unfold parse_http_request
  simp only [htext, hstr, if_neg (Nat.not_lt.mpr hlen), if_neg (Nat.not_lt.mpr hline),
    List.take_left', hsp1, ht1, hd1, hsp2, hd2, hdrop, List.take_left]
  by_cases hv : validate_http_method M = true
  · simp only [hv, Bool.not_true, Bool.false_eq_true, if_false, if_true]
    cases sanitize_path P with
    | none => rfl
    | some sp => rfl
  · simp [hv]

theorem cstr_append_of_mem (a b : List Byte) (h : 0 ∈ a) : cstr (a ++ b) = cstr a := by
  induction a with
  | nil => simp at h
  | cons x xs ih =>
    by_cases hx : x = 0
    · simp [cstr, List.takeWhile, hx]
    · have hxs : 0 ∈ xs := by
        rcases List.mem_cons.mp h with e | e
        · exact absurd e.symm hx
        · exact e
      have := ih hxs
      simp only [cstr] at this ⊢
      simp only [List.cons_append, List.takeWhile, hx, ne_eq, not_false_eq_true, decide_True]
      exact congrArg _ this

theorem cstr_idem (b : List Byte) : cstr (cstr b) = cstr b :=
  cstr_of_not_mem _ (cstr_not_mem b)

theorem parse_cstr (buffer : List Byte) (buffer_len : Nat) :
    parse_http_request (cstr buffer) buffer_len = parse_http_request buffer buffer_len := by
  unfold parse_http_request
  rw [cstr_idem]

/-- The parser on a buffer whose first CRLF ends `line`. -/
theorem parse_first_line (line rest : List Byte) (buffer_len : Nat)
    (hcrlf : ¬ CRLF <:+: line) :
    parse_http_request (line ++ 13 :: 10 :: rest) buffer_len =
      if buffer_len > MAX_REQUEST_SIZE ∨ 0 ∈ line ∨ line.length > MAX_URI_LENGTH then
        .error SERVER_ERR_PROTOCOL
      else
        match strchr line 32 with
        | none => .error SERVER_ERR_PROTOCOL
        | some method_end =>
          if !validate_http_method (line.take method_end) then .error SERVER_ERR_PROTOCOL
          else
            match strchr (line.drop (method_end + 1)) 32 with
            | none => .error SERVER_ERR_PROTOCOL
            | some path_end =>
              match sanitize_path ((line.drop (method_end + 1)).take path_end) with
              | none => .error SERVER_ERR_SECURITY
              | some sp =>
                if ((line.drop (method_end + 1)).drop (path_end + 1)).take 7 ≠ HTTP_1 then
                  .error SERVER_ERR_PROTOCOL
                else
                  .ok (parsed (line.take method_end) sp
                    ((line.drop (method_end + 1)).drop (path_end + 1)) (cstr rest)) := by
  by_cases hlen : buffer_len > MAX_REQUEST_SIZE
  · simp [parse_http_request, hlen]
  by_cases h0 : 0 ∈ line
  · have hno : ¬ CRLF <:+: cstr line := fun e =>
      hcrlf (e.trans (List.takeWhile_prefix _).isInfix)
    simp [parse_http_request, hlen, h0, cstr_append_of_mem _ _ h0, strstr_CRLF_none _ hno]
  have htext : cstr (line ++ 13 :: 10 :: rest) = line ++ 13 :: 10 :: cstr rest := by
    rw [cstr_append_of_not_mem _ _ h0]
    rfl
  have hstr := strstr_CRLF_append line (cstr rest) hcrlf
  have hdrop : (line ++ 13 :: 10 :: cstr rest).drop (line.length + 2) = cstr rest := by
    simp [List.drop_append]
  by_cases hline : line.length > MAX_URI_LENGTH
  · simp [parse_http_request, hlen, htext, hstr, hline]
  unfold parse_http_request
  simp only [htext, hstr, if_neg hlen, if_neg hline, List.take_left', hdrop, hlen, h0, hline,
    or_self, if_false, parsed]

theorem parsed_fields (M sp V hdr : List Byte) :
    (parsed M sp V hdr).method = M.take MAX_METHOD_LENGTH ∧ (parsed M sp V hdr).path = sp ∧
      (parsed M sp V hdr).version = V.take 16 := by
  unfold parsed
  have hs := parse_headers_isSome (hdr.length + 1) hdr
    { method := M.take MAX_METHOD_LENGTH, path := sp, version := V.take 16 } (Nat.lt_succ_self _)
  obtain ⟨r, hr⟩ := Option.isSome_iff_exists.mp hs
  have hf := parse_headers_fields _ _ _ _ hr
  rw [hr]
  exact ⟨hf.1, hf.2.1, hf.2.2.1⟩

theorem parse_ok_inv (buffer : List Byte) (buffer_len : Nat) (req : http_req_t)
    (h : parse_http_request buffer buffer_len = .ok req) :
    ∃ M P V hdr sp, cstr buffer = request_line M P V ++ 13 :: 10 :: hdr ∧
      32 ∉ M ∧ 32 ∉ P ∧ ¬ CRLF <:+: request_line M P V ∧
      validate_http_method M = true ∧ sanitize_path P = some sp ∧ V.take 7 = HTTP_1 ∧
      req = parsed M sp V hdr ∧ buffer_len ≤ MAX_REQUEST_SIZE ∧
      (request_line M P V).length ≤ MAX_URI_LENGTH := by
  rw [← parse_cstr] at h
  cases hs : strstr (cstr buffer) CRLF with
  | none =>
    simp [parse_http_request, cstr_idem, hs] at h
  | some k =>
    obtain ⟨hdec, hno⟩ := strstr_CRLF_some _ _ hs
    generalize hl : (cstr buffer).take k = line at hdec hno
    generalize hh : (cstr buffer).drop (k + 2) = hdr at hdec
    have h0 : 0 ∉ line ++ 13 :: 10 :: hdr := hdec ▸ cstr_not_mem buffer
    have h0h : cstr hdr = hdr := cstr_of_not_mem _ (fun e => h0 (by simp [e]))
    rw [hdec, parse_first_line _ _ _ hno, h0h] at h
    split_ifs at h with hg
    simp only [not_or, not_lt] at hg
    split at h
    · cases h
    · rename_i i hi
      split_ifs at h with hv
      simp only [Bool.not_eq_true', Bool.not_eq_false] at hv
      split at h
      · cases h
      · rename_i j hj
        split at h
        · cases h
        · rename_i sp hsp
          split_ifs at h with hver
          simp only [ne_eq, not_not] at hver
          obtain ⟨e1, n1⟩ := strchr_some _ _ _ hi
          obtain ⟨e2, n2⟩ := strchr_some _ _ _ hj
          have hline : line = request_line (line.take i) ((line.drop (i + 1)).take j)
              ((line.drop (i + 1)).drop (j + 1)) := by
            unfold request_line
            rw [← e2]; exact e1
          refine ⟨line.take i, (line.drop (i + 1)).take j, (line.drop (i + 1)).drop (j + 1),
            hdr, sp, ?_, n1, n2, ?_, hv, hsp, hver, ?_, hg.1, ?_⟩
          · rw [← hline]; exact hdec
          · rw [← hline]; exact hno
          · exact (Except.ok.inj h).symm
          · rw [← hline]; exact hg.2.2

/-! ## Claims C1 and C2: `..` segments -/

theorem allowed_methods_eq :
    allowed_methods =
      [str "GET", str "POST", str "PUT", str "DELETE", str "HEAD", str "OPTIONS"] := by
  decide

theorem validate_http_method_iff (m : List Byte) :
    validate_http_method m = true ↔ m ∈ allowed_methods := by
  unfold validate_http_method
  split_ifs with h
  · simp only [Bool.false_eq_true, false_iff]
    intro hm
    exact (by decide : ∀ x ∈ allowed_methods, ¬ (x.length = 0 ∨ x.length > MAX_METHOD_LENGTH))
      m hm h
  · simp [List.any_eq_true]

theorem allowed_methods_bytes (m : List Byte) (hm : m ∈ allowed_methods) :
    32 ∉ m ∧ 0 ∉ m ∧ 13 ∉ m ∧ m.take MAX_METHOD_LENGTH = m :=
  (by decide : ∀ x ∈ allowed_methods,
    32 ∉ x ∧ 0 ∉ x ∧ 13 ∉ x ∧ x.take MAX_METHOD_LENGTH = x) m hm

theorem has_dotdot_segment_dot_before_sep (p : List Byte) (h : has_dotdot_segment p) :
    dot_before_sep p := by
  obtain ⟨pre, post, he, -, hp⟩ := h
  have := dot_before_sep_append (pre ++ [46]) post hp
  simpa [he] using this

theorem sanitize_path_dotdot (p : List Byte) (h : has_dotdot_segment p) :
    sanitize_path p = none := by
  obtain ⟨pre, post, he, -, hp⟩ := h
  unfold sanitize_path
  split_ifs
  · rfl
  · rfl
  · rw [he]; exact sanitize_loop_dotdot pre post hp

theorem sanitize_path_some (p s : List Byte) (h : sanitize_path p = some s) :
    p ≠ [] ∧ p.length < MAX_PATH_LENGTH ∧ sanitize_loop p = some s := by
  unfold sanitize_path at h
  split_ifs at h with h1 h2
  exact ⟨fun e => h1 (by simp [e]), by omega, h⟩

/-- C1, the counterexample: a buffer of 131073 bytes, one more than
MAX_REQUEST_SIZE, whose request line is `GET /a/../../etc/passwd HTTP/1.1`. The
first test of `parse_http_request` refuses it with SERVER_ERR_PROTOCOL before the
path is looked at, so the status is not SERVER_ERR_SECURITY. -/
theorem long_buffer_dotdot_is_protocol_error :
    (request_line (str "GET") (str "/a/../../etc/passwd") (str "HTTP/1.1") ++ CRLF ++
        (CRLF ++ List.replicate 131037 120)).length = 131073 ∧
      str "GET" ∈ allowed_methods ∧
      (request_line (str "GET") (str "/a/../../etc/passwd") (str "HTTP/1.1")).length ≤
        MAX_URI_LENGTH ∧
      has_dotdot_segment (str "/a/../../etc/passwd") ∧
      parse_http_request
          (request_line (str "GET") (str "/a/../../etc/passwd") (str "HTTP/1.1") ++ CRLF ++
            (CRLF ++ List.replicate 131037 120)) 131073 =
        .error SERVER_ERR_PROTOCOL ∧
      parse_http_request
          (request_line (str "GET") (str "/a/../../etc/passwd") (str "HTTP/1.1") ++ CRLF ++
            (CRLF ++ List.replicate 131037 120)) 131073 ≠
        .error SERVER_ERR_SECURITY := by
  have hp : parse_http_request
      (request_line (str "GET") (str "/a/../../etc/passwd") (str "HTTP/1.1") ++ CRLF ++
        (CRLF ++ List.replicate 131037 120)) 131073 = .error SERVER_ERR_PROTOCOL := by
    unfold parse_http_request
    rw [if_pos (by decide)]
  refine ⟨?_, by decide, by decide,
    ⟨str "/a/", str "/../etc/passwd", by decide, by decide, by decide⟩, hp, ?_⟩
  · simp only [List.length_append, List.length_replicate]
    decide
  · rw [hp]
    intro h
    cases h

/-- C1 as amended: on a request buffer whose request line is `M P V` with single
spaces, an allowed method `M` and at most MAX_URI_LENGTH bytes, and whose path `P`
contains a `..` segment, `parse_http_request` produces no request: it returns
SERVER_ERR_SECURITY when the length of the buffer is at most MAX_REQUEST_SIZE,
and SERVER_ERR_PROTOCOL, from its first test, when the buffer is longer. -/
theorem parse_rejects_dotdot_segment (M P V rest : List Byte) (buffer_len : Nat)
    (hM : M ∈ allowed_methods) (hP : 32 ∉ P)
    (h0 : 0 ∉ request_line M P V) (hcrlf : ¬ CRLF <:+: request_line M P V)
    (hline : (request_line M P V).length ≤ MAX_URI_LENGTH)
    (hdd : has_dotdot_segment P) :
    parse_http_request (request_line M P V ++ CRLF ++ rest) buffer_len =
      if buffer_len ≤ MAX_REQUEST_SIZE then .error SERVER_ERR_SECURITY
      else .error SERVER_ERR_PROTOCOL := by
  by_cases hlen : buffer_len ≤ MAX_REQUEST_SIZE
  · rw [if_pos hlen]
    have h := parse_request_line M P V rest buffer_len hlen (allowed_methods_bytes M hM).1 hP h0
      hcrlf hline
    simp only [CRLF, List.append_assoc, List.cons_append, List.nil_append]
    rw [h, (validate_http_method_iff M).mpr hM, sanitize_path_dotdot P hdd]
    rfl
  · rw [if_neg hlen]
    unfold parse_http_request
    rw [if_pos (Nat.not_le.mp hlen)]

/-- Witness of C1 as amended: `GET /a/../../etc/passwd HTTP/1.1` in a buffer of
36 bytes is refused with SERVER_ERR_SECURITY. -/
theorem parse_rejects_dotdot_segment_witness :
    parse_http_request (str "GET /a/../../etc/passwd HTTP/1.1\r\n\r\n") 36 =
      .error SERVER_ERR_SECURITY :=
  (parse_rejects_dotdot_segment (str "GET") (str "/a/../../etc/passwd") (str "HTTP/1.1") CRLF 36
    (by decide) (by decide) (by decide) (by decide) (by decide)
    ⟨str "/a/", str "/../etc/passwd", by decide, by decide, by decide⟩).trans
    (if_pos (by decide))

/-- C2: a path returned by `sanitize_path` contains no `..` segment, and so
does the path of every request that `parse_http_request` produces (the one
`handle_static_file` hands to `serve_file`). -/
theorem sanitized_path_has_no_dotdot_segment :
    (∀ p s, sanitize_path p = some s → ¬ has_dotdot_segment s) ∧
    (∀ buffer buffer_len req, parse_http_request buffer buffer_len = .ok req →
      ¬ has_dotdot_segment req.path) := by
  have key : ∀ p s, sanitize_path p = some s → ¬ has_dotdot_segment s := by
    intro p s h hdd
    exact sanitize_loop_no_dot_before_sep p s (sanitize_path_some p s h).2.2
      (has_dotdot_segment_dot_before_sep s hdd)
  refine ⟨key, ?_⟩
  intro buffer buffer_len req h
  obtain ⟨M, P, V, hdr, sp, -, -, -, -, -, hsp, -, rfl, -, -⟩ := parse_ok_inv _ _ _ h
  rw [(parsed_fields M sp V hdr).2.1]
  exact key P sp hsp

/-- Witness of C2: `/a/b..c/d` is accepted, and what comes back has no `..`
segment. -/
theorem sanitized_path_has_no_dotdot_segment_witness :
    sanitize_path (str "/a/b..c/d") = some (str "/a/b..c/d") ∧
      ¬ has_dotdot_segment (str "/a/b..c/d") :=
  ⟨by decide, sanitized_path_has_no_dotdot_segment.1 (str "/a/b..c/d") (str "/a/b..c/d")
    (by decide)⟩

/-! ## Claims C3 to C5: the sanitizer as a filter -/

theorem sanitize_path_bad_char (P : List Byte) (hbad : ∃ c ∈ P, ¬ path_char c) :
    sanitize_path P = none := by
  cases h : sanitize_path P with
  | none => rfl
  | some s =>
    obtain ⟨c, hc, hn⟩ := hbad
    exact absurd (sanitize_loop_path_char P s (sanitize_path_some P s h).2.2 c hc) hn

/-- C3, the counterexample: `_` lies outside the class of letters, digits, `.`,
slash and `-`, yet `/a_b` is accepted by `sanitize_path` and by the parser. -/
theorem underscore_path_accepted :
    (∃ c ∈ str "/a_b", ¬ claimed_path_char c) ∧
      sanitize_path (str "/a_b") = some (str "/a_b") ∧
      parse_http_request (str "GET /a_b HTTP/1.1\r\n\r\n") 21 =
        .ok { method := str "GET", path := str "/a_b", version := str "HTTP/1.1",
              body := some [] } :=
  ⟨⟨95, by decide, by decide⟩, by decide, rfl⟩

/-- C3, amended: a path with a character other than a letter, a digit, `.`, `_`,
the slash or `-` is refused by `sanitize_path`, and a request line carrying it
(allowed method, a space after the path, line and buffer within
MAX_URI_LENGTH and MAX_REQUEST_SIZE) fails with SERVER_ERR_SECURITY. -/
theorem sanitize_rejects_bad_char (P : List Byte) (hbad : ∃ c ∈ P, ¬ path_char c) :
    sanitize_path P = none ∧
      ∀ (M V rest : List Byte) (buffer_len : Nat), buffer_len ≤ MAX_REQUEST_SIZE →
        M ∈ allowed_methods → 32 ∉ P → 0 ∉ request_line M P V →
        ¬ CRLF <:+: request_line M P V → (request_line M P V).length ≤ MAX_URI_LENGTH →
        parse_http_request (request_line M P V ++ CRLF ++ rest) buffer_len =
          .error SERVER_ERR_SECURITY := by
  refine ⟨sanitize_path_bad_char P hbad, ?_⟩
  intro M V rest buffer_len hlen hM hP h0 hcrlf hline
  have h := parse_request_line M P V rest buffer_len hlen (allowed_methods_bytes M hM).1 hP h0
    hcrlf hline
  simp only [CRLF, List.append_assoc, List.cons_append, List.nil_append]
  rw [h, (validate_http_method_iff M).mpr hM, sanitize_path_bad_char P hbad]
  rfl

/-- Witness of C3: `/a$b` holds a `$` and is refused, alone and in
`GET /a$b HTTP/1.1`. -/
theorem sanitize_rejects_bad_char_witness :
    sanitize_path (str "/a$b") = none ∧
      parse_http_request (str "GET /a$b HTTP/1.1\r\n\r\n") 21 = .error SERVER_ERR_SECURITY :=
  have h := sanitize_rejects_bad_char (str "/a$b") ⟨36, by decide, by decide⟩
  ⟨h.1, h.2 (str "GET") (str "HTTP/1.1") CRLF 21 (by decide) (by decide) (by decide)
    (by decide) (by decide) (by decide)⟩

/-- C4, the counterexample: `/./index.html` is accepted and comes back as
`/index.html`, two bytes shorter. -/
theorem sanitize_path_drops_dot_slash :
    sanitize_path (str "/./index.html") = some (str "/index.html") ∧
      str "/index.html" ≠ str "/./index.html" :=
  ⟨by decide, by decide⟩

/-- C4, amended: the path returned for an accepted `p` is `p` with bytes
removed, none rewritten or reordered, and it is `p` itself whenever no `.` of `p`
is directly followed by the slash or by the end of `p`. -/
theorem sanitize_path_filter (p s : List Byte) (h : sanitize_path p = some s) :
    s.Sublist p ∧ (¬ dot_before_sep p → s = p) := by
  have hl := (sanitize_path_some p s h).2.2
  refine ⟨sanitize_loop_sublist p s hl, fun hd => ?_⟩
  have := sanitize_loop_id p (sanitize_loop_path_char p s hl) hd
  rw [hl] at this
  exact Option.some.inj this

/-- Witness of C4: `/img/logo.png` comes back unchanged. -/
theorem sanitize_path_filter_witness :
    sanitize_path (str "/img/logo.png") = some (str "/img/logo.png") ∧
      ¬ dot_before_sep (str "/img/logo.png") ∧ str "/img/logo.png" = str "/img/logo.png" :=
  ⟨by decide, by decide,
    (sanitize_path_filter (str "/img/logo.png") (str "/img/logo.png") (by decide)).2 (by decide)⟩

/-- C5, the counterexample: `GET . HTTP/1.1` is accepted, and the path of the
request produced is empty. -/
theorem accepted_request_with_empty_path :
    ∃ req, parse_http_request (str "GET . HTTP/1.1\r\n\r\n") 18 = .ok req ∧ req.path = [] :=
  ⟨_, rfl, rfl⟩

/-- C5, amended: in every request that `parse_http_request` accepts, the path
token of the request line (the text between its first two spaces) is non-empty
and shorter than MAX_PATH_LENGTH, and the sanitized path stored in the request
is shorter than MAX_PATH_LENGTH; the stored path itself can be empty. -/
theorem accepted_path_bounds (buffer : List Byte) (buffer_len : Nat) (req : http_req_t)
    (h : parse_http_request buffer buffer_len = .ok req) :
    (∃ M P V hdr, cstr buffer = request_line M P V ++ CRLF ++ hdr ∧ 32 ∉ M ∧ 32 ∉ P ∧
        ¬ CRLF <:+: request_line M P V ∧ sanitize_path P = some req.path ∧
        P ≠ [] ∧ P.length < MAX_PATH_LENGTH) ∧
      req.path.length < MAX_PATH_LENGTH := by
  obtain ⟨M, P, V, hdr, sp, hdec, hM, hP, hno, -, hsp, -, rfl, -, -⟩ := parse_ok_inv _ _ _ h
  rw [(parsed_fields M sp V hdr).2.1]
  obtain ⟨hne, hlt, hl⟩ := sanitize_path_some P sp hsp
  refine ⟨⟨M, P, V, hdr, ?_, hM, hP, hno, hsp, hne, hlt⟩, ?_⟩
  · simpa [CRLF] using hdec
  · exact lt_of_le_of_lt (sanitize_loop_sublist P sp hl).length_le hlt

/-- Witness of C5: the accepted `GET /index.html HTTP/1.1`. -/
theorem accepted_path_bounds_witness :
    (∃ M P V hdr, cstr (str "GET /index.html HTTP/1.1\r\n\r\n") =
        request_line M P V ++ CRLF ++ hdr ∧ 32 ∉ M ∧ 32 ∉ P ∧
        ¬ CRLF <:+: request_line M P V ∧ sanitize_path P = some (str "/index.html") ∧
        P ≠ [] ∧ P.length < MAX_PATH_LENGTH) ∧
      (str "/index.html").length < MAX_PATH_LENGTH :=
  accepted_path_bounds (str "GET /index.html HTTP/1.1\r\n\r\n") 28
    { method := str "GET", path := str "/index.html", version := str "HTTP/1.1",
      body := some [] } rfl

/-! ## Claim C6: well-formed request lines -/

theorem no_crlf_append (A B : List Byte) (hA : 13 ∉ A) (hB : ¬ CRLF <:+: B) :
    ¬ CRLF <:+: A ++ B := by
  induction A with
  | nil => simpa using hB
  | cons x xs ih =>
    have hx : x ≠ 13 := fun e => hA (by simp [e])
    have hxs : 13 ∉ xs := fun e => hA (by simp [e])
    intro hin
    rcases List.infix_cons_iff.mp hin with hpre | hin2
    · obtain ⟨t, ht⟩ := hpre
      simp only [CRLF, List.cons_append, List.nil_append, List.cons.injEq] at ht
      exact hx ht.1.symm
    · exact ih hxs hin2

theorem request_line_clean (M P V sp : List Byte) (hM : M ∈ allowed_methods)
    (hP : sanitize_path P = some sp) (h0 : 0 ∉ V) (hcrlf : ¬ CRLF <:+: V) :
    32 ∉ P ∧ 0 ∉ request_line M P V ∧ ¬ CRLF <:+: request_line M P V := by
  have hpc := sanitize_loop_path_char P sp (sanitize_path_some P sp hP).2.2
  have hP32 : 32 ∉ P := fun e => absurd (hpc 32 e) (by decide)
  have hP0 : 0 ∉ P := fun e => absurd (hpc 0 e) (by decide)
  have hP13 : 13 ∉ P := fun e => absurd (hpc 13 e) (by decide)
  obtain ⟨-, hM0, hM13, -⟩ := allowed_methods_bytes M hM
  refine ⟨hP32, ?_, ?_⟩
  · simp only [request_line, List.mem_append, List.mem_cons, not_or]
    exact ⟨hM0, by decide, hP0, by decide, h0⟩
  · have e : request_line M P V = (M ++ 32 :: (P ++ [32])) ++ V := by simp [request_line]
    rw [e]
    refine no_crlf_append _ _ ?_ hcrlf
    simp only [List.mem_append, List.mem_cons, List.mem_singleton, not_or, List.not_mem_nil,
      or_false]
    exact ⟨hM13, by decide, hP13, by decide⟩

/-- C6, the counterexample: for the version token `HTTP/1.1-extended-token`,
which begins with `HTTP/1.`, the request is accepted with the version cut to its
first 16 bytes, `HTTP/1.1-extende`. -/
theorem long_version_is_truncated :
    ∃ req, parse_http_request (str "GET /index.html HTTP/1.1-extended-token\r\n\r\n") 43 =
        .ok req ∧ req.version = str "HTTP/1.1-extende" ∧
      req.version ≠ str "HTTP/1.1-extended-token" :=
  ⟨_, rfl, rfl, by decide⟩

/-- C6, amended: on a buffer of at most MAX_REQUEST_SIZE bytes that starts with a
request line `M P V` CRLF of at most MAX_URI_LENGTH bytes, where `M` is an allowed
method, `P` a path the sanitizer accepts and `V` begins with `HTTP/1.`,
`parse_http_request` returns SERVER_OK with method `M`, path `sanitize_path(P)` and
as version the first 16 bytes of `V` - `V` itself when it has at most 16 bytes. -/
theorem parse_valid_request_line (M P V rest sp : List Byte) (buffer_len : Nat)
    (hlen : buffer_len ≤ MAX_REQUEST_SIZE) (hM : M ∈ allowed_methods)
    (hP : sanitize_path P = some sp) (hV : HTTP_1 <+: V)
    (h0 : 0 ∉ V) (hcrlf : ¬ CRLF <:+: V)
    (hline : (request_line M P V).length ≤ MAX_URI_LENGTH) :
    ∃ req, parse_http_request (request_line M P V ++ CRLF ++ rest) buffer_len = .ok req ∧
      req.method = M ∧ req.path = sp ∧ req.version = V.take 16 ∧
      (V.length ≤ 16 → req.version = V) := by
  obtain ⟨hP32, hl0, hlc⟩ := request_line_clean M P V sp hM hP h0 hcrlf
  have h := parse_request_line M P V rest buffer_len hlen (allowed_methods_bytes M hM).1 hP32 hl0
    hlc hline
  have hv7 : V.take 7 = HTTP_1 := by
    obtain ⟨t, rfl⟩ := hV
    simp [HTTP_1]
  simp only [CRLF, List.append_assoc, List.cons_append, List.nil_append]
  rw [h, (validate_http_method_iff M).mpr hM, hP]
  simp only [if_true, hv7, ne_eq, not_true_eq_false, if_false]
  obtain ⟨f1, f2, f3⟩ := parsed_fields M sp V (cstr rest)
  refine ⟨_, rfl, ?_, f2, f3, fun hle => ?_⟩
  · rw [f1]; exact (allowed_methods_bytes M hM).2.2.2
  · rw [f3]; exact List.take_of_length_le hle

/-- Witness of C6: `GET /index.html HTTP/1.1`. -/
theorem parse_valid_request_line_witness :
    ∃ req, parse_http_request (str "GET /index.html HTTP/1.1\r\nHost: a.example.com\r\n\r\n") 49 =
        .ok req ∧
      req.method = str "GET" ∧ req.path = str "/index.html" ∧
      req.version = (str "HTTP/1.1").take 16 ∧
      ((str "HTTP/1.1").length ≤ 16 → req.version = str "HTTP/1.1") :=
  parse_valid_request_line (str "GET") (str "/index.html") (str "HTTP/1.1")
    (str "Host: a.example.com\r\n\r\n") (str "/index.html") 49
    (by decide) (by decide) (by decide) (by decide) (by decide) (by decide) (by decide)

/-! ## Claims C7 and C8: missing tokens and methods -/

theorem parse_bad_method (line rest : List Byte) (buffer_len : Nat)
    (hcrlf : ¬ CRLF <:+: line)
    (hm : ∀ M r, line = M ++ 32 :: r → 32 ∉ M → validate_http_method M = false) :
    parse_http_request (line ++ 13 :: 10 :: rest) buffer_len = .error SERVER_ERR_PROTOCOL := by
  rw [parse_first_line _ _ _ hcrlf]
  split_ifs with hg
  · rfl
  · split
    · rfl
    · rename_i i hi
      obtain ⟨e1, n1⟩ := strchr_some _ _ _ hi
      simp [hm _ _ e1 n1]

/-- C7, the counterexample: in `GET  HTTP/1.1` the path token between the two
spaces is empty, and the parser answers SERVER_ERR_SECURITY, not
SERVER_ERR_PROTOCOL. -/
theorem empty_path_is_security_error :
    missing_token (str "GET  HTTP/1.1") ∧
      parse_http_request (str "GET  HTTP/1.1\r\n\r\n") 17 = .error SERVER_ERR_SECURITY ∧
      parse_http_request (str "GET  HTTP/1.1\r\n\r\n") 17 ≠ .error SERVER_ERR_PROTOCOL :=
  ⟨Or.inr ⟨str "GET", str " HTTP/1.1", by decide, by decide,
      Or.inr (Or.inr ⟨[], str "HTTP/1.1", by decide, by decide, Or.inl rfl⟩)⟩,
    rfl, fun h => by cases h⟩

/-- C7, amended: a request buffer whose request line (the text before the first
CRLF) is missing its method, path or version token is always refused. The
answer is SERVER_ERR_SECURITY when buffer and line are within MAX_REQUEST_SIZE
and MAX_URI_LENGTH, the method is an allowed one, a second space is present
and `sanitize_path` refuses the path token (as it does the empty one); in every
other case it is SERVER_ERR_PROTOCOL. -/
theorem parse_missing_token (line rest : List Byte) (buffer_len : Nat)
    (hcrlf : ¬ CRLF <:+: line) (hmiss : missing_token line) :
    ((buffer_len ≤ MAX_REQUEST_SIZE ∧ 0 ∉ line ∧ line.length ≤ MAX_URI_LENGTH ∧
        ∃ M P V, line = request_line M P V ∧ 32 ∉ M ∧ 32 ∉ P ∧ M ∈ allowed_methods ∧
          sanitize_path P = none) →
      parse_http_request (line ++ CRLF ++ rest) buffer_len = .error SERVER_ERR_SECURITY) ∧
    (¬ (buffer_len ≤ MAX_REQUEST_SIZE ∧ 0 ∉ line ∧ line.length ≤ MAX_URI_LENGTH ∧
        ∃ M P V, line = request_line M P V ∧ 32 ∉ M ∧ 32 ∉ P ∧ M ∈ allowed_methods ∧
          sanitize_path P = none) →
      parse_http_request (line ++ CRLF ++ rest) buffer_len = .error SERVER_ERR_PROTOCOL) := by
  simp only [CRLF, List.append_assoc, List.cons_append, List.nil_append]
  constructor
  · rintro ⟨hlen, h0, hline, M, P, V, rfl, hM, hP, hMa, hsp⟩
    rw [parse_request_line M P V rest buffer_len hlen hM hP h0 hcrlf hline,
      (validate_http_method_iff M).mpr hMa, hsp]
    rfl
  · intro hS
    by_cases hg : buffer_len > MAX_REQUEST_SIZE ∨ 0 ∈ line ∨ line.length > MAX_URI_LENGTH
    · rw [parse_first_line _ _ _ hcrlf, if_pos hg]
    have hg2 : buffer_len ≤ MAX_REQUEST_SIZE ∧ 0 ∉ line ∧ line.length ≤ MAX_URI_LENGTH := by
      simp only [not_or, not_lt] at hg
      exact hg
    rcases hmiss with hns | ⟨M, r, rfl, hM, hrest⟩
    · rw [parse_first_line _ _ _ hcrlf, if_neg hg, strchr_none _ _ hns]
    · by_cases hv : validate_http_method M = true
      · have hsp1 : strchr (M ++ 32 :: r) 32 = some M.length := strchr_append M _ 32 hM
        have ht1 : (M ++ 32 :: r).take M.length = M := by simp
        have hd1 : (M ++ 32 :: r).drop (M.length + 1) = r := by simp [List.drop_append]
        rw [parse_first_line _ _ _ hcrlf, if_neg hg]
        simp only [hsp1, ht1, hd1, hv, Bool.not_true, Bool.false_eq_true, if_false]
        rcases hrest with hMe | hr | ⟨P, V, rfl, hP, hPV⟩
        · subst hMe; simp [validate_http_method] at hv
        · rw [strchr_none _ _ hr]
        · have hsp2 : strchr (P ++ 32 :: V) 32 = some P.length := strchr_append P _ 32 hP
          have ht2 : (P ++ 32 :: V).take P.length = P := by simp
          have hd2 : (P ++ 32 :: V).drop (P.length + 1) = V := by simp [List.drop_append]
          simp only [hsp2, ht2, hd2]
          cases hsp : sanitize_path P with
          | none =>
            exact absurd ⟨hg2.1, hg2.2.1, hg2.2.2, M, P, V, rfl, hM, hP,
              (validate_http_method_iff M).mp hv, hsp⟩ hS
          | some sp =>
            rcases hPV with hPe | hVe
            · subst hPe; simp [sanitize_path] at hsp
            · subst hVe; simp [HTTP_1]
      · refine parse_bad_method _ _ _ hcrlf (fun M2 r2 he hM2 => ?_)
        have hi1 := strchr_append M r 32 hM
        rw [he, strchr_append M2 r2 32 hM2] at hi1
        have hlen : M2.length = M.length := Option.some.inj hi1
        have : M2 = M := by
          have := congrArg (List.take M.length) he
          simpa [← hlen] using this.symm
        rw [this]
        simpa using hv

/-- Witness of C7: `GET` alone, a line without any space, is refused with
SERVER_ERR_PROTOCOL. -/
theorem parse_missing_token_witness :
    missing_token (str "GET") ∧
      parse_http_request (str "GET\r\n\r\n") 7 = .error SERVER_ERR_PROTOCOL :=
  ⟨Or.inl (by decide),
    (parse_missing_token (str "GET") CRLF 7 (by decide) (Or.inl (by decide))).2
      (fun ⟨_, _, _, M, P, V, he, _⟩ => by
        have h32 : 32 ∈ request_line M P V := by simp [request_line]
        rw [← he] at h32
        revert h32
        decide)⟩

/-- C8: `validate_http_method` accepts exactly GET, POST, PUT, DELETE, HEAD and
OPTIONS (compared byte for byte), and `parse_http_request` returns
SERVER_ERR_PROTOCOL for every request line whose text before the first space is
not one of the six. -/
theorem validate_http_method_exact :
    (∀ m, validate_http_method m = true ↔
      m ∈ [str "GET", str "POST", str "PUT", str "DELETE", str "HEAD", str "OPTIONS"]) ∧
    (∀ (line rest : List Byte) (buffer_len : Nat), ¬ CRLF <:+: line →
      (∀ M r, line = M ++ 32 :: r → 32 ∉ M →
        M ∉ [str "GET", str "POST", str "PUT", str "DELETE", str "HEAD", str "OPTIONS"]) →
      parse_http_request (line ++ CRLF ++ rest) buffer_len = .error SERVER_ERR_PROTOCOL) := by
  refine ⟨fun m => ?_, fun line rest buffer_len hcrlf hm => ?_⟩
  · rw [validate_http_method_iff, allowed_methods_eq]
  · simp only [CRLF, List.append_assoc, List.cons_append, List.nil_append]
    refine parse_bad_method _ _ _ hcrlf (fun M r he hM => ?_)
    have := hm M r he hM
    rw [← allowed_methods_eq, ← validate_http_method_iff] at this
    simpa using this

/-- Witness of C8: `get` in lower case is not accepted, and
`get /index.html HTTP/1.1` is refused with SERVER_ERR_PROTOCOL. -/
theorem validate_http_method_exact_witness :
    validate_http_method (str "get") = false ∧ validate_http_method (str "GET") = true ∧
      parse_http_request (str "get /index.html HTTP/1.1\r\n\r\n") 28 =
        .error SERVER_ERR_PROTOCOL :=
  ⟨by decide, (validate_http_method_exact.1 (str "GET")).mpr (by decide),
    validate_http_method_exact.2 (str "get /index.html HTTP/1.1") CRLF 28 (by decide)
      (fun M r he hM => by
        have hi := strchr_append M r 32 hM
        have h3 : strchr (str "get /index.html HTTP/1.1") 32 = some 3 := by decide
        rw [← he, h3] at hi
        have hlen : M.length = 3 := (Option.some.inj hi).symm
        have ht : (str "get /index.html HTTP/1.1").take 3 = M := by
          rw [he, ← hlen]; simp
        rw [← ht]
        decide)⟩

/-! ## Claims C9 and C10: `Content-Length` -/

theorem parse_headers_valid (fuel : Nat) (s : List Byte) (req r : http_req_t)
    (h : parse_headers fuel s req = some r) :
    ∀ hd ∈ r.headers, hd ∈ req.headers ∨ validate_header hd.name hd.value = true := by
  induction fuel generalizing s req with
  | zero => simp [parse_headers] at h
  | succ fuel ih =>
    rw [parse_headers] at h
    split_ifs at h with h1
    · simp at h; subst h; exact fun hd hm => Or.inl hm
    · split at h
      · simp at h; subst h; exact fun hd hm => Or.inl hm
      · split_ifs at h
        · simp at h; subst h; exact fun hd hm => Or.inl hm
        · exact ih _ _ h
        · split at h
          · exact ih _ _ h
          · dsimp only at h
            split_ifs at h with hv
            · intro hd hm
              rcases ih _ _ h hd hm with hin | hval
              · rcases List.mem_append.mp hin with hin | hin
                · exact Or.inl hin
                · rw [List.mem_singleton] at hin
                  subst hin
                  exact Or.inr hv
              · exact Or.inr hval
            · exact ih _ _ h

theorem validate_header_content_length (value : List Byte) :
    validate_header CONTENT_LENGTH value = false := by
  unfold validate_header
  split_ifs with h1 h2 h3
  · rfl
  · rfl
  · rfl
  · exact absurd (by decide : forbidden_headers.any (fun f => strcasecmp_eq CONTENT_LENGTH f) = true) h3

/-- No request produced by the parser has a `Content-Length` entry in its header
list: `validate_header` keeps every such line out. -/
theorem get_header_content_length_none (buffer : List Byte) (buffer_len : Nat)
    (req : http_req_t) (h : parse_http_request buffer buffer_len = .ok req) :
    get_header req CONTENT_LENGTH = none := by
  obtain ⟨M, P, V, hdr, sp, -, -, -, -, -, -, -, rfl, -, -⟩ := parse_ok_inv _ _ _ h
  have hs := parse_headers_isSome (hdr.length + 1) hdr
    { method := M.take MAX_METHOD_LENGTH, path := sp, version := V.take 16 } (Nat.lt_succ_self _)
  obtain ⟨r, hr⟩ := Option.isSome_iff_exists.mp hs
  have hval := parse_headers_valid _ _ _ _ hr
  unfold parsed get_header
  rw [hr]
  simp only [Option.getD_some, Option.map_eq_none', List.find?_eq_none, beq_iff_eq]
  intro hd hm hname
  rcases hval hd hm with hin | hv
  · simp at hin
  · rw [hname, validate_header_content_length] at hv
    cases hv

/-- After a successful parse `read_full_body` returns SERVER_OK at once: it
calls `recv` not a single time and leaves the request as it is, whatever the
buffer declares. -/
theorem read_full_body_after_parse (buffer : List Byte) (buffer_len : Nat) (req : http_req_t)
    (recvs : List (List Byte)) (h : parse_http_request buffer buffer_len = .ok req) :
    read_full_body recvs req buffer = some (SERVER_OK, req, recvs) := by
  unfold read_full_body
  rw [get_header_content_length_none buffer buffer_len req h]

/-- C9, the failing inputs: requests that declare `Content-Length: 0`,
`Content-Length: -5` and `Content-Length: 200000` (above MAX_REQUEST_SIZE) all
pass `parse_http_request` and `read_full_body` with SERVER_OK; the header never
reaches the list that `read_full_body` looks it up in. -/
theorem bad_content_length_accepted :
    read_request (str "POST /upload HTTP/1.1\r\nContent-Length: 0\r\n\r\n") [] =
        some (SERVER_OK,
          some { method := str "POST", path := str "/upload", version := str "HTTP/1.1",
                 body := some [] }, []) ∧
      read_request (str "POST /upload HTTP/1.1\r\nContent-Length: -5\r\n\r\n") [] =
        some (SERVER_OK,
          some { method := str "POST", path := str "/upload", version := str "HTTP/1.1",
                 body := some [] }, []) ∧
      read_request (str "POST /upload HTTP/1.1\r\nContent-Length: 200000\r\n\r\nabc") [] =
        some (SERVER_OK,
          some { method := str "POST", path := str "/upload", version := str "HTTP/1.1",
                 body := some (str "abc") }, []) :=
  ⟨rfl, rfl, rfl⟩

/-- C10, the failing input: the request declares `Content-Length: 10` and its
first buffer holds the 3 body bytes `abc`; with 7 more bytes ready to be
received, request handling ends with SERVER_OK, the body still `abc` and the
7 bytes not received. -/
theorem declared_body_not_read :
    read_request (str "POST /upload HTTP/1.1\r\nContent-Length: 10\r\n\r\nabc")
        [str "defghij"] =
      some (SERVER_OK,
        some { method := str "POST", path := str "/upload", version := str "HTTP/1.1",
               body := some (str "abc") }, [str "defghij"]) :=
  rfl

/-! ## Claim C11: the names in the header list -/

theorem parse_ok_headers_valid (buffer : List Byte) (buffer_len : Nat) (req : http_req_t)
    (h : parse_http_request buffer buffer_len = .ok req) :
    ∀ hd ∈ req.headers, validate_header hd.name hd.value = true := by
  obtain ⟨M, P, V, hdr, sp, -, -, -, -, -, -, -, rfl, -, -⟩ := parse_ok_inv _ _ _ h
  have hs := parse_headers_isSome (hdr.length + 1) hdr
    { method := M.take MAX_METHOD_LENGTH, path := sp, version := V.take 16 } (Nat.lt_succ_self _)
  obtain ⟨r, hr⟩ := Option.isSome_iff_exists.mp hs
  have hval := parse_headers_valid _ _ _ _ hr
  unfold parsed
  rw [hr]
  intro hd hm
  rcases hval hd hm with hin | hv
  · simp at hin
  · exact hv

theorem validate_header_name (name value : List Byte)
    (h : validate_header name value = true) :
    name ≠ [] ∧ (∀ c ∈ name, header_name_char c) ∧
      ∀ f ∈ forbidden_headers, name.map tolower ≠ f.map tolower := by
  unfold validate_header at h
  split_ifs at h with h1 h2 h3
  refine ⟨fun e => h1 (Or.inl (by simp [e])), fun c hc => ?_, fun f hf e => ?_⟩
  · simp only [List.any_eq_true, not_exists, not_and] at h2
    have := h2 c hc
    unfold header_name_char
    by_contra hn
    apply this
    simp only [not_or, not_and, not_le] at hn
    simp only [isalnum, Bool.and_eq_true, Bool.not_eq_true', Bool.or_eq_false_iff,
      Bool.and_eq_false_imp, decide_eq_true_eq, decide_eq_false_iff_not, not_le, ne_eq,
      not_false_eq_true, decide_not, Bool.not_eq_true, decide_eq_false_iff_not]
    exact ⟨⟨⟨⟨hn.1, hn.2.1⟩, hn.2.2.1⟩, hn.2.2.2.2⟩, hn.2.2.2.1⟩
  · simp only [List.any_eq_true, not_exists, not_and] at h3
    exact h3 f hf (by simp [strcasecmp_eq, e])

/-- C11: in every request that `parse_http_request` accepts, each entry of
the header list has a non-empty name made only of ASCII letters, digits, `_`
and `-`, and no name equals `content-length` or `transfer-encoding` when case
is ignored. -/
theorem accepted_header_names (buffer : List Byte) (buffer_len : Nat) (req : http_req_t)
    (h : parse_http_request buffer buffer_len = .ok req) :
    ∀ hd ∈ req.headers, hd.name ≠ [] ∧ (∀ c ∈ hd.name, header_name_char c) ∧
      hd.name.map tolower ≠ (str "content-length").map tolower ∧
      hd.name.map tolower ≠ (str "transfer-encoding").map tolower := by
  intro hd hm
  obtain ⟨h1, h2, h3⟩ :=
    validate_header_name hd.name hd.value (parse_ok_headers_valid _ _ _ h hd hm)
  exact ⟨h1, h2, h3 (str "content-length") (by decide), h3 (str "transfer-encoding") (by decide)⟩

/-- Witness of C11: of the lines `Host`, `Content-Length`, `X_a-1` and `bad name`
the parser keeps `Host` and `X_a-1`, and the name `X_a-1` is as stated. -/
theorem accepted_header_names_witness :
    parse_http_request
        (str "GET / HTTP/1.1\r\nHost: a.b\r\nContent-Length: 3\r\nX_a-1: v\r\nbad name: x\r\n\r\nabc")
        78 =
      .ok { method := str "GET", path := str "/", version := str "HTTP/1.1",
            headers := [{ name := str "Host", value := str "a.b" },
                        { name := str "X_a-1", value := str "v" }],
            body := some (str "abc") } ∧
    str "X_a-1" ≠ [] ∧
    (str "X_a-1").all (fun c => decide (header_name_char c)) = true ∧
    (str "X_a-1").map tolower ≠ (str "content-length").map tolower ∧
    (str "X_a-1").map tolower ≠ (str "transfer-encoding").map tolower :=
  have h := accepted_header_names
    (str "GET / HTTP/1.1\r\nHost: a.b\r\nContent-Length: 3\r\nX_a-1: v\r\nbad name: x\r\n\r\nabc")
    78 { method := str "GET", path := str "/", version := str "HTTP/1.1",
         headers := [{ name := str "Host", value := str "a.b" },
                     { name := str "X_a-1", value := str "v" }],
         body := some (str "abc") } rfl { name := str "X_a-1", value := str "v" } (by decide)
  ⟨rfl, h.1, List.all_eq_true.mpr (fun c hc => decide_eq_true (h.2.1 c hc)), h.2.2.1, h.2.2.2⟩

/-! ## Claim C14: header lookup -/

/-- C14: `get_header` returns the value of the first header, in arrival
order, whose name is byte for byte the name asked for, and nothing when no
header has that name; a header stored as `host` is not found under `Host`. -/
theorem get_header_first_exact (req : http_req_t) (name : List Byte) :
    (∀ pre hd post, req.headers = pre ++ hd :: post → hd.name = name →
      (∀ x ∈ pre, x.name ≠ name) → get_header req name = some hd.value) ∧
    ((∀ hd ∈ req.headers, hd.name ≠ name) → get_header req name = none) ∧
    get_header { headers := [{ name := str "host", value := str "example.com" }] }
      (str "Host") = none := by
  refine ⟨fun pre hd post he hn hpre => ?_, fun hall => ?_, by decide⟩
  · unfold get_header
    rw [he]
    clear he
    have : List.find? (fun h => h.name == name) (pre ++ hd :: post) = some hd := by
      induction pre with
      | nil => simp [List.find?, hn]
      | cons x xs ih =>
        have hx : x.name ≠ name := hpre x (List.mem_cons_self _ _)
        have hb : (x.name == name) = false := by simpa using hx
        rw [List.cons_append, List.find?_cons, hb]
        exact ih (fun y hy => hpre y (List.mem_cons_of_mem _ hy))
    rw [this]; rfl
  · unfold get_header
    simp only [Option.map_eq_none', List.find?_eq_none, beq_iff_eq]
    exact hall

/-- Witness of C14: with two `Accept` headers the first value is returned. -/
theorem get_header_first_exact_witness :
    get_header { headers := [{ name := str "host", value := str "h" },
                             { name := str "Accept", value := str "a" },
                             { name := str "Accept", value := str "b" }] } (str "Accept") =
      some (str "a") :=
  (get_header_first_exact { headers := [{ name := str "host", value := str "h" },
                             { name := str "Accept", value := str "a" },
                             { name := str "Accept", value := str "b" }] } (str "Accept")).1
    [{ name := str "host", value := str "h" }] { name := str "Accept", value := str "a" }
    [{ name := str "Accept", value := str "b" }] rfl rfl (by decide)

/-! ## Claim C12: the header list -/

theorem takeWhile_dropWhile_first (a b : List Byte) (c : Byte) (h : c ∉ a) :
    (a ++ c :: b).takeWhile (fun x => x ≠ c) = a ∧
      (a ++ c :: b).dropWhile (fun x => x ≠ c) = c :: b := by
  induction a with
  | nil => simp [List.takeWhile, List.dropWhile]
  | cons x xs ih =>
    have hx : x ≠ c := fun e => h (by simp [e])
    have hxs : c ∉ xs := fun e => h (by simp [e])
    obtain ⟨i1, i2⟩ := ih hxs
    constructor
    · simp only [List.cons_append, List.takeWhile, hx, ne_eq, not_false_eq_true, decide_True]
      exact congrArg _ i1
    · simp only [List.cons_append, List.dropWhile, hx, ne_eq, not_false_eq_true, decide_True]
      exact i2

theorem strchr_eq_none (l : List Byte) (c : Byte) (h : strchr l c = none) : c ∉ l := by
  intro hm
  obtain ⟨a, b, rfl⟩ := List.append_of_mem hm
  induction a with
  | nil => simp [strchr] at h
  | cons x xs ih =>
    by_cases hx : x = c
    · simp [strchr, hx] at h
    · simp only [List.cons_append, strchr, hx, if_false, Option.map_eq_none'] at h
      exact ih h (by simp)

theorem header_entry_eq (line : List Byte) :
    header_entry line =
      if line.length > MAX_HEADER_LENGTH then none
      else
        match strchr line 58 with
        | none => none
        | some k =>
          if validate_header (line.take k) ((line.drop (k + 1)).dropWhile (fun c => c = 32)) then
            some { name := line.take k,
                   value := (line.drop (k + 1)).dropWhile (fun c => c = 32) }
          else none := by
  unfold header_entry
  by_cases hl : line.length > MAX_HEADER_LENGTH
  · simp [hl, Nat.not_le.mpr hl]
  · have hl2 : line.length ≤ MAX_HEADER_LENGTH := Nat.not_lt.mp hl
    cases hk : strchr line 58 with
    | none =>
      have := strchr_eq_none _ _ hk
      simp [hl, this]
    | some k =>
      obtain ⟨e, hn⟩ := strchr_some _ _ _ hk
      obtain ⟨t1, t2⟩ := takeWhile_dropWhile_first _ (line.drop (k + 1)) 58 hn
      rw [← e] at t1 t2
      have hm : 58 ∈ line := by rw [e]; simp
      simp only [hl2, hm, and_self, if_true, hl, if_false, t1, t2, List.drop_succ_cons,
        List.drop_zero]

theorem split_crlf_of_strstr (s : List Byte) :
    ∀ cur, (strstr s CRLF = none → split_crlf s cur = []) ∧
      (∀ n, strstr s CRLF = some n →
        split_crlf s cur = (cur ++ s.take n) :: split_crlf (s.drop (n + 2)) []) := by
  induction s with
  | nil =>
    intro cur
    exact ⟨fun _ => rfl, fun n h => by simp [strstr, CRLF] at h⟩
  | cons c t ih =>
    intro cur
    cases t with
    | nil =>
      refine ⟨fun _ => rfl, fun n h => ?_⟩
      simp [strstr, CRLF, List.isPrefixOf] at h
    | cons d rest =>
      by_cases hp : c = 13 ∧ d = 10
      · obtain ⟨rfl, rfl⟩ := hp
        refine ⟨fun h => ?_, fun n h => ?_⟩
        · simp [strstr, CRLF, List.isPrefixOf] at h
        · simp only [strstr, CRLF, List.isPrefixOf, beq_self_eq_true, Bool.and_self, if_true,
            Option.some.injEq] at h
          subst h
          simp [split_crlf]
      · have hpf : CRLF.isPrefixOf (c :: d :: rest) = false := by
          simp only [CRLF, List.isPrefixOf, Bool.and_true, Bool.and_eq_false_imp, beq_iff_eq,
            beq_eq_false_iff_ne, ne_eq]
          intro e1 e2
          exact hp ⟨e1.symm, e2.symm⟩
        have hstep : split_crlf (c :: d :: rest) cur = split_crlf (d :: rest) (cur ++ [c]) := by
          rw [split_crlf, if_neg hp]
        obtain ⟨i1, i2⟩ := ih (cur ++ [c])
        refine ⟨fun h => ?_, fun n h => ?_⟩
        · rw [strstr, hpf] at h
          simp only [Bool.false_eq_true, if_false, Option.map_eq_none'] at h
          rw [hstep]; exact i1 h
        · rw [strstr, hpf] at h
          simp only [Bool.false_eq_true, if_false, Option.map_eq_some'] at h
          obtain ⟨m, hm, rfl⟩ := h
          rw [hstep, i2 m hm]
          simp

theorem strstr_CRLF_length (s : List Byte) (n : Nat) (h : strstr s CRLF = some n) :
    n + 2 ≤ s.length := by
  obtain ⟨e, -⟩ := strstr_CRLF_some s n h
  have := congrArg List.length e
  simp only [List.length_append, List.length_cons, List.length_take, List.length_drop] at this
  omega

theorem header_lines_none (s : List Byte) (h : strstr s CRLF = none) : header_lines s = [] := by
  unfold header_lines
  rw [((split_crlf_of_strstr s) []).1 h]
  rfl

theorem header_lines_zero (s : List Byte) (h : strstr s CRLF = some 0) :
    header_lines s = [] := by
  unfold header_lines
  rw [((split_crlf_of_strstr s) []).2 0 h]
  simp [List.takeWhile]

theorem header_lines_succ (s : List Byte) (n : Nat) (h : strstr s CRLF = some n) (hn : n ≠ 0) :
    header_lines s = s.take n :: header_lines (s.drop (n + 2)) := by
  unfold header_lines
  rw [((split_crlf_of_strstr s) []).2 n h]
  have hlen := strstr_CRLF_length s n h
  have hne : s.take n ≠ [] := by
    intro e
    have := congrArg List.length e
    simp only [List.length_take, List.length_nil] at this
    omega
  simp [List.takeWhile, hne]

theorem parse_headers_listed (fuel : Nat) (s : List Byte) (req r : http_req_t)
    (h : parse_headers fuel s req = some r) :
    r.headers = req.headers ++
      ((header_lines s).filterMap header_entry).take (MAX_HEADER_COUNT - req.headers.length) := by
  induction fuel generalizing s req with
  | zero => simp [parse_headers] at h
  | succ fuel ih =>
    rw [parse_headers] at h
    split_ifs at h with h1
    · simp only [Option.some.injEq] at h
      subst h
      rcases h1 with h1 | h1
      · subst h1
        simp [header_lines, split_crlf]
      · simp [Nat.sub_eq_zero_of_le h1]
    · have hcount : req.headers.length < MAX_HEADER_COUNT := by
        simp only [not_or, ge_iff_le, not_le] at h1
        exact h1.2
      split at h
      · rename_i hs
        simp only [Option.some.injEq] at h
        subst h
        simp [header_lines_none s hs]
      · rename_i n hs
        split_ifs at h with hz hlong
        · simp only [Option.some.injEq] at h
          subst h
          subst hz
          simp [header_lines_zero s hs]
        · have hlen := strstr_CRLF_length s n hs
          have hskip : header_entry (s.take n) = none := by
            rw [header_entry_eq, if_pos]
            simp only [List.length_take]
            omega
          rw [ih _ _ h, header_lines_succ s n hs hz, List.filterMap_cons, hskip]
        · rw [header_lines_succ s n hs hz, List.filterMap_cons, header_entry_eq,
            if_neg (by
              simp only [List.length_take, gt_iff_lt, not_lt]
              omega)]
          split at h
          · rename_i hk
            exact ih _ _ h
          · rename_i k hk
            have hkn : k < n := by
              obtain ⟨e, -⟩ := strchr_some _ _ _ hk
              have := congrArg List.length e
              have hlen := strstr_CRLF_length s n hs
              simp only [List.length_append, List.length_cons, List.length_take,
                List.length_drop] at this
              omega
            have htk : (s.take n).take k = s.take k := by
              rw [List.take_take, min_eq_left (le_of_lt hkn)]
            rw [htk]
            dsimp only at h
            split_ifs at h with hv
            · rw [if_pos hv, ih _ _ h]
              simp only [List.length_append, List.length_singleton, List.append_assoc,
                List.singleton_append]
              have : MAX_HEADER_COUNT - req.headers.length =
                  (MAX_HEADER_COUNT - (req.headers.length + 1)) + 1 := by omega
              rw [this, List.take_succ_cons]
            · rw [if_neg hv]
              exact ih _ _ h

/-- C12: in every accepted request the header list is, in arrival order, the
list of the (name, value) pairs of the header lines that precede the blank line,
are at most MAX_HEADER_LENGTH bytes long, hold a colon and pass `validate_header`
(name: the text before the first colon; value: the text after it without its
leading spaces), cut off after MAX_HEADER_COUNT entries; the other lines leave
no trace and do not fail the parse. -/
theorem accepted_header_list (buffer : List Byte) (buffer_len : Nat) (req : http_req_t)
    (h : parse_http_request buffer buffer_len = .ok req) :
    ∃ line hdr, cstr buffer = line ++ CRLF ++ hdr ∧ ¬ CRLF <:+: line ∧
      req.headers = listed_headers hdr := by
  obtain ⟨M, P, V, hdr, sp, hdec, -, -, hno, -, -, -, rfl, -, -⟩ := parse_ok_inv _ _ _ h
  refine ⟨request_line M P V, hdr, by simpa [CRLF] using hdec, hno, ?_⟩
  have hs := parse_headers_isSome (hdr.length + 1) hdr
    { method := M.take MAX_METHOD_LENGTH, path := sp, version := V.take 16 } (Nat.lt_succ_self _)
  obtain ⟨r, hr⟩ := Option.isSome_iff_exists.mp hs
  have := parse_headers_listed _ _ _ _ hr
  unfold parsed
  rw [hr]
  simpa [listed_headers] using this

/-- Witness of C12: of five lines before the blank line, the one without a
colon and the `Content-Length` line leave no entry. -/
theorem accepted_header_list_witness :
    listed_headers (str "Host: a.b\r\nno colon here\r\nContent-Length: 3\r\nX_a-1:   v\r\n\r\nabc") =
        [{ name := str "Host", value := str "a.b" }, { name := str "X_a-1", value := str "v" }] ∧
      ∃ line hdr,
        cstr (str "GET / HTTP/1.1\r\nHost: a.b\r\nno colon here\r\nContent-Length: 3\r\nX_a-1:   v\r\n\r\nabc") =
          line ++ CRLF ++ hdr ∧ ¬ CRLF <:+: line ∧
        [({ name := str "Host", value := str "a.b" } : header_t),
          { name := str "X_a-1", value := str "v" }] = listed_headers hdr :=
  ⟨by decide,
    accepted_header_list
      (str "GET / HTTP/1.1\r\nHost: a.b\r\nno colon here\r\nContent-Length: 3\r\nX_a-1:   v\r\n\r\nabc")
      83 { method := str "GET", path := str "/", version := str "HTTP/1.1",
           headers := [{ name := str "Host", value := str "a.b" },
                       { name := str "X_a-1", value := str "v" }],
           body := some (str "abc") } rfl⟩

/-! ## Claim C13: the body after the blank line -/

set_option maxRecDepth 100000 in
/-- C13, the failing input: a request line, 32 header lines `X-H: v`, the
blank line and the body `abc`. The header loop stops on its 32nd entry, before
it reaches the blank line, and the request is accepted without a body; with 31
such lines the body is `abc`. -/
theorem body_lost_after_32_headers :
    parse_http_request
        (str "POST /upload HTTP/1.1\r\n" ++ (List.replicate 32 (str "X-H: v\r\n")).flatten ++
          str "\r\nabc") 284 =
      .ok { method := str "POST", path := str "/upload", version := str "HTTP/1.1",
            headers := List.replicate 32 { name := str "X-H", value := str "v" },
            body := none } ∧
    parse_http_request
        (str "POST /upload HTTP/1.1\r\n" ++ (List.replicate 31 (str "X-H: v\r\n")).flatten ++
          str "\r\nabc") 276 =
      .ok { method := str "POST", path := str "/upload", version := str "HTTP/1.1",
            headers := List.replicate 31 { name := str "X-H", value := str "v" },
            body := some (str "abc") } :=
  ⟨rfl, rfl⟩

/-! ## Claims C17 and C18: `match_route` -/

theorem match_route_nil_right (route : List Byte) :
    match_route route [] = decide (route = []) := by
  cases route <;> simp [match_route]

theorem match_route_nil_left (c : Byte) (h : List Byte) :
    match_route [] (c :: h) = decide (c = 42) := by
  simp [match_route]

theorem match_route_literal (x c : Byte) (r h : List Byte) (hc : c ≠ 42) :
    match_route (x :: r) (c :: h) = if c ≠ x then false else match_route r h := by
  rw [match_route, if_neg hc]

theorem match_route_star (x : Byte) (r h : List Byte) :
    match_route (x :: r) (42 :: h) =
      match strchr (x :: r) 47 with
      | none => true
      | some n => match_route ((x :: r).drop n) h := by
  rw [match_route, if_pos rfl]

theorem match_route_common (L r h : List Byte) (hL : 42 ∉ L) :
    match_route (L ++ r) (L ++ h) = match_route r h := by
  induction L with
  | nil => rfl
  | cons c t ih =>
    have hc : c ≠ 42 := fun e => hL (by simp [e])
    have ht : 42 ∉ t := fun e => hL (by simp [e])
    simp only [List.cons_append]
    rw [match_route_literal _ _ _ _ hc]
    simp [ih ht]

/-- C17, the failing inputs: the path `/users/42` is accepted for the pattern
`/users/*/edit`, whose text `/edit` after the `*` is matched by nothing: the
`return 1` taken when the path holds no further slash does not look at the rest
of the pattern. Likewise `/a/` is accepted for `/a/*/b`, the final test asking
only that the pattern be at a `*`. -/
theorem match_route_ignores_pattern_rest :
    match_route (str "/users/42") (str "/users/*/edit") = true ∧
      match_route (str "/a/") (str "/a/*/b") = true :=
  ⟨by decide, by decide⟩

/-- C18, the counterexample: the pattern `/static/*` ends in its only `*` and
the path `/static/css/a.css` begins with `/static/`, yet `match_route` refuses
it. -/
theorem trailing_star_stops_at_slash :
    match_route (str "/static/css/a.css") (str "/static/*") = false := by
  decide

/-- C18, amended: for a pattern `L*` whose only `*` is its last character and a
path that begins with `L`, `match_route` succeeds exactly when what follows `L`
in the path holds no slash: a trailing `*` matches one final segment, which may
be empty. -/
theorem match_route_trailing_star (L rest : List Byte) (hL : 42 ∉ L) :
    match_route (L ++ rest) (L ++ [42]) = true ↔ 47 ∉ rest := by
  rw [match_route_common L rest [42] hL]
  cases rest with
  | nil => simp [match_route]
  | cons x r =>
    rw [match_route_star]
    cases hk : strchr (x :: r) 47 with
    | none =>
      simp only [true_iff]
      exact strchr_eq_none _ _ hk
    | some n =>
      obtain ⟨e, -⟩ := strchr_some _ _ _ hk
      have hm : 47 ∈ x :: r := by rw [e]; simp
      have hd : (x :: r).drop n ≠ [] := by
        intro hd
        have h1 := congrArg List.length e
        have h2 := congrArg List.length hd
        simp only [List.length_append, List.length_cons, List.length_take, List.length_drop,
          List.length_nil] at h1 h2
        omega
      simp only [match_route_nil_right, decide_eq_true_eq, hd, hm, not_true_eq_false]

/-- Witness of C18: `/static/a.css` is accepted for `/static/*`. -/
theorem match_route_trailing_star_witness :
    match_route (str "/static/a.css") (str "/static/*") = true :=
  (match_route_trailing_star (str "/static/") (str "a.css") (by decide)).mpr (by decide)

/-! ## Claim C16: `get_wildcards` -/

theorem get_wildcards_loop_literal (c : Byte) (route_rest req_path : List Byte)
    (wc : List (List Byte)) (hc : c ≠ 42) (hp : req_path ≠ []) :
    get_wildcards_loop (c :: route_rest) req_path wc =
      get_wildcards_loop route_rest (req_path.drop 1) wc := by
  rw [get_wildcards_loop, if_neg hp, if_neg hc]

theorem get_wildcards_loop_star (route_rest req_path : List Byte) (wc : List (List Byte))
    (hp : req_path ≠ []) (hw : wc.length < 16) :
    get_wildcards_loop (42 :: route_rest) req_path wc =
      match route_rest with
      | [] => wc ++ [wildcard_run req_path]
      | _ :: route_rest2 =>
        get_wildcards_loop route_rest2 ((req_path.drop (wildcard_run req_path).length).drop 1)
          (wc ++ [wildcard_run req_path]) := by
  rw [get_wildcards_loop, if_neg hp, if_pos rfl]
  simp only [hw, if_true]

theorem get_wildcards_loop_common (lit p q : List Byte) (wc : List (List Byte))
    (hl : 42 ∉ lit) :
    get_wildcards_loop (lit ++ p) (lit ++ q) wc = get_wildcards_loop p q wc := by
  induction lit with
  | nil => rfl
  | cons c t ih =>
    have hc : c ≠ 42 := fun e => hl (by simp [e])
    have ht : 42 ∉ t := fun e => hl (by simp [e])
    simp only [List.cons_append]
    rw [get_wildcards_loop_literal _ _ _ _ hc (by simp)]
    simpa using ih ht

theorem wildcard_run_segment (seg follow : List Byte) (hs : 47 ∉ seg) (hl : seg.length ≤ 63)
    (hf : follow = [] ∨ follow.head? = some 47) : wildcard_run (seg ++ follow) = seg := by
  have ht : (seg ++ follow).takeWhile (fun c => c ≠ 47) = seg := by
    rcases hf with rfl | hf
    · simp only [List.append_nil, List.takeWhile_eq_self_iff]
      intro c hc
      simp only [ne_eq, decide_not, Bool.not_eq_true', decide_eq_false_iff_not]
      rintro rfl
      exact hs hc
    · cases follow with
      | nil => simp at hf
      | cons f fs =>
        simp only [List.head?_cons, Option.some.injEq] at hf
        subst hf
        exact (takeWhile_dropWhile_first seg fs 47 hs).1
  unfold wildcard_run
  rw [ht]
  exact List.take_of_length_le hl

theorem get_wildcards_loop_no_star (tail req_path : List Byte) (wc : List (List Byte))
    (ht : 42 ∉ tail) : get_wildcards_loop tail req_path wc = wc := by
  induction tail generalizing req_path with
  | nil => rfl
  | cons c t ih =>
    have hc : c ≠ 42 := fun e => ht (by simp [e])
    have ht2 : 42 ∉ t := fun e => ht (by simp [e])
    by_cases hp : req_path = []
    · rw [get_wildcards_loop, if_pos hp]
    · rw [get_wildcards_loop_literal _ _ _ _ hc hp]
      exact ih _ ht2

theorem pattern_of_head (pieces : List (List Byte × List Byte)) (tail : List Byte)
    (h : (pattern_of pieces tail).head? = some 47) :
    ∃ p q, pattern_of pieces tail = 47 :: p ∧ fill pieces tail = 47 :: q ∧
      ((pieces = [] ∧ p = q ∧ tail = 47 :: p) ∨
        ∃ lit seg rest, pieces = (47 :: lit, seg) :: rest ∧
          p = pattern_of ((lit, seg) :: rest) tail ∧ q = fill ((lit, seg) :: rest) tail) := by
  cases pieces with
  | nil =>
    cases tail with
    | nil => simp [pattern_of] at h
    | cons t ts =>
      simp only [pattern_of, List.head?_cons, Option.some.injEq] at h
      subst h
      exact ⟨ts, ts, rfl, rfl, Or.inl ⟨rfl, rfl, rfl⟩⟩
  | cons pc rest =>
    obtain ⟨lit, seg⟩ := pc
    cases lit with
    | nil => simp [pattern_of] at h
    | cons l ls =>
      simp only [pattern_of, List.cons_append, List.head?_cons, Option.some.injEq] at h
      subst h
      exact ⟨_, fill ((ls, seg) :: rest) tail, rfl, by simp [fill],
        Or.inr ⟨ls, seg, rest, rfl, rfl, rfl⟩⟩

theorem get_wildcards_loop_pieces (pieces : List (List Byte × List Byte)) :
    ∀ (tail : List Byte) (wc : List (List Byte)), whole_segments pieces tail →
      wc.length + pieces.length ≤ 16 →
      get_wildcards_loop (pattern_of pieces tail) (fill pieces tail) wc =
        wc ++ pieces.map Prod.snd := by
  generalize hn : pieces.length = n
  induction n generalizing pieces with
  | zero =>
    intro tail wc hw _
    have : pieces = [] := List.length_eq_zero.mp hn
    subst this
    simp only [pattern_of, fill, List.map_nil, List.append_nil]
    exact get_wildcards_loop_no_star _ _ _ hw
  | succ n ih =>
    intro tail wc hw hlen
    cases pieces with
    | nil => simp at hn
    | cons pc rest =>
      obtain ⟨lit, seg⟩ := pc
      simp only [List.length_cons, Nat.add_right_cancel_iff] at hn
      obtain ⟨hlit, hseg, hsl, hfollow, hrest⟩ := hw
      have hwl : wc.length < 16 := by omega
      simp only [pattern_of, fill, List.append_assoc, List.map_cons]
      rw [get_wildcards_loop_common _ _ _ _ hlit]
      rcases hfollow with hhead | ⟨rfl, rfl, hne⟩
      · obtain ⟨p, q, hp, hq, hcase⟩ := pattern_of_head rest tail hhead
        have hrun : wildcard_run (seg ++ 47 :: q) = seg :=
          wildcard_run_segment seg _ hseg hsl (Or.inr rfl)
        rw [hp, hq, get_wildcards_loop_star _ _ _ (by simp) hwl]
        simp only [hrun, List.drop_left, List.drop_succ_cons, List.drop_zero]
        rcases hcase with ⟨hpn, hpq, htail⟩ | ⟨l2, s2, r2, hpc, hpp, hqq⟩
        · have h42 : 42 ∉ p := by
            subst hpn
            have : 42 ∉ tail := hrest
            rw [htail] at this
            exact fun e => this (List.mem_cons_of_mem _ e)
          rw [get_wildcards_loop_no_star _ _ _ h42, hpn]
          simp
        · have hw2 : whole_segments ((l2, s2) :: r2) tail := by
            rw [hpc] at hrest
            obtain ⟨a, b⟩ := hrest
            exact ⟨fun e => a (List.mem_cons_of_mem _ e), b⟩
          have hlen2 : ((l2, s2) :: r2).length = n := by rw [← hn, hpc]; rfl
          have := ih ((l2, s2) :: r2) hlen2 tail (wc ++ [seg]) hw2
            (by simp only [List.length_append, List.length_singleton]; omega)
          rw [hpp, hqq, this, hpc]
          simp
      · simp only [pattern_of, fill, List.append_nil]
        rw [get_wildcards_loop_star _ _ _ hne hwl]
        simp only [List.map_nil]
        have := wildcard_run_segment seg [] hseg hsl (Or.inl rfl)
        rw [List.append_nil] at this
        rw [this]

theorem pattern_of_count (pieces : List (List Byte × List Byte)) (tail : List Byte)
    (hw : whole_segments pieces tail) : (pattern_of pieces tail).count 42 = pieces.length := by
  induction pieces with
  | nil => exact List.count_eq_zero.mpr hw
  | cons pc rest ih =>
    obtain ⟨lit, seg⟩ := pc
    obtain ⟨hlit, -, -, -, hrest⟩ := hw
    simp only [pattern_of, List.count_append, List.count_cons_self, List.length_cons,
      List.count_eq_zero.mpr hlit, ih hrest]
    omega

theorem match_route_self (tail : List Byte) (ht : 42 ∉ tail) : match_route tail tail = true := by
  have := match_route_common tail [] [] ht
  simp only [List.append_nil] at this
  rw [this]
  rfl

theorem match_route_pieces (pieces : List (List Byte × List Byte)) :
    ∀ (tail : List Byte), whole_segments pieces tail →
      match_route (fill pieces tail) (pattern_of pieces tail) = true := by
  generalize hn : pieces.length = n
  induction n generalizing pieces with
  | zero =>
    intro tail hw
    have : pieces = [] := List.length_eq_zero.mp hn
    subst this
    exact match_route_self tail hw
  | succ n ih =>
    intro tail hw
    cases pieces with
    | nil => simp at hn
    | cons pc rest =>
      obtain ⟨lit, seg⟩ := pc
      simp only [List.length_cons, Nat.add_right_cancel_iff] at hn
      obtain ⟨hlit, hseg, hsl, hfollow, hrest⟩ := hw
      simp only [pattern_of, fill, List.append_assoc]
      rw [match_route_common _ _ _ hlit]
      rcases hfollow with hhead | ⟨rfl, rfl, hne⟩
      · obtain ⟨p, q, hp, hq, hcase⟩ := pattern_of_head rest tail hhead
        rw [hp, hq]
        have hk : strchr (seg ++ 47 :: q) 47 = some seg.length := strchr_append seg q 47 hseg
        have hcont : match_route (47 :: q) (47 :: p) = true := by
          rw [match_route_literal _ _ _ _ (by decide)]
          simp only [ne_eq, not_true_eq_false, if_false]
          rcases hcase with ⟨hpn, hpq, htail⟩ | ⟨l2, s2, r2, hpc, hpp, hqq⟩
          · subst hpn
            have : 42 ∉ tail := hrest
            rw [htail] at this
            rw [← hpq]
            exact match_route_self p (fun e => this (List.mem_cons_of_mem _ e))
          · have hw2 : whole_segments ((l2, s2) :: r2) tail := by
              rw [hpc] at hrest
              obtain ⟨a, b⟩ := hrest
              exact ⟨fun e => a (List.mem_cons_of_mem _ e), b⟩
            have hlen2 : ((l2, s2) :: r2).length = n := by rw [← hn, hpc]; rfl
            rw [hpp, hqq]
            exact ih _ hlen2 tail hw2
        cases seg with
        | nil =>
          simp only [List.nil_append] at hk ⊢
          rw [match_route_star, hk]
          exact hcont
        | cons s ss =>
          simp only [List.cons_append] at hk ⊢
          rw [match_route_star, hk]
          simpa using hcont
      · simp only [pattern_of, fill, List.append_nil]
        cases seg with
        | nil => exact absurd rfl hne
        | cons s ss =>
          rw [match_route_star, strchr_none _ _ hseg]

/-- C16, the counterexample: against `/users/*` the path `/users/` followed by
64 letters `a` matches, and the capture stored holds 63 of them, not the whole
run. -/
theorem long_segment_capture_is_cut :
    match_route (str "/users/" ++ List.replicate 64 97) (str "/users/*") = true ∧
      (get_wildcards { path := str "/users/" ++ List.replicate 64 97 }
        { method := str "GET", path := str "/users/*", callback := 0 }).wildcards =
        [List.replicate 63 97] ∧
      List.replicate 63 97 ≠ List.replicate 64 97 := by
  decide

/-- C16, amended: for a pattern with at most 16 `*`, each standing for a whole
segment, and a path that puts a run of at most 63 bytes without slash in the
place of each `*` (and does not end just where the last `*` begins), the path
matches the pattern, `get_wildcards` stores these runs in pattern order, and
`wildcard_num`, the number of captures, is the number of `*` in the pattern. -/
theorem get_wildcards_whole_segments (pieces : List (List Byte × List Byte))
    (tail : List Byte) (req : http_req_t) (r : route_t)
    (hr : r.path = pattern_of pieces tail) (hq : req.path = fill pieces tail)
    (hw : whole_segments pieces tail) (hn : pieces.length ≤ 16) :
    match_route req.path r.path = true ∧
      (get_wildcards req r).wildcards = pieces.map Prod.snd ∧
      (get_wildcards req r).wildcards.length = r.path.count 42 := by
  have h := get_wildcards_loop_pieces pieces tail [] hw (by simpa using hn)
  refine ⟨by rw [hr, hq]; exact match_route_pieces pieces tail hw, ?_⟩
  unfold get_wildcards
  simp only [hr, hq, h, List.nil_append, List.length_map, pattern_of_count pieces tail hw,
    and_self]

/-- Witness of C16: `/users/42/posts/7` against `/users/*/posts/*` gives the
captures `42` and `7`, and `/users/42` against `/users/*` gives `42`. -/
theorem get_wildcards_whole_segments_witness :
    (get_wildcards { path := str "/users/42/posts/7" }
        { method := str "GET", path := str "/users/*/posts/*", callback := 0 }).wildcards =
        [str "42", str "7"] ∧
      (get_wildcards { path := str "/users/42" }
        { method := str "GET", path := str "/users/*", callback := 0 }).wildcards =
        [str "42"] :=
  ⟨(get_wildcards_whole_segments [(str "/users/", str "42"), (str "/posts/", str "7")] []
      { path := str "/users/42/posts/7" }
      { method := str "GET", path := str "/users/*/posts/*", callback := 0 }
      (by decide) (by decide) (by decide) (by decide)).2.1,
    (get_wildcards_whole_segments [(str "/users/", str "42")] []
      { path := str "/users/42" } { method := str "GET", path := str "/users/*", callback := 0 }
      (by decide) (by decide) (by decide) (by decide)).2.1⟩

/-! ## Claims C15 and C19: `process_routes` -/

theorem process_routes_cons (r : route_t) (next : List route_t) (req : http_req_t) :
    process_routes (r :: next) req =
      if route_matches req r then (1, [(r, get_wildcards req r)])
      else process_routes next req := by
  have hsub : ∀ (a b : Option (List Byte)),
      (if a = none ∧ b = none then true
        else if a ≠ none ∧ b ≠ none ∧ a = b then true else false) = decide (a = b) := by
    intro a b
    cases a <;> cases b <;> simp
  rw [process_routes]
  unfold route_matches
  simp only [hsub]
  by_cases hm : req.method = r.method
  · by_cases hp : match_route req.path r.path = true
    · by_cases hs : r.sub_domain = req.sub_domain <;> simp [hm, hp, hs]
    · simp [hm, hp]
  · simp [hm]

theorem add_routes_eq (calls : List route_t) :
    add_routes calls = (calls.map stored).reverse := by
  unfold add_routes
  have key : ∀ (cs server : List route_t),
      cs.foldl (fun server c => add_route server c.method c.path c.sub_domain c.callback) server
        = (cs.map stored).reverse ++ server := by
    intro cs
    induction cs with
    | nil => intro server; rfl
    | cons c cs ih =>
      intro server
      simp only [List.foldl_cons, ih, List.map_cons, List.reverse_cons, List.append_assoc,
        List.singleton_append]
      rfl
  simpa using key calls []

theorem process_routes_first (pre post : List route_t) (r : route_t) (req : http_req_t)
    (hpre : ∀ a ∈ pre, ¬ route_matches req a) (hr : route_matches req r) :
    process_routes (pre ++ r :: post) req = (1, [(r, get_wildcards req r)]) := by
  induction pre with
  | nil => rw [List.nil_append, process_routes_cons, if_pos hr]
  | cons a as ih =>
    rw [List.cons_append, process_routes_cons, if_neg (hpre a (List.mem_cons_self _ _))]
    exact ih (fun b hb => hpre b (List.mem_cons_of_mem _ hb))

theorem process_routes_none (routes : List route_t) (req : http_req_t)
    (h : ∀ a ∈ routes, ¬ route_matches req a) : process_routes routes req = (0, []) := by
  induction routes with
  | nil => rfl
  | cons a as ih =>
    rw [process_routes_cons, if_neg (h a (List.mem_cons_self _ _))]
    exact ih (fun b hb => h b (List.mem_cons_of_mem _ hb))

/-- C15: after the calls `before`, `c`, `after` of `add_route`, in this order,
where the route registered by `c` matches the request and none registered later
does, `process_routes` calls the handler of that route, and no other, and
returns 1; when no registered route matches it calls no handler and returns 0.
With `GET /users/*` registered before `GET /users/settings`, `/users/settings`
goes to the literal route (handler 2) and `/users/42` to the wildcard route
(handler 1). -/
theorem process_routes_latest_match :
    (∀ (before after : List route_t) (c : route_t) (req : http_req_t),
      route_matches req (stored c) → (∀ a ∈ after, ¬ route_matches req (stored a)) →
      process_routes (add_routes (before ++ c :: after)) req =
        (1, [(stored c, get_wildcards req (stored c))])) ∧
    (∀ (calls : List route_t) (req : http_req_t),
      (∀ a ∈ calls, ¬ route_matches req (stored a)) →
      process_routes (add_routes calls) req = (0, [])) ∧
    process_routes
        (add_route (add_route [] (str "GET") (str "/users/*") none 1)
          (str "GET") (str "/users/settings") none 2)
        { method := str "GET", path := str "/users/settings" } =
      (1, [({ method := str "GET", path := str "/users/settings", callback := 2 },
            { method := str "GET", path := str "/users/settings" })]) ∧
    process_routes
        (add_route (add_route [] (str "GET") (str "/users/*") none 1)
          (str "GET") (str "/users/settings") none 2)
        { method := str "GET", path := str "/users/42" } =
      (1, [({ method := str "GET", path := str "/users/*", callback := 1 },
            { method := str "GET", path := str "/users/42", wildcards := [str "42"] })]) := by
  refine ⟨fun before after c req hc hafter => ?_, fun calls req hnone => ?_, by decide,
    by decide⟩
  · rw [add_routes_eq]
    simp only [List.map_append, List.map_cons, List.reverse_append, List.reverse_cons,
      List.append_assoc, List.singleton_append]
    refine process_routes_first _ _ _ _ (fun a ha => ?_) hc
    obtain ⟨b, hb, rfl⟩ := List.mem_map.mp (List.mem_reverse.mp ha)
    exact hafter b hb
  · rw [add_routes_eq]
    refine process_routes_none _ _ (fun a ha => ?_)
    obtain ⟨b, hb, rfl⟩ := List.mem_map.mp (List.mem_reverse.mp ha)
    exact hnone b hb

/-- Witness of C15: with `POST /users/*` registered last, a `GET /users/42`
still goes to the earlier `GET /users/*`, and a `GET /about` to no route. -/
theorem process_routes_latest_match_witness :
    process_routes
        (add_routes [{ method := str "GET", path := str "/users/*", callback := 1 },
          { method := str "POST", path := str "/users/*", callback := 2 }])
        { method := str "GET", path := str "/users/42" } =
      (1, [({ method := str "GET", path := str "/users/*", callback := 1 },
            { method := str "GET", path := str "/users/42", wildcards := [str "42"] })]) ∧
    process_routes
        (add_routes [{ method := str "GET", path := str "/users/*", callback := 1 },
          { method := str "POST", path := str "/users/*", callback := 2 }])
        { method := str "GET", path := str "/about" } = (0, []) :=
  ⟨process_routes_latest_match.1 []
      [{ method := str "POST", path := str "/users/*", callback := 2 }]
      { method := str "GET", path := str "/users/*", callback := 1 }
      { method := str "GET", path := str "/users/42" } (by decide) (by decide),
    process_routes_latest_match.2.1
      [{ method := str "GET", path := str "/users/*", callback := 1 },
        { method := str "POST", path := str "/users/*", callback := 2 }]
      { method := str "GET", path := str "/about" } (by decide)⟩

/-- C19: whenever `process_routes` calls the handler of a route, the route is
one of the list and its subdomain is that of the request: both absent, or both
present and equal. A route with a subdomain is never called for a request that
has none or another one, and a route without subdomain never for a request that
has one. -/
theorem process_routes_subdomain (routes : List route_t) (req : http_req_t)
    (r : route_t) (q : http_req_t) (h : (r, q) ∈ (process_routes routes req).2) :
    r ∈ routes ∧ r.sub_domain = req.sub_domain ∧
      (∀ s, r.sub_domain = some s → req.sub_domain = some s) ∧
      (r.sub_domain = none → req.sub_domain = none) := by
  induction routes with
  | nil => simp [process_routes] at h
  | cons a as ih =>
    rw [process_routes_cons] at h
    split_ifs at h with hm
    · simp only [List.mem_singleton, Prod.mk.injEq] at h
      obtain ⟨rfl, -⟩ := h
      exact ⟨List.mem_cons_self _ _, hm.2.2, fun s hs => by rw [← hm.2.2, hs],
        fun hs => by rw [← hm.2.2, hs]⟩
    · obtain ⟨h1, h2⟩ := ih h
      exact ⟨List.mem_cons_of_mem _ h1, h2⟩

/-- Witness of C19: a request for the subdomain `api` skips the later route
without subdomain and reaches the route registered for `api`. -/
theorem process_routes_subdomain_witness :
    process_routes
        [{ method := str "GET", path := str "/v1", callback := 2 },
         { sub_domain := some (str "api"), method := str "GET", path := str "/v1",
           callback := 1 }]
        { sub_domain := some (str "api"), method := str "GET", path := str "/v1" } =
      (1, [({ sub_domain := some (str "api"), method := str "GET", path := str "/v1",
              callback := 1 },
            { sub_domain := some (str "api"), method := str "GET", path := str "/v1" })]) ∧
    (({ sub_domain := some (str "api"), method := str "GET", path := str "/v1",
        callback := 1 } : route_t).sub_domain =
      ({ sub_domain := some (str "api"), method := str "GET", path := str "/v1" } :
        http_req_t).sub_domain) :=
  ⟨by decide,
    (process_routes_subdomain
      [{ method := str "GET", path := str "/v1", callback := 2 },
       { sub_domain := some (str "api"), method := str "GET", path := str "/v1", callback := 1 }]
      { sub_domain := some (str "api"), method := str "GET", path := str "/v1" }
      { sub_domain := some (str "api"), method := str "GET", path := str "/v1", callback := 1 }
      { sub_domain := some (str "api"), method := str "GET", path := str "/v1" }
      (by decide)).2.1⟩

/-! ## Claim C20: `extract_subdomain` -/

theorem strrchr_none (l : List Byte) (c : Byte) (h : strrchr l c = none) : c ∉ l := by
  induction l with
  | nil => simp
  | cons x xs ih =>
    rw [strrchr] at h
    cases hx : strrchr xs c with
    | some n => rw [hx] at h; cases h
    | none =>
      rw [hx] at h
      simp only at h
      split_ifs at h with he
      simp only [List.mem_cons, not_or]
      exact ⟨fun e => he e.symm, ih hx⟩

theorem strrchr_some (l : List Byte) (c : Byte) (k : Nat) (h : strrchr l c = some k) :
    l = l.take k ++ c :: l.drop (k + 1) ∧ c ∉ l.drop (k + 1) := by
  induction l generalizing k with
  | nil => simp [strrchr] at h
  | cons x xs ih =>
    rw [strrchr] at h
    cases hx : strrchr xs c with
    | some n =>
      rw [hx] at h
      simp only [Option.some.injEq] at h
      subst h
      obtain ⟨h1, h2⟩ := ih n hx
      exact ⟨by simpa using h1, by simpa using h2⟩
    | none =>
      rw [hx] at h
      simp only at h
      split_ifs at h with he
      simp only [Option.some.injEq] at h
      subst h
      subst he
      exact ⟨by simp, by simpa using strrchr_none xs x hx⟩

theorem strip_last_label_append (a b : List Byte) (hb : 46 ∉ b) :
    strip_last_label (a ++ 46 :: b) = a := by
  unfold strip_last_label
  have hr : (a ++ 46 :: b).reverse = b.reverse ++ 46 :: a.reverse := by simp
  rw [hr, (takeWhile_dropWhile_first b.reverse a.reverse 46 (by simpa using hb)).2]
  simp

theorem strip_last_label_none (l : List Byte) (h : 46 ∉ l) : strip_last_label l = [] := by
  unfold strip_last_label
  have : l.reverse.dropWhile (fun c => c ≠ 46) = [] := by
    rw [List.dropWhile_eq_nil_iff]
    intro c hc
    have hc2 : c ∈ l := List.mem_reverse.mp hc
    simp only [ne_eq, decide_not, Bool.not_eq_true', decide_eq_false_iff_not]
    rintro rfl
    exact h hc2
  rw [this]
  rfl

theorem cut_at_port (host : List Byte) :
    (match strchr host 58 with
      | some port => host.take port
      | none => host) = host.takeWhile (fun c => c ≠ 58) := by
  cases hk : strchr host 58 with
  | none =>
    have hn := strchr_eq_none _ _ hk
    simp only
    symm
    rw [List.takeWhile_eq_self_iff]
    intro c hc
    simp only [ne_eq, decide_not, Bool.not_eq_true', decide_eq_false_iff_not]
    rintro rfl
    exact hn hc
  | some k =>
    obtain ⟨e, hn⟩ := strchr_some _ _ _ hk
    have := (takeWhile_dropWhile_first _ (host.drop (k + 1)) 58 hn).1
    rw [← e] at this
    exact this.symm

theorem extract_subdomain_of_host (req : http_req_t) (host : List Byte)
    (h : get_header req HOST = some host) :
    (extract_subdomain req).sub_domain = subdomain_of_host host := by
  unfold extract_subdomain subdomain_of_host
  rw [h]
  simp only [cut_at_port]
  generalize host.takeWhile (fun c => c ≠ 58) = sub
  cases h1 : strrchr sub 46 with
  | none =>
    have hn := strrchr_none _ _ h1
    simp [strip_last_label_none sub hn]
  | some dot1 =>
    obtain ⟨e, hn⟩ := strrchr_some _ _ _ h1
    have hs : strip_last_label sub = sub.take dot1 := by
      conv_lhs => rw [e]
      exact strip_last_label_append _ _ hn
    simp only [hs]
    cases h2 : strchr (sub.take dot1) 46 with
    | none =>
      have := strchr_eq_none _ _ h2
      simp [this]
    | some dot2 =>
      obtain ⟨e2, hn2⟩ := strchr_some _ _ _ h2
      have hm : 46 ∈ sub.take dot1 := by rw [e2]; simp
      have hsub : sub = (sub.take dot1).take dot2 ++
          46 :: ((sub.take dot1).drop (dot2 + 1) ++ 46 :: sub.drop (dot1 + 1)) := by
        conv_lhs => rw [e, e2]
        simp
      have ht := (takeWhile_dropWhile_first _
        ((sub.take dot1).drop (dot2 + 1) ++ 46 :: sub.drop (dot1 + 1)) 46 hn2).1
      rw [← hsub] at ht
      simp only [hm, if_true, ht]

/-- C20: the subdomain that `extract_subdomain` stores depends on the value
of the `Host` header alone, and the other fields stay as they are. With the value
cut at its port, it is the leftmost label when a `.` remains after the rightmost
label is stripped, and absent otherwise or without a `Host` header:
`api.example.com` gives `api`, `example.com` and `example.com:8080` give none. -/
theorem extract_subdomain_spec (req : http_req_t) :
    (extract_subdomain req).sub_domain = (get_header req HOST).bind subdomain_of_host ∧
      extract_subdomain req = { req with sub_domain := (extract_subdomain req).sub_domain } ∧
      subdomain_of_host (str "api.example.com") = some (str "api") ∧
      subdomain_of_host (str "example.com") = none ∧
      subdomain_of_host (str "example.com:8080") = none := by
  refine ⟨?_, ?_, by decide, by decide, by decide⟩
  · cases h : get_header req HOST with
    | none => simp [extract_subdomain, h]
    | some host => simpa using extract_subdomain_of_host req host h
  · unfold extract_subdomain
    cases get_header req HOST with
    | none => rfl
    | some host =>
      simp only
      split
      · rfl
      · split <;> rfl

/-! ## Claims C21 to C23: the buffer pool -/

theorem size_t_pred (c : Nat) (h1 : 1 ≤ c) (h2 : c < SIZE_T) : (c + SIZE_T - 1) % SIZE_T = c - 1 := by
  unfold SIZE_T at *
  omega

theorem size_t_succ (c : Nat) (h : c + 1 < SIZE_T) : (c + 1) % SIZE_T = c + 1 :=
  Nat.mod_eq_of_lt h

theorem get_buffer_new (pool : buffer_pool_t) (min_size fresh : Nat)
    (h : pool.free_buffers = [] ∨
      ∃ buf next, pool.free_buffers = buf :: next ∧ buf.size < min_size) :
    get_buffer pool min_size fresh =
      ({ addr := fresh, size := max min_size BUFFER_SIZE }, pool) := by
  have hmax : (if min_size < BUFFER_SIZE then BUFFER_SIZE else min_size) =
      max min_size BUFFER_SIZE := by
    split_ifs with hlt
    · exact (max_eq_right (le_of_lt hlt)).symm
    · exact (max_eq_left (Nat.not_lt.mp hlt)).symm
  unfold get_buffer
  rcases h with h | ⟨buf, next, h, hlt⟩
  · rw [h]; simp only [hmax]
  · rw [h]; simp only [ge_iff_le, Nat.not_le.mpr hlt, if_false, hmax]

theorem get_buffer_reuse (pool : buffer_pool_t) (min_size fresh : Nat) (buf : buffer_t)
    (next : List buffer_t) (h : pool.free_buffers = buf :: next) (hs : buf.size ≥ min_size) :
    get_buffer pool min_size fresh =
      (buf, { free_buffers := next, count := (pool.count + SIZE_T - 1) % SIZE_T }) := by
  unfold get_buffer
  rw [h]
  simp only [hs, if_true]

/-- C21: whatever the pool and `min_size`, the buffer that `get_buffer`
returns has a size of at least `min_size`. The head of the free list is reused
when its size is at least `min_size`; otherwise (empty list, or a smaller head)
a new buffer of size max(min_size, BUFFER_SIZE) is allocated and the pool stays
as it is. -/
theorem get_buffer_never_undersized (pool : buffer_pool_t) (min_size fresh : Nat) :
    (get_buffer pool min_size fresh).1.size ≥ min_size ∧
    (∀ buf next, pool.free_buffers = buf :: next → buf.size ≥ min_size →
      (get_buffer pool min_size fresh).1 = buf ∧
        (get_buffer pool min_size fresh).2.free_buffers = next) ∧
    ((pool.free_buffers = [] ∨
        ∃ buf next, pool.free_buffers = buf :: next ∧ buf.size < min_size) →
      get_buffer pool min_size fresh =
        ({ addr := fresh, size := max min_size BUFFER_SIZE }, pool)) ∧
    ((get_buffer pool min_size fresh).1 ∈ pool.free_buffers ∨
      (get_buffer pool min_size fresh).1 =
        { addr := fresh, size := max min_size BUFFER_SIZE }) := by
  have hcases : pool.free_buffers = [] ∨
      (∃ buf next, pool.free_buffers = buf :: next ∧ buf.size < min_size) ∨
      ∃ buf next, pool.free_buffers = buf :: next ∧ buf.size ≥ min_size := by
    cases hf : pool.free_buffers with
    | nil => exact Or.inl rfl
    | cons buf next =>
      by_cases hs : buf.size ≥ min_size
      · exact Or.inr (Or.inr ⟨buf, next, rfl, hs⟩)
      · exact Or.inr (Or.inl ⟨buf, next, rfl, Nat.not_le.mp hs⟩)
  refine ⟨?_, fun buf next h hs => ?_, get_buffer_new pool min_size fresh, ?_⟩
  · rcases hcases with h | h | ⟨buf, next, h, hs⟩
    · rw [get_buffer_new _ _ _ (Or.inl h)]; exact le_max_left _ _
    · rw [get_buffer_new _ _ _ (Or.inr h)]; exact le_max_left _ _
    · rw [get_buffer_reuse _ _ _ _ _ h hs]; exact hs
  · rw [get_buffer_reuse _ _ _ _ _ h hs]; exact ⟨rfl, rfl⟩
  · rcases hcases with h | h | ⟨buf, next, h, hs⟩
    · exact Or.inr (by rw [get_buffer_new _ _ _ (Or.inl h)])
    · exact Or.inr (by rw [get_buffer_new _ _ _ (Or.inr h)])
    · refine Or.inl ?_
      rw [get_buffer_reuse _ _ _ _ _ h hs, h]
      exact List.mem_cons_self _ _

/-- Witness of C21: with a free buffer of 1 MiB at the head, `get_buffer(2 MiB)`
allocates a buffer of 2 MiB and `get_buffer(100)` reuses the head. -/
theorem get_buffer_never_undersized_witness :
    get_buffer { free_buffers := [{ addr := 1, size := 1048576 }], count := 1 } 2097152 2 =
        ({ addr := 2, size := 2097152 },
          { free_buffers := [{ addr := 1, size := 1048576 }], count := 1 }) ∧
      (get_buffer { free_buffers := [{ addr := 1, size := 1048576 }], count := 1 } 100 2).1 =
        { addr := 1, size := 1048576 } :=
  ⟨(get_buffer_never_undersized
      { free_buffers := [{ addr := 1, size := 1048576 }], count := 1 } 2097152 2).2.2.1
      (Or.inr ⟨{ addr := 1, size := 1048576 }, [], rfl, by decide⟩),
    ((get_buffer_never_undersized
      { free_buffers := [{ addr := 1, size := 1048576 }], count := 1 } 100 2).2.1
      { addr := 1, size := 1048576 } [] rfl (by decide)).1⟩

/-- C22: in a pool whose counter of free buffers, the `count` that
`release_buffer` tests, is below BUFFER_POOL_SIZE, `release_buffer(b)` followed by
`get_buffer(m)` with `m <= b.size` returns `b` itself and leaves the pool, free
list and counter, as it was before the release. -/
theorem release_then_get_buffer (pool : buffer_pool_t) (b : buffer_t) (m fresh : Nat)
    (hc : pool.count < BUFFER_POOL_SIZE) (hm : m ≤ b.size) :
    get_buffer (release_buffer pool (some b)).1 m fresh = (b, pool) := by
  have h1 : (pool.count + 1) % SIZE_T = pool.count + 1 := by
    unfold SIZE_T BUFFER_POOL_SIZE at *; omega
  have h2 : (pool.count + 1 + SIZE_T - 1) % SIZE_T = pool.count := by
    unfold SIZE_T BUFFER_POOL_SIZE at *; omega
  simp only [release_buffer, hc, if_true, h1]
  rw [get_buffer_reuse _ m fresh b pool.free_buffers rfl hm]
  simp only [h2]

/-- Witness of C22: acquire(100) on the empty pool, release, acquire(50). -/
theorem release_then_get_buffer_witness :
    get_buffer (release_buffer (get_buffer {} 100 7).2 (some (get_buffer {} 100 7).1)).1 50 8 =
      ((get_buffer {} 100 7).1, (get_buffer {} 100 7).2) :=
  release_then_get_buffer (get_buffer {} 100 7).2 (get_buffer {} 100 7).1 50 8
    (by decide) (by decide)

theorem buffer_pool_invariant (pool : buffer_pool_t) (ops : List buffer_op)
    (h : pool.count = pool.free_buffers.length ∧ pool.count ≤ BUFFER_POOL_SIZE) :
    (run_buffer_ops pool ops).count = (run_buffer_ops pool ops).free_buffers.length ∧
      (run_buffer_ops pool ops).count ≤ BUFFER_POOL_SIZE := by
  induction ops generalizing pool with
  | nil => exact h
  | cons op ops ih =>
    cases op with
    | get min_size fresh =>
      rw [run_buffer_ops]
      apply ih
      cases hf : pool.free_buffers with
      | nil =>
        rw [get_buffer_new _ _ _ (Or.inl hf)]
        exact h
      | cons buf next =>
        by_cases hs : buf.size ≥ min_size
        · rw [get_buffer_reuse _ _ _ _ _ hf hs]
          rw [hf] at h
          simp only [List.length_cons] at h
          have : (pool.count + SIZE_T - 1) % SIZE_T = pool.count - 1 :=
            size_t_pred _ (by omega) (by unfold SIZE_T BUFFER_POOL_SIZE at *; omega)
          simp only [this]
          omega
        · rw [get_buffer_new _ _ _ (Or.inr ⟨buf, next, hf, Nat.not_le.mp hs⟩)]
          exact h
    | release buf =>
      rw [run_buffer_ops]
      apply ih
      unfold release_buffer
      cases buf with
      | none => exact h
      | some b =>
        split_ifs with hc
        · have : (pool.count + 1) % SIZE_T = pool.count + 1 :=
            size_t_succ _ (by unfold SIZE_T BUFFER_POOL_SIZE at *; omega)
          simp only [this, List.length_cons]
          omega
        · exact h

/-- C23: after every sequence of `get_buffer` and `release_buffer` calls from
the empty pool, `buffer_pool.count` is the length of the free list and at most
BUFFER_POOL_SIZE; and a buffer released while the counter is at BUFFER_POOL_SIZE
is handed to `free`, the pool staying as it is. -/
theorem buffer_pool_capped :
    (∀ ops : List buffer_op,
      (run_buffer_ops {} ops).count = (run_buffer_ops {} ops).free_buffers.length ∧
        (run_buffer_ops {} ops).count ≤ BUFFER_POOL_SIZE) ∧
    (∀ (pool : buffer_pool_t) (b : buffer_t), pool.count ≥ BUFFER_POOL_SIZE →
      release_buffer pool (some b) = (pool, some b)) := by
  refine ⟨fun ops => buffer_pool_invariant {} ops ⟨rfl, by decide⟩, fun pool b h => ?_⟩
  simp only [release_buffer, Nat.not_lt.mpr h, if_false]

/-- Witness of C23: a pool that holds 100 buffers frees the one released. -/
theorem buffer_pool_capped_witness :
    release_buffer { free_buffers := List.replicate 100 { addr := 1, size := 1048576 },
                     count := 100 } (some { addr := 2, size := 1048576 }) =
      ({ free_buffers := List.replicate 100 { addr := 1, size := 1048576 }, count := 100 },
        some { addr := 2, size := 1048576 }) :=
  buffer_pool_capped.2 _ _ (by decide)

/-! ## Claims C24 to C26: the connection pool -/

theorem get_connection_none_iff (pool : connection_pool_t) (fd now : Int) (fresh : Nat) :
    get_connection pool fd now fresh = none ↔
      pool.free_connections = [] ∧ pool.total_count ≥ CONNECTION_POOL_SIZE := by
  unfold get_connection
  cases hf : pool.free_connections with
  | nil =>
    by_cases ht : pool.total_count < CONNECTION_POOL_SIZE
    · simp [ht]
    · simp [ht, Nat.not_lt.mp ht]
  | cons c next => simp

theorem get_connection_total (pool : connection_pool_t) (fd now : Int) (fresh : Nat)
    (conn : client_con_t) (pool2 : connection_pool_t)
    (h : get_connection pool fd now fresh = some (conn, pool2))
    (ht : pool.total_count ≤ CONNECTION_POOL_SIZE) :
    pool2.total_count ≤ CONNECTION_POOL_SIZE := by
  unfold get_connection at h
  cases hf : pool.free_connections with
  | nil =>
    rw [hf] at h
    by_cases hlt : pool.total_count < CONNECTION_POOL_SIZE
    · simp only [hlt, if_true, Option.some.injEq, Prod.mk.injEq] at h
      rw [← h.2]
      exact hlt
    · simp [hlt] at h
  | cons c next =>
    rw [hf] at h
    simp only [Option.some.injEq, Prod.mk.injEq] at h
    rw [← h.2]
    exact ht

theorem run_conn_ops_total (pool : connection_pool_t) (ops : List conn_op)
    (ht : pool.total_count ≤ CONNECTION_POOL_SIZE) :
    (run_conn_ops pool ops).total_count ≤ CONNECTION_POOL_SIZE := by
  induction ops generalizing pool with
  | nil => exact ht
  | cons op ops ih =>
    cases op with
    | get fd now fresh =>
      rw [run_conn_ops]
      cases hg : get_connection pool fd now fresh with
      | none => exact ih pool ht
      | some r =>
        obtain ⟨conn, pool2⟩ := r
        exact ih pool2 (get_connection_total pool fd now fresh conn pool2 hg ht)
    | release conn =>
      rw [run_conn_ops]
      apply ih
      unfold release_connection
      cases unlink_connection pool.active_connections conn.addr <;> exact ht
    | cleanup now =>
      rw [run_conn_ops]
      exact ih _ ht

theorem run_conn_ops_fill (calls : List (Int × Int × Nat)) (pool : connection_pool_t)
    (hf : pool.free_connections = [])
    (ht : pool.total_count + calls.length ≤ CONNECTION_POOL_SIZE) :
    (run_conn_ops pool (calls.map (fun c => conn_op.get c.1 c.2.1 c.2.2))).free_connections = [] ∧
      (run_conn_ops pool (calls.map (fun c => conn_op.get c.1 c.2.1 c.2.2))).total_count =
        pool.total_count + calls.length := by
  induction calls generalizing pool with
  | nil => exact ⟨hf, rfl⟩
  | cons c cs ih =>
    simp only [List.length_cons] at ht
    have hlt : pool.total_count < CONNECTION_POOL_SIZE := by omega
    obtain ⟨conn, pool2, hg, hf2, ht2⟩ :
        ∃ conn pool2, get_connection pool c.1 c.2.1 c.2.2 = some (conn, pool2) ∧
          pool2.free_connections = [] ∧ pool2.total_count = pool.total_count + 1 := by
      unfold get_connection
      rw [hf]
      simp only [hlt, if_true]
      exact ⟨_, _, rfl, rfl, rfl⟩
    simp only [List.map_cons, run_conn_ops, hg, List.length_cons]
    have := ih pool2 hf2 (by omega)
    refine ⟨this.1, ?_⟩
    rw [this.2]
    omega

theorem handle_client_no_connection (st : server_state) (client_fd : Int) (io : client_io)
    (h : get_connection st.conn_pool client_fd io.now io.conn_addr = none) :
    handle_client st client_fd io = some (st, [.close client_fd]) := by
  unfold handle_client
  rw [h]

/-- C24: `get_connection` returns no record exactly when the free list is
empty and `total_count` has reached CONNECTION_POOL_SIZE; over every sequence of
pool calls from the empty pool `total_count` stays at most CONNECTION_POOL_SIZE;
after CONNECTION_POOL_SIZE acquisitions from the empty pool one more fails; and
when it fails `handle_client` only closes the socket: no receive, no response,
no change of state. -/
theorem get_connection_exhausted :
    (∀ (pool : connection_pool_t) (fd now : Int) (fresh : Nat),
      get_connection pool fd now fresh = none ↔
        pool.free_connections = [] ∧ pool.total_count ≥ CONNECTION_POOL_SIZE) ∧
    (∀ ops : List conn_op, (run_conn_ops {} ops).total_count ≤ CONNECTION_POOL_SIZE) ∧
    (∀ (calls : List (Int × Int × Nat)) (fd now : Int) (fresh : Nat),
      calls.length = CONNECTION_POOL_SIZE →
      get_connection (run_conn_ops {} (calls.map (fun c => conn_op.get c.1 c.2.1 c.2.2)))
        fd now fresh = none) ∧
    (∀ (st : server_state) (client_fd : Int) (io : client_io),
      get_connection st.conn_pool client_fd io.now io.conn_addr = none →
      handle_client st client_fd io = some (st, [.close client_fd])) := by
  refine ⟨get_connection_none_iff, fun ops => run_conn_ops_total {} ops (by decide),
    fun calls fd now fresh hl => ?_, handle_client_no_connection⟩
  obtain ⟨h1, h2⟩ := run_conn_ops_fill calls {} rfl (by simp [hl])
  rw [get_connection_none_iff]
  refine ⟨h1, ?_⟩
  rw [h2, hl]
  simp

/-- Witness of C24: with 1000 records handed out and none free, the call for
descriptor 7 gets no record and `handle_client` closes descriptor 7 at once. -/
theorem get_connection_exhausted_witness :
    get_connection { total_count := 1000, active_count := 1000 } 7 0 1 = none ∧
      handle_client { conn_pool := { total_count := 1000, active_count := 1000 } } 7
          { first_recv := .data (str "GET / HTTP/1.1\r\n\r\n") } =
        some ({ conn_pool := { total_count := 1000, active_count := 1000 } }, [.close 7]) :=
  ⟨(get_connection_exhausted.1 { total_count := 1000, active_count := 1000 } 7 0 1).mpr
      ⟨rfl, by decide⟩,
    get_connection_exhausted.2.2.2 { conn_pool := { total_count := 1000, active_count := 1000 } }
      7 { first_recv := .data (str "GET / HTTP/1.1\r\n\r\n") } (by decide)⟩

/-- C25, the failing input: `get_connection` for descriptor 5 at time 0
returns the record at address 1; `cleanup_expired_connections` at time 31 moves
it to the free list; `release_connection` of that record then puts it on the
free list a second time, so the pool is no longer consistent. The same happens
when the record is released twice. -/
theorem released_record_twice_in_free_list :
    (get_connection {} 5 0 1).map (fun r => r.1) =
        some { addr := 1, fd := 5, last_activity := 0, keepalive_requests := 0 } ∧
      run_conn_ops {} [.get 5 0 1, .cleanup 31, .release { addr := 1, fd := 5 }] =
        { active_connections := [],
          free_connections := [{ addr := 1, fd := 5 }, { addr := 1, fd := 5 }],
          active_count := 0, total_count := 1 } ∧
      ¬ conn_pool_consistent
        (run_conn_ops {} [.get 5 0 1, .cleanup 31, .release { addr := 1, fd := 5 }]) ∧
      run_conn_ops {} [.get 5 0 1, .release { addr := 1, fd := 5 },
          .release { addr := 1, fd := 5 }] =
        { active_connections := [],
          free_connections := [{ addr := 1, fd := 5 }, { addr := 1, fd := 5 }],
          active_count := 0, total_count := 1 } ∧
      ¬ conn_pool_consistent
        (run_conn_ops {} [.get 5 0 1, .release { addr := 1, fd := 5 },
          .release { addr := 1, fd := 5 }]) := by
  decide

theorem cleanup_loop_lists (l : List client_con_t) (now : Int) (free : List client_con_t)
    (count : Nat) :
    (cleanup_loop l now free count).1 =
        l.filter (fun c => decide (now - c.last_activity ≤ KEEPALIVE_TIMEOUT)) ∧
      (cleanup_loop l now free count).2.1 =
        (l.filter (fun c => decide (now - c.last_activity > KEEPALIVE_TIMEOUT))).reverse ++ free ∧
      (cleanup_loop l now free count).2.2.2 =
        (l.filter (fun c => decide (now - c.last_activity > KEEPALIVE_TIMEOUT))).map
          (fun c => c.fd) := by
  induction l generalizing free count with
  | nil => simp [cleanup_loop]
  | cons c next ih =>
    by_cases he : now - c.last_activity > KEEPALIVE_TIMEOUT
    · have hk : ¬ now - c.last_activity ≤ KEEPALIVE_TIMEOUT := not_le.mpr he
      obtain ⟨i1, i2, i3⟩ := ih (c :: free) ((count + SIZE_T - 1) % SIZE_T)
      simp only [cleanup_loop, he, if_true, i1, i2, i3, List.filter_cons, hk, decide_False,
        decide_True, List.reverse_cons, List.append_assoc, List.singleton_append, List.map_cons,
        Bool.false_eq_true, if_false, and_self]
    · have hk : now - c.last_activity ≤ KEEPALIVE_TIMEOUT := not_lt.mp he
      obtain ⟨i1, i2, i3⟩ := ih free count
      simp only [cleanup_loop, he, if_false, i1, i2, i3, List.filter_cons, hk, decide_True,
        decide_False, if_true, Bool.false_eq_true, and_self]

theorem cleanup_loop_count (l : List client_con_t) (now : Int) (free : List client_con_t)
    (count : Nat) (hlt : count < SIZE_T)
    (hc : (l.filter (fun c => decide (now - c.last_activity > KEEPALIVE_TIMEOUT))).length ≤ count) :
    (cleanup_loop l now free count).2.2.1 + 
      (l.filter (fun c => decide (now - c.last_activity > KEEPALIVE_TIMEOUT))).length = count := by
  induction l generalizing free count with
  | nil => simp [cleanup_loop]
  | cons c next ih =>
    by_cases he : now - c.last_activity > KEEPALIVE_TIMEOUT
    · simp only [List.filter_cons, he, decide_True, if_true, List.length_cons] at hc ⊢
      have hp : (count + SIZE_T - 1) % SIZE_T = count - 1 := size_t_pred _ (by omega) hlt
      have := ih (c :: free) (count - 1) (by omega) (by omega)
      simp only [cleanup_loop, he, if_true, hp]
      omega
    · simp only [List.filter_cons, he, decide_False, Bool.false_eq_true, if_false] at hc ⊢
      have := ih free count hlt hc
      simp only [cleanup_loop, he, if_false]
      exact this

/-- C26: after `cleanup_expired_connections` at time `now` the active list
holds, in their previous order, exactly the records with
`now - last_activity <= KEEPALIVE_TIMEOUT`; every other record has had its socket
closed and sits on the free list, in front of what was there; and `active_count`,
when it was the length of the active list, has dropped by the number removed. -/
theorem cleanup_expired_connections_spec (pool : connection_pool_t) (now : Int)
    (hcount : pool.active_count = pool.active_connections.length)
    (hlt : pool.active_count < SIZE_T) :
    (cleanup_expired_connections pool now).1.active_connections =
        pool.active_connections.filter
          (fun c => decide (now - c.last_activity ≤ KEEPALIVE_TIMEOUT)) ∧
      (cleanup_expired_connections pool now).1.free_connections =
        (pool.active_connections.filter
          (fun c => decide (now - c.last_activity > KEEPALIVE_TIMEOUT))).reverse ++
          pool.free_connections ∧
      (cleanup_expired_connections pool now).2 =
        (pool.active_connections.filter
          (fun c => decide (now - c.last_activity > KEEPALIVE_TIMEOUT))).map (fun c => c.fd) ∧
      (cleanup_expired_connections pool now).1.active_count +
          (pool.active_connections.filter
            (fun c => decide (now - c.last_activity > KEEPALIVE_TIMEOUT))).length =
        pool.active_count ∧
      (cleanup_expired_connections pool now).1.active_count =
        (cleanup_expired_connections pool now).1.active_connections.length := by
  obtain ⟨h1, h2, h3⟩ :=
    cleanup_loop_lists pool.active_connections now pool.free_connections pool.active_count
  have h4 := cleanup_loop_count pool.active_connections now pool.free_connections
    pool.active_count hlt (by rw [hcount]; exact List.length_filter_le _ _)
  refine ⟨h1, h2, h3, h4, ?_⟩
  have hsplit : (pool.active_connections.filter
        (fun c => decide (now - c.last_activity ≤ KEEPALIVE_TIMEOUT))).length +
      (pool.active_connections.filter
        (fun c => decide (now - c.last_activity > KEEPALIVE_TIMEOUT))).length =
      pool.active_connections.length := by
    have hfe : pool.active_connections.filter
          (fun c => decide (now - c.last_activity > KEEPALIVE_TIMEOUT)) =
        pool.active_connections.filter
          (fun c => !decide (now - c.last_activity ≤ KEEPALIVE_TIMEOUT)) := by
      apply List.filter_congr
      intro c _
      by_cases h : now - c.last_activity ≤ KEEPALIVE_TIMEOUT
      · have h2 : ¬ (now - c.last_activity > KEEPALIVE_TIMEOUT) := not_lt.mpr h
        rw [decide_eq_true h, decide_eq_false h2]
        rfl
      · have h2 : now - c.last_activity > KEEPALIVE_TIMEOUT := not_le.mp h
        rw [decide_eq_false h, decide_eq_true h2]
        rfl
    rw [hfe]
    exact (List.length_eq_length_filter_add (l := pool.active_connections)
      (fun c : client_con_t => decide (now - c.last_activity ≤ KEEPALIVE_TIMEOUT))).symm
  unfold cleanup_expired_connections at h4 ⊢
  simp only at h4 ⊢
  rw [h1]
  omega

/-- Witness of C26: at time 31 the records last active at 0 are swept and the
one last active at 10 stays. -/
theorem cleanup_expired_connections_spec_witness :
    cleanup_expired_connections
        { active_connections := [{ addr := 1, fd := 4, last_activity := 0 },
            { addr := 2, fd := 5, last_activity := 10 },
            { addr := 3, fd := 9, last_activity := 0 }],
          active_count := 3, total_count := 3 } 31 =
      ({ active_connections := [{ addr := 2, fd := 5, last_activity := 10 }],
         free_connections := [{ addr := 3, fd := 9, last_activity := 0 },
            { addr := 1, fd := 4, last_activity := 0 }],
         active_count := 1, total_count := 3 }, [4, 9]) ∧
    (cleanup_expired_connections
        { active_connections := [{ addr := 1, fd := 4, last_activity := 0 },
            { addr := 2, fd := 5, last_activity := 10 },
            { addr := 3, fd := 9, last_activity := 0 }],
          active_count := 3, total_count := 3 } 31).1.active_connections =
      [{ addr := 2, fd := 5, last_activity := 10 }] :=
  ⟨by decide,
    (cleanup_expired_connections_spec
      { active_connections := [{ addr := 1, fd := 4, last_activity := 0 },
          { addr := 2, fd := 5, last_activity := 10 },
          { addr := 3, fd := 9, last_activity := 0 }],
        active_count := 3, total_count := 3 } 31 (by decide) (by decide)).1⟩


/-! ## The connection pool under the discipline of `handle_client` -/

theorem unlink_connection_perm (l : List client_con_t) (addr : Nat) (h : addr ∈ addrs l) :
    ∃ rest, unlink_connection l addr = some rest ∧ (addrs l).Perm (addr :: addrs rest) := by
  induction l with
  | nil => simp [addrs] at h
  | cons c next ih =>
    by_cases hc : c.addr = addr
    · refine ⟨next, by simp [unlink_connection, hc], ?_⟩
      simp [addrs, hc]
    · have hn : addr ∈ addrs next := by
        simp only [addrs, List.map_cons, List.mem_cons] at h
        rcases h with h | h
        · exact absurd h.symm hc
        · exact h
      obtain ⟨rest, h1, h2⟩ := ih hn
      refine ⟨c :: rest, by simp [unlink_connection, hc, h1], ?_⟩
      have : addrs (c :: next) = c.addr :: addrs next := rfl
      rw [this]
      have : addrs (c :: rest) = c.addr :: addrs rest := rfl
      rw [this]
      exact (List.Perm.cons c.addr h2).trans (List.Perm.swap addr c.addr (addrs rest))

theorem expired_filter (l : List client_con_t) (now : Int) :
    l.filter (fun c => decide (now - c.last_activity > KEEPALIVE_TIMEOUT)) =
      l.filter (fun c => !decide (now - c.last_activity ≤ KEEPALIVE_TIMEOUT)) := by
  apply List.filter_congr
  intro c _
  by_cases h : now - c.last_activity ≤ KEEPALIVE_TIMEOUT
  · have h2 : ¬ (now - c.last_activity > KEEPALIVE_TIMEOUT) := not_lt.mpr h
    rw [decide_eq_true h, decide_eq_false h2]
    rfl
  · have h2 : now - c.last_activity > KEEPALIVE_TIMEOUT := not_le.mp h
    rw [decide_eq_false h, decide_eq_true h2]
    rfl

theorem get_connection_consistent (pool : connection_pool_t) (fd now : Int) (fresh : Nat)
    (conn : client_con_t) (pool2 : connection_pool_t)
    (h : get_connection pool fd now fresh = some (conn, pool2))
    (hi : conn_pool_consistent pool) (ht : pool.total_count ≤ CONNECTION_POOL_SIZE)
    (hfresh : fresh ∉ addrs pool.active_connections ++ addrs pool.free_connections) :
    conn_pool_consistent pool2 := by
  obtain ⟨h1, h2, h3⟩ := hi
  have hlen : (pool.active_count + 1) % SIZE_T = pool.active_connections.length + 1 := by
    rw [h3]
    apply Nat.mod_eq_of_lt
    unfold SIZE_T CONNECTION_POOL_SIZE at *
    omega
  unfold get_connection at h
  cases hf : pool.free_connections with
  | nil =>
    rw [hf] at h h1 h2
    by_cases hlt : pool.total_count < CONNECTION_POOL_SIZE
    · simp only [hlt, if_true, Option.some.injEq, Prod.mk.injEq] at h
      rw [← h.2]
      refine ⟨?_, ?_, hlen⟩
      · rw [hf] at hfresh
        simp only [addrs, List.map_cons, List.map_nil, List.append_nil, List.nodup_cons] at *
        exact ⟨hfresh, h1⟩
      · simp only [List.length_cons, List.length_nil] at *
        omega
    · simp [hlt] at h
  | cons c next =>
    rw [hf] at h h1 h2
    simp only [Option.some.injEq, Prod.mk.injEq] at h
    rw [← h.2]
    refine ⟨?_, ?_, hlen⟩
    · have hp : (addrs pool.active_connections ++ addrs (c :: next)).Perm
          (c.addr :: (addrs pool.active_connections ++ addrs next)) := List.perm_middle
      exact (List.Perm.nodup_iff hp).mp h1
    · simp only [List.length_cons] at *
      omega

theorem release_connection_consistent (pool : connection_pool_t) (conn : client_con_t)
    (hi : conn_pool_consistent pool) (ht : pool.total_count ≤ CONNECTION_POOL_SIZE)
    (ha : conn.addr ∈ addrs pool.active_connections) :
    conn_pool_consistent (release_connection pool conn) := by
  obtain ⟨h1, h2, h3⟩ := hi
  obtain ⟨rest, hu, hp⟩ := unlink_connection_perm pool.active_connections conn.addr ha
  have hl : pool.active_connections.length = rest.length + 1 := by
    have := hp.length_eq
    simpa [addrs] using this
  have hcount : (pool.active_count + SIZE_T - 1) % SIZE_T = rest.length := by
    rw [size_t_pred _ (by omega) (by unfold SIZE_T CONNECTION_POOL_SIZE at *; omega)]
    omega
  unfold release_connection
  rw [hu]
  refine ⟨?_, ?_, hcount⟩
  · have hq : (addrs rest ++ addrs (conn :: pool.free_connections)).Perm
        (addrs pool.active_connections ++ addrs pool.free_connections) := by
      have e : addrs (conn :: pool.free_connections) = conn.addr :: addrs pool.free_connections :=
        rfl
      rw [e]
      exact List.perm_middle.trans (List.Perm.append_right _ hp.symm)
    exact (List.Perm.nodup_iff hq).mpr h1
  · simp only [List.length_cons]
    omega

theorem cleanup_expired_connections_consistent (pool : connection_pool_t) (now : Int)
    (hi : conn_pool_consistent pool) (ht : pool.total_count ≤ CONNECTION_POOL_SIZE) :
    conn_pool_consistent (cleanup_expired_connections pool now).1 := by
  obtain ⟨h1, h2, h3⟩ := hi
  obtain ⟨l1, l2, _⟩ :=
    cleanup_loop_lists pool.active_connections now pool.free_connections pool.active_count
  have l4 := cleanup_loop_count pool.active_connections now pool.free_connections
    pool.active_count (by unfold SIZE_T CONNECTION_POOL_SIZE at *; omega)
    (by rw [h3]; exact List.length_filter_le _ _)
  have hperm : (pool.active_connections.filter
        (fun c => decide (now - c.last_activity ≤ KEEPALIVE_TIMEOUT)) ++
      pool.active_connections.filter
        (fun c => decide (now - c.last_activity > KEEPALIVE_TIMEOUT))).Perm
      pool.active_connections := by
    rw [expired_filter]
    exact List.filter_append_perm _ _
  unfold cleanup_expired_connections
  simp only
  rw [l1, l2]
  refine ⟨?_, ?_, ?_⟩
  · have hq : (addrs (pool.active_connections.filter
          (fun c => decide (now - c.last_activity ≤ KEEPALIVE_TIMEOUT))) ++
        addrs ((pool.active_connections.filter
          (fun c => decide (now - c.last_activity > KEEPALIVE_TIMEOUT))).reverse ++
            pool.free_connections)).Perm
        (addrs pool.active_connections ++ addrs pool.free_connections) := by
      unfold addrs
      rw [← List.map_append, ← List.map_append, ← List.append_assoc]
      apply List.Perm.map
      apply List.Perm.append_right
      exact (List.Perm.append_left _ (List.reverse_perm _)).trans hperm
    exact (List.Perm.nodup_iff hq).mpr h1
  · have := hperm.length_eq
    simp only [List.length_append, List.length_reverse] at this ⊢
    omega
  · have := hperm.length_eq
    simp only [List.length_append] at this
    show (cleanup_loop pool.active_connections now pool.free_connections
        pool.active_count).2.2.1 =
      (pool.active_connections.filter
        (fun c => decide (now - c.last_activity ≤ KEEPALIVE_TIMEOUT))).length
    omega

/-- The invariant of C25 on the sequences that `handle_client` drives: from a
consistent pool, as long as every `release_connection` is given a record that
is on the active list, the pool stays consistent. -/
theorem conn_pool_consistent_kept (ops : List conn_op) (pool : connection_pool_t)
    (hi : conn_pool_consistent pool) (ht : pool.total_count ≤ CONNECTION_POOL_SIZE)
    (hd : releases_active pool ops) :
    conn_pool_consistent (run_conn_ops pool ops) := by
  induction ops generalizing pool with
  | nil => exact hi
  | cons op ops ih =>
    cases op with
    | get fd now fresh =>
      rw [run_conn_ops]
      rw [releases_active] at hd
      obtain ⟨hfresh, hd⟩ := hd
      cases hg : get_connection pool fd now fresh with
      | none =>
        rw [hg] at hd
        exact ih pool hi ht hd
      | some r =>
        obtain ⟨conn, pool2⟩ := r
        rw [hg] at hd
        exact ih pool2 (get_connection_consistent pool fd now fresh conn pool2 hg hi ht hfresh)
          (get_connection_total pool fd now fresh conn pool2 hg ht) hd
    | release conn =>
      rw [run_conn_ops]
      rw [releases_active] at hd
      refine ih _ (release_connection_consistent pool conn hi ht hd.1) ?_ hd.2
      unfold release_connection
      cases unlink_connection pool.active_connections conn.addr <;> exact ht
    | cleanup now =>
      rw [run_conn_ops]
      rw [releases_active] at hd
      exact ih _ (cleanup_expired_connections_consistent pool now hi ht) ht hd

/-! ## Claims C27 to C30: `handle_client` and the error responses -/

theorem read_request_some (buffer : List Byte) (recvs : List (List Byte)) :
    ∃ r, read_request buffer recvs = some r := by
  unfold read_request
  cases hp : parse_http_request buffer buffer.length with
  | error status => exact ⟨_, rfl⟩
  | ok req =>
    simp only [read_full_body_after_parse buffer buffer.length req recvs hp, Option.map_some']
    exact ⟨_, rfl⟩

theorem get_connection_active (pool : connection_pool_t) (fd now : Int) (fresh : Nat)
    (conn : client_con_t) (pool2 : connection_pool_t)
    (h : get_connection pool fd now fresh = some (conn, pool2)) :
    pool2.active_connections = conn :: pool.active_connections := by
  unfold get_connection at h
  cases hf : pool.free_connections with
  | nil =>
    rw [hf] at h
    by_cases hlt : pool.total_count < CONNECTION_POOL_SIZE
    · simp only [hlt, if_true, Option.some.injEq, Prod.mk.injEq] at h
      rw [← h.2, ← h.1]
    · simp [hlt] at h
  | cons c next =>
    rw [hf] at h
    simp only [Option.some.injEq, Prod.mk.injEq] at h
    rw [← h.2, ← h.1]

theorem release_connection_head (pool : connection_pool_t) (conn c : client_con_t)
    (rest : List client_con_t) (ha : pool.active_connections = c :: rest)
    (hc : c.addr = conn.addr) :
    (release_connection pool conn).active_connections = rest ∧
      (release_connection pool conn).free_connections = conn :: pool.free_connections := by
  unfold release_connection
  rw [ha]
  simp [unlink_connection, hc]

theorem callbacks_no_close (client_fd : Int) (l : List (route_t × http_req_t)) :
    (l.map (fun c => event.callback client_fd c.1 c.2)).count (.close client_fd) = 0 := by
  induction l with
  | nil => rfl
  | cons c cs ih =>
    rw [List.map_cons, List.count_cons, ih]
    simp

theorem handle_static_file_no_close (client_fd : Int) (req : http_req_t)
    (outcome : serve_outcome) :
    (handle_static_file client_fd req outcome).count (.close client_fd) = 0 := by
  unfold handle_static_file
  by_cases hm : req.method ≠ str "GET"
  · simp [hm, List.count_cons]
  · by_cases hs : serve_file outcome ≠ SERVER_OK
    · simp [hm, hs, List.count_cons]
    · simp [hm, hs, List.count_cons]

theorem handle_request_error (st : server_state) (client_fd : Int) (io : client_io)
    (conn : client_con_t) (request_buf : buffer_t) (status : server_status_t) (req : http_req_t)
    (hs : status ≠ SERVER_OK) :
    handle_request st client_fd io conn request_buf status req =
      ((cleanup_request st request_buf conn client_fd true).1,
        .send_error_response client_fd ERR_BADREQ ::
          (cleanup_request st request_buf conn client_fd true).2) := by
  unfold handle_request
  rw [if_pos hs]

theorem handle_request_ok (st : server_state) (client_fd : Int) (io : client_io)
    (conn : client_con_t) (request_buf : buffer_t) (req : http_req_t) :
    handle_request st client_fd io conn request_buf SERVER_OK req =
      ({ conn_pool := release_connection st.conn_pool
            { conn with keepalive_requests := conn.keepalive_requests + 1,
                        last_activity := io.now_end },
         buffer_pool := (release_buffer st.buffer_pool (some request_buf)).1,
         route := st.route },
        (process_routes st.route (extract_subdomain req)).2.map
            (fun c => event.callback client_fd c.1 c.2) ++
          (if (process_routes st.route (extract_subdomain req)).1 = 0 then
            handle_static_file client_fd (extract_subdomain req) io.outcome else []) ++
          [.close client_fd]) := by
  unfold handle_request
  rw [if_neg (by simp)]

theorem cleanup_request_close (st : server_state) (buf : buffer_t) (conn : client_con_t)
    (client_fd : Int) (hfd : 0 ≤ client_fd) :
    cleanup_request st buf conn client_fd true =
      ({ conn_pool := release_connection st.conn_pool conn,
         buffer_pool := (release_buffer st.buffer_pool (some buf)).1,
         route := st.route }, [.close client_fd]) := by
  unfold cleanup_request
  simp [hfd]

theorem handle_request_closes (st : server_state) (client_fd : Int) (io : client_io)
    (conn c : client_con_t) (rest : List client_con_t) (request_buf : buffer_t)
    (status : server_status_t) (req : http_req_t) (hfd : 0 ≤ client_fd)
    (ha : st.conn_pool.active_connections = c :: rest) (hc : c.addr = conn.addr) :
    (handle_request st client_fd io conn request_buf status req).2.count (.close client_fd) = 1 ∧
      (handle_request st client_fd io conn request_buf status req).2.getLast? =
        some (.close client_fd) ∧
      (handle_request st client_fd io conn request_buf status req).1.conn_pool.active_connections =
        rest ∧
      ∃ r : client_con_t, r.addr = conn.addr ∧
        (handle_request st client_fd io conn request_buf status req).1.conn_pool.free_connections =
          r :: st.conn_pool.free_connections := by
  by_cases hs : status ≠ SERVER_OK
  · obtain ⟨h1, h2⟩ := release_connection_head st.conn_pool conn c rest ha hc
    rw [handle_request_error st client_fd io conn request_buf status req hs,
      cleanup_request_close st request_buf conn client_fd hfd]
    exact ⟨by simp [List.count_cons], by simp, h1, conn, rfl, h2⟩
  · obtain ⟨h1, h2⟩ := release_connection_head st.conn_pool
      { conn with keepalive_requests := conn.keepalive_requests + 1,
                  last_activity := io.now_end } c rest ha hc
    have hs2 : status = SERVER_OK := not_not.mp hs
    rw [hs2, handle_request_ok]
    refine ⟨?_, by simp, h1, { conn with keepalive_requests := conn.keepalive_requests + 1,
                                         last_activity := io.now_end }, rfl, h2⟩
    have : (if (process_routes st.route (extract_subdomain req)).1 = 0 then
          handle_static_file client_fd (extract_subdomain req) io.outcome
        else []).count (.close client_fd) = 0 := by
      split_ifs
      · exact handle_static_file_no_close _ _ _
      · rfl
    simp only [List.count_append, callbacks_no_close, this]
    simp

/-- Outside the parse errors that end in a second `free`, every call of
`handle_client` on a descriptor (a number that is not negative) whose first
`recv` does not report would-block returns, with the socket closed exactly
once, as the last thing done, with the active connection list as it was before
the call, and with the record that `get_connection` gave at the head of the free
list. This holds on each such path: pool exhausted, receive error, peer closed,
parse error, route handler, static file. -/
theorem handle_client_closes_once (st : server_state) (client_fd : Int) (io : client_io)
    (hfd : 0 ≤ client_fd) (hrecv : io.first_recv ≠ .would_block)
    (hheap : ∀ bytes, io.first_recv = .data bytes →
      released_exactly_once (handle_client_heap
        (bytes.take ((get_buffer st.buffer_pool MAX_REQUEST_SIZE io.buf_addr).1.size - 1))) ∨
      (read_request
        (bytes.take ((get_buffer st.buffer_pool MAX_REQUEST_SIZE io.buf_addr).1.size - 1))
        io.more_recvs).map (fun r => r.1) = some SERVER_OK) :
    ∃ st2 evs, handle_client st client_fd io = some (st2, evs) ∧
      evs.count (.close client_fd) = 1 ∧
      evs.getLast? = some (.close client_fd) ∧
      st2.conn_pool.active_connections = st.conn_pool.active_connections ∧
      ∀ conn pool, get_connection st.conn_pool client_fd io.now io.conn_addr = some (conn, pool) →
        ∃ r : client_con_t, r.addr = conn.addr ∧
          st2.conn_pool.free_connections = r :: pool.free_connections := by
  unfold handle_client
  cases hg : get_connection st.conn_pool client_fd io.now io.conn_addr with
  | none =>
    refine ⟨st, [.close client_fd], rfl, by simp, rfl, rfl, ?_⟩
    intro conn pool h
    cases h
  | some r =>
    obtain ⟨conn, cp⟩ := r
    have ha := get_connection_active st.conn_pool client_fd io.now io.conn_addr conn cp hg
    obtain ⟨r1, r2⟩ := release_connection_head cp conn conn st.conn_pool.active_connections ha rfl
    have hrel : ∀ bp : buffer_pool_t, ∃ st2 evs,
        some (({ conn_pool := release_connection cp conn, buffer_pool := bp, route := st.route } :
            server_state), [event.close client_fd]) = some (st2, evs) ∧
          evs.count (.close client_fd) = 1 ∧
          evs.getLast? = some (.close client_fd) ∧
          st2.conn_pool.active_connections = st.conn_pool.active_connections ∧
          ∀ conn2 pool, some (conn, cp) = some (conn2, pool) →
            ∃ r : client_con_t, r.addr = conn2.addr ∧
              st2.conn_pool.free_connections = r :: pool.free_connections := by
      intro bp
      refine ⟨_, _, rfl, by simp, rfl, r1, ?_⟩
      intro conn2 pool h
      simp only [Option.some.injEq, Prod.mk.injEq] at h
      rw [← h.1, ← h.2]
      exact ⟨conn, rfl, r2⟩
    cases hr : io.first_recv with
    | would_block => exact absurd hr hrecv
    | failed => exact hrel _
    | data bytes =>
      simp only
      split_ifs with hlen
      · exact hrel _
      · obtain ⟨⟨status, req, more⟩, hread⟩ := read_request_some
          (bytes.take ((get_buffer st.buffer_pool MAX_REQUEST_SIZE io.buf_addr).1.size - 1))
          io.more_recvs
        have hno : ¬ (status ≠ SERVER_OK ∧ ¬ released_exactly_once (handle_client_heap
            (bytes.take
              ((get_buffer st.buffer_pool MAX_REQUEST_SIZE io.buf_addr).1.size - 1)))) := by
          rintro ⟨hs, hr2⟩
          rcases hheap bytes hr with h | h
          · exact hr2 h
          · rw [hread] at h
            exact hs (Option.some.inj h)
        rw [hread]
        simp only [if_neg hno]
        obtain ⟨h1, h2, h3, h4⟩ := handle_request_closes
          { conn_pool := cp,
            buffer_pool := (get_buffer st.buffer_pool MAX_REQUEST_SIZE io.buf_addr).2,
            route := st.route } client_fd io conn conn st.conn_pool.active_connections
          (get_buffer st.buffer_pool MAX_REQUEST_SIZE io.buf_addr).1 status (req.getD {}) hfd ha rfl
        refine ⟨_, _, rfl, h1, h2, h3, ?_⟩
        intro conn2 pool h
        simp only [Option.some.injEq, Prod.mk.injEq] at h
        rw [← h.1, ← h.2]
        exact h4

set_option maxRecDepth 100000 in
/-- C27, the failing input: the request `GET /../x HTTP/1.1` on descriptor 5. The
parser frees the method and returns SERVER_ERR_SECURITY with the pointer still
in the request; `handle_client` sends the 400 response and calls
`cleanup_request`, whose first call, `http_req_free`, frees the method a second
time. The behaviour is undefined from there (glibc aborts the process):
`close(5)` and `release_connection` are not reached, and the record of the
connection is still on the active list. A request for a missing file, which
parses, ends with descriptor 5 closed and the active list empty. -/
theorem parse_error_leaves_socket_open :
    (handle_client {} 5 { first_recv := .data (str "GET /../x HTTP/1.1\r\n\r\n") }).map
        (fun r => r.2) =
      some [.send_error_response 5 ERR_BADREQ, .undefined_behaviour] ∧
    (handle_client {} 5 { first_recv := .data (str "GET /../x HTTP/1.1\r\n\r\n") }).map
        (fun r => r.1.conn_pool.active_connections) =
      some [{ addr := 0, fd := 5 }] ∧
    handle_client_heap (str "GET /../x HTTP/1.1\r\n\r\n") =
      [.malloc 1, .malloc 2, .free 2, .free 1, .free 1] ∧
    (handle_client {} 5 { first_recv := .data (str "GET /x HTTP/1.1\r\n\r\n") }).map
        (fun r => (r.2, r.1.conn_pool.active_connections)) =
      some ([.serve_file 5 (str "/x") SERVER_ERR_FILE, .send_error_response 5 ERR_NOTFOUND,
        .close 5], []) := by
  refine ⟨by rfl, by rfl, by rfl, by rfl⟩

/-- C28: when `handle_client` has a connection record and has received bytes,
and `parse_http_request` or `read_full_body` gives a status other than SERVER_OK
(SERVER_ERR_PROTOCOL and SERVER_ERR_SECURITY among them), the first thing
`handle_client` does to the outside is send the error response for ERR_BADREQ,
which is `400 Bad Request`; after it comes the close of the socket, or the
second `free` of `http_req_free` that ends the trace. No route callback is called
and no file is served. -/
theorem parse_error_sends_bad_request (st : server_state) (client_fd : Int) (io : client_io)
    (bytes : List Byte) (status : server_status_t) (req : Option http_req_t)
    (more : List (List Byte)) (hfd : 0 ≤ client_fd)
    (hconn : (get_connection st.conn_pool client_fd io.now io.conn_addr).isSome)
    (hrecv : io.first_recv = .data bytes)
    (hlen : (bytes.take
      ((get_buffer st.buffer_pool MAX_REQUEST_SIZE io.buf_addr).1.size - 1)).length ≠ 0)
    (hread : read_request
      (bytes.take ((get_buffer st.buffer_pool MAX_REQUEST_SIZE io.buf_addr).1.size - 1))
      io.more_recvs = some (status, req, more))
    (hstatus : status ≠ SERVER_OK) :
    ((handle_client st client_fd io).map (fun r => r.2) =
          some [.send_error_response client_fd ERR_BADREQ, .close client_fd] ∨
        (handle_client st client_fd io).map (fun r => r.2) =
          some [.send_error_response client_fd ERR_BADREQ, .undefined_behaviour]) ∧
      get_response_info ERR_BADREQ = { status := 400, message := str "Bad Request" } ∧
      (send_error_response_text ERR_BADREQ).take 26 = str "HTTP/1.1 400 Bad Request\r\n" := by
  refine ⟨?_, by decide, by decide⟩
  unfold handle_client
  cases hg : get_connection st.conn_pool client_fd io.now io.conn_addr with
  | none => rw [hg] at hconn; cases hconn
  | some r =>
    obtain ⟨conn, cp⟩ := r
    simp only [hrecv, hlen, if_false, hread]
    by_cases hfree : released_exactly_once (handle_client_heap
        (bytes.take ((get_buffer st.buffer_pool MAX_REQUEST_SIZE io.buf_addr).1.size - 1)))
    · left
      rw [if_neg (fun h => h.2 hfree), Option.map_some',
        handle_request_error _ _ _ _ _ _ _ hstatus, cleanup_request_close _ _ _ _ hfd]
    · right
      rw [if_pos ⟨hstatus, hfree⟩, Option.map_some']

set_option maxRecDepth 100000 in
/-- Witness of C28: a request with a method that is not allowed, a protocol
error of the parser, gets the 400 response and the close; a request whose path
climbs out of the root, a security error, gets the 400 response before the
second `free`. -/
theorem parse_error_sends_bad_request_witness :
    read_request (str "BREW /pot HTTP/1.1\r\n\r\n") [] = some (SERVER_ERR_PROTOCOL, none, []) ∧
    (handle_client {} 5 { first_recv := .data (str "GET /../x HTTP/1.1\r\n\r\n") }).map
        (fun r => r.2) =
      some [.send_error_response 5 ERR_BADREQ, .undefined_behaviour] ∧
    ((handle_client {} 5 { first_recv := .data (str "BREW /pot HTTP/1.1\r\n\r\n") }).map
          (fun r => r.2) =
        some [.send_error_response 5 ERR_BADREQ, .close 5] ∨
      (handle_client {} 5 { first_recv := .data (str "BREW /pot HTTP/1.1\r\n\r\n") }).map
          (fun r => r.2) =
        some [.send_error_response 5 ERR_BADREQ, .undefined_behaviour]) :=
  ⟨by rfl, by rfl,
    (parse_error_sends_bad_request {} 5 { first_recv := .data (str "BREW /pot HTTP/1.1\r\n\r\n") }
      (str "BREW /pot HTTP/1.1\r\n\r\n") SERVER_ERR_PROTOCOL none [] (by decide) (by rfl) rfl
      (by decide) (by rfl) (by decide)).1⟩

/-- C29, the counterexample: an out-of-memory status from the parser makes
`handle_client` send the response for ERR_BADREQ, which is 400, and an
out-of-memory status from `serve_file` (its call of `get_buffer` returned NULL)
makes `handle_static_file` send the response for ERR_NOTFOUND, which is 404;
neither sends 500. -/
theorem out_of_memory_not_500 :
    (handle_request {} 5 { first_recv := .data (str "GET /x HTTP/1.1\r\n\r\n") } { addr := 0 }
        { addr := 0, size := BUFFER_SIZE } SERVER_ERR_MEMORY {}).2 =
      [.send_error_response 5 ERR_BADREQ, .close 5] ∧
    serve_file .no_buffer = SERVER_ERR_MEMORY ∧
    handle_static_file 5 { method := str "GET", path := str "/x" } .no_buffer =
      [.serve_file 5 (str "/x") SERVER_ERR_MEMORY, .send_error_response 5 ERR_NOTFOUND] ∧
    (get_response_info ERR_BADREQ).status = 400 ∧
    (get_response_info ERR_NOTFOUND).status = 404 := by
  decide

/-- C29 as amended: the status sent is decided by the stage that failed, not by
the class of the error. Every status other than SERVER_OK from
`parse_http_request` or `read_full_body`, SERVER_ERR_MEMORY included, makes
the lines 700-714 of `handle_client` send the response for ERR_BADREQ (400)
and go on to `cleanup_request`; every status other than SERVER_OK from
`serve_file`, that is
SERVER_ERR_FILE, SERVER_ERR_MEMORY and SERVER_ERR_NETWORK alike, makes
`handle_static_file` send the response for ERR_NOTFOUND (404), as does a request
whose method is not GET. -/
theorem status_sent_by_stage :
    (∀ (st : server_state) (client_fd : Int) (io : client_io) (conn : client_con_t)
        (request_buf : buffer_t) (status : server_status_t) (req : http_req_t),
      status ≠ SERVER_OK →
      (handle_request st client_fd io conn request_buf status req).2 =
        .send_error_response client_fd ERR_BADREQ ::
          (if 0 ≤ client_fd then [.close client_fd] else [])) ∧
    (∀ (client_fd : Int) (req : http_req_t) (outcome : serve_outcome),
      req.method = str "GET" → serve_file outcome ≠ SERVER_OK →
      handle_static_file client_fd req outcome =
        [.serve_file client_fd req.path (serve_file outcome),
          .send_error_response client_fd ERR_NOTFOUND]) ∧
    (∀ (client_fd : Int) (req : http_req_t) (outcome : serve_outcome),
      req.method ≠ str "GET" →
      handle_static_file client_fd req outcome = [.send_error_response client_fd ERR_NOTFOUND]) ∧
    (∀ (client_fd : Int) (req : http_req_t),
      req.method = str "GET" →
      handle_static_file client_fd req .sent = [.serve_file client_fd req.path SERVER_OK]) ∧
    (∀ outcome : serve_outcome,
      serve_file outcome = SERVER_ERR_FILE ∨ serve_file outcome = SERVER_ERR_MEMORY ∨
        serve_file outcome = SERVER_ERR_NETWORK ∨ serve_file outcome = SERVER_OK) ∧
    get_response_info ERR_BADREQ = { status := 400, message := str "Bad Request" } ∧
    get_response_info ERR_NOTFOUND = { status := 404, message := str "Not Found" } := by
  refine ⟨?_, ?_, ?_, ?_, ?_, by decide, by decide⟩
  · intro st client_fd io conn request_buf status req hs
    rw [handle_request_error _ _ _ _ _ _ _ hs]
    unfold cleanup_request
    simp
  · intro client_fd req outcome hm hs
    unfold handle_static_file
    simp [hm, hs]
  · intro client_fd req outcome hm
    unfold handle_static_file
    simp [hm]
  · intro client_fd req hm
    unfold handle_static_file
    simp [hm, serve_file]
  · intro outcome
    cases outcome <;> simp [serve_file]

/-- Witness of C29 as amended: a file failure and a memory failure of
`serve_file` both give 404, and a memory failure of the parser gives 400. -/
theorem status_sent_by_stage_witness :
    handle_static_file 5 { method := str "GET", path := str "/x" } .open_failed =
        [.serve_file 5 (str "/x") SERVER_ERR_FILE, .send_error_response 5 ERR_NOTFOUND] ∧
      handle_static_file 5 { method := str "GET", path := str "/x" } .no_buffer =
        [.serve_file 5 (str "/x") SERVER_ERR_MEMORY, .send_error_response 5 ERR_NOTFOUND] ∧
      (handle_request {} 5 { first_recv := .failed } { addr := 0 }
          { addr := 0, size := BUFFER_SIZE } SERVER_ERR_MEMORY {}).2 =
        [.send_error_response 5 ERR_BADREQ, .close 5] :=
  ⟨status_sent_by_stage.2.1 5 { method := str "GET", path := str "/x" } .open_failed
      (by decide) (by decide),
    status_sent_by_stage.2.1 5 { method := str "GET", path := str "/x" } .no_buffer
      (by decide) (by decide),
    status_sent_by_stage.1 {} 5 { first_recv := .failed } { addr := 0 }
      { addr := 0, size := BUFFER_SIZE } SERVER_ERR_MEMORY {} (by decide)⟩

/-- C30, the failing input: for ERR_AUTH, whose value is 401, `get_response_info`
takes the `default` branch and returns 500 with `Unknown Error`, and
`send_error_response` sends that in the status line and in the body. The other
seven statuses of the table get their own code and phrase. -/
theorem get_response_info_auth :
    ERR_AUTH.code = 401 ∧
    get_response_info ERR_AUTH = { status := 500, message := str "Unknown Error" } ∧
    send_error_response_text ERR_AUTH =
      str ("HTTP/1.1 500 Unknown Error\r\nContent-Type: text/html\r\nContent-Length: 52\r\n" ++
        "Connection: close\r\n\r\n<html><body><h1>500 Unknown Error</h1></body></html>") ∧
    [OK_OK, OK_CREATED, OK_NOCONTENT, ERR_NOTFOUND, ERR_BADREQ, ERR_UNPROC, ERR_INTERR].all
      (fun s => (get_response_info s).status == s.code) = true ∧
    [OK_OK, OK_CREATED, OK_NOCONTENT, ERR_NOTFOUND, ERR_BADREQ, ERR_UNPROC, ERR_INTERR].map
        (fun s => (get_response_info s).message) =
      [str "OK", str "Created", str "No Content", str "Not Found", str "Bad Request",
        str "Unprocessable Content", str "Internal Server Error"] := by
  decide

/-! ## Claims C38 to C40: `match_route` and `get_wildcards` in general -/

theorem match_route_no_star (pattern : List Byte) (h : 42 ∉ pattern) :
    ∀ path : List Byte, match_route path pattern = true ↔ path = pattern := by
  induction pattern with
  | nil =>
    intro path
    rw [match_route_nil_right]
    simp
  | cons c rest ih =>
    have hc : c ≠ 42 := fun e => h (by simp [e])
    have hrest : 42 ∉ rest := fun e => h (by simp [e])
    intro path
    cases path with
    | nil =>
      rw [match_route_nil_left]
      simp [hc]
    | cons x r =>
      rw [match_route_literal x c r rest hc]
      by_cases hx : c = x
      · simp [hx, ih hrest r]
      · simp only [hx, ne_eq, not_false_eq_true, if_true, List.cons.injEq]
        constructor
        · intro e; cases e
        · intro e; exact absurd e.1.symm hx

/-- C38: for a pattern `A*B` with a single `*`, where `B` is empty or begins
with a slash, and a segment `s` that is not empty and holds no slash,
`match_route` accepts the path `A s B` and refuses the path `A s/t B`, for every
`t`, the segments that are not empty and hold no slash among them. -/
theorem star_consumes_one_segment (A B s t : List Byte) (hA : 42 ∉ A) (hB : 42 ∉ B)
    (hBhead : B = [] ∨ B.head? = some 47) (hs : s ≠ []) (hs47 : 47 ∉ s) :
    match_route (A ++ s ++ B) (A ++ 42 :: B) = true ∧
      match_route (A ++ s ++ 47 :: t ++ B) (A ++ 42 :: B) = false := by
  obtain ⟨x, s2, rfl⟩ := List.exists_cons_of_ne_nil hs
  constructor
  · rw [List.append_assoc, match_route_common A _ _ hA, List.cons_append, match_route_star]
    rcases hBhead with rfl | hh
    · rw [List.append_nil, strchr_none _ _ hs47]
    · obtain ⟨B2, rfl⟩ : ∃ B2, B = 47 :: B2 := by
        cases B with
        | nil => simp at hh
        | cons b B2 => simp at hh; exact ⟨B2, by rw [hh]⟩
      rw [← List.cons_append, strchr_append _ _ _ hs47]
      simp only [List.drop_left]
      exact match_route_self _ hB
  · rw [List.append_assoc, List.append_assoc, match_route_common A _ _ hA, List.cons_append,
      match_route_star, ← List.cons_append, List.cons_append 47 t B,
      strchr_append _ _ _ hs47]
    simp only [List.drop_left]
    cases hm : match_route (47 :: (t ++ B)) B with
    | false => rfl
    | true =>
      have := (match_route_no_star B hB _).mp hm
      have hl := congrArg List.length this
      simp only [List.length_cons, List.length_append] at hl
      omega

/-- Witness of C38: the pattern `/users/*/edit` takes `/users/42/edit` and
refuses `/users/42/7/edit`. -/
theorem star_consumes_one_segment_witness :
    match_route (str "/users/" ++ str "42" ++ str "/edit") (str "/users/" ++ 42 :: str "/edit") =
        true ∧
      match_route (str "/users/" ++ str "42" ++ 47 :: str "7" ++ str "/edit")
        (str "/users/" ++ 42 :: str "/edit") = false :=
  star_consumes_one_segment (str "/users/") (str "/edit") (str "42") (str "7")
    (by decide) (by decide) (Or.inr (by decide)) (by decide) (by decide)

/-- C39: for a pattern without `*`, `match_route(path, pattern)` succeeds
exactly when the path and the pattern are the same string. -/
theorem literal_route_matches_itself_only (path pattern : List Byte) (h : 42 ∉ pattern) :
    match_route path pattern = true ↔ path = pattern :=
  match_route_no_star pattern h path

/-- Witness of C39: the literal route `/log` takes `/log` and refuses a longer,
a shorter and a different path. -/
theorem literal_route_matches_itself_only_witness :
    match_route (str "/log") (str "/log") = true ∧
      match_route (str "/log/x") (str "/log") = false ∧
      match_route (str "/lo") (str "/log") = false ∧
      match_route (str "/lag") (str "/log") = false :=
  ⟨(literal_route_matches_itself_only (str "/log") (str "/log") (by decide)).mpr rfl,
    by decide, by decide, by decide⟩

theorem wildcard_run_length (req_path : List Byte) : (wildcard_run req_path).length ≤ 63 := by
  unfold wildcard_run
  rw [List.length_take]
  exact Nat.min_le_left _ _

theorem get_wildcards_loop_bounds (n : Nat) :
    ∀ (route_path req_path : List Byte) (wc : List (List Byte)), route_path.length ≤ n →
      wc.length ≤ 16 → (∀ c ∈ wc, c.length ≤ 63) →
      (get_wildcards_loop route_path req_path wc).length ≤ 16 ∧
        ∀ c ∈ get_wildcards_loop route_path req_path wc, c.length ≤ 63 := by
  induction n with
  | zero =>
    intro route_path req_path wc hn hw hc
    have : route_path = [] := List.length_eq_zero.mp (Nat.le_zero.mp hn)
    subst this
    rw [get_wildcards_loop]
    exact ⟨hw, hc⟩
  | succ n ih =>
    intro route_path req_path wc hn hw hc
    cases route_path with
    | nil =>
      rw [get_wildcards_loop]
      exact ⟨hw, hc⟩
    | cons c route_rest =>
      simp only [List.length_cons] at hn
      by_cases hp : req_path = []
      · subst hp
        rw [get_wildcards_loop]
        simp only [if_true]
        exact ⟨hw, hc⟩
      · by_cases hstar : c = 42
        · subst hstar
          by_cases hlt : wc.length < 16
          · rw [get_wildcards_loop_star route_rest req_path wc hp hlt]
            have hw2 : (wc ++ [wildcard_run req_path]).length ≤ 16 := by
              simp only [List.length_append, List.length_singleton]
              omega
            have hc2 : ∀ c ∈ wc ++ [wildcard_run req_path], c.length ≤ 63 := by
              intro c hm
              rcases List.mem_append.mp hm with h | h
              · exact hc c h
              · rw [List.mem_singleton.mp h]
                exact wildcard_run_length req_path
            cases route_rest with
            | nil => exact ⟨hw2, hc2⟩
            | cons d route_rest2 =>
              simp only [List.length_cons] at hn
              exact ih route_rest2 _ _ (by omega) hw2 hc2
          · rw [get_wildcards_loop]
            simp only [hp, if_false, if_true, hlt]
            cases route_rest with
            | nil => exact ⟨hw, hc⟩
            | cons d route_rest2 =>
              simp only [List.length_cons] at hn
              exact ih route_rest2 _ _ (by omega) hw hc
        · rw [get_wildcards_loop_literal c route_rest req_path wc hstar hp]
          exact ih route_rest _ _ (by omega) hw hc

theorem wildcard_writes_bounds (wc : List (List Byte)) (hw : wc.length ≤ 16)
    (hc : ∀ c ∈ wc, c.length ≤ 63) :
    ∀ cell ∈ wildcard_writes wc, cell.1 < 16 ∧ cell.2 < 64 := by
  intro cell hm
  unfold wildcard_writes at hm
  rw [List.mem_flatMap] at hm
  obtain ⟨w, hwm, hcell⟩ := hm
  rw [List.mem_map] at hcell
  obtain ⟨col, hcol, rfl⟩ := hcell
  rw [List.mem_range] at hcol
  obtain ⟨hi, hget⟩ : w.1 < wc.length ∧ w.2 ∈ wc := by
    obtain ⟨i, v⟩ := w
    have := List.mem_enum hwm
    exact ⟨this.1, by rw [this.2]; exact List.getElem_mem _⟩
  have := hc w.2 hget
  exact ⟨by simp only; omega, by simp only; omega⟩

/-- C40: for every request path and every route pattern, matching or not,
`get_wildcards` leaves at most 16 captures, each of at most 63 bytes, so that
every cell it writes, terminators included, lies in the 16 x 64 array
`wildcards`; `wildcard_num`, the number of captures, is between 0 and 16. -/
theorem get_wildcards_in_bounds (req : http_req_t) (r : route_t) :
    (get_wildcards req r).wildcards.length ≤ 16 ∧
      (∀ c ∈ (get_wildcards req r).wildcards, c.length ≤ 63) ∧
      (∀ cell ∈ wildcard_writes (get_wildcards req r).wildcards, cell.1 < 16 ∧ cell.2 < 64) := by
  obtain ⟨h1, h2⟩ := get_wildcards_loop_bounds r.path.length r.path req.path [] (le_refl _)
    (by simp) (by simp)
  exact ⟨h1, h2, wildcard_writes_bounds _ h1 h2⟩

/-! ## Claims C31 to C33: the senders and the MIME table -/

theorem decimal_length (n e : Nat) (h : n < 10 ^ e) (he : 0 < e) : (decimal n).length ≤ e := by
  unfold decimal
  rw [List.length_map]
  exact Nat.toDigitsCore_length 10 (by decide) (n + 1) n e h he

theorem send_string_text_eq (s : List Byte) (h : s.length + 512 ≤ INT_MAX) :
    send_string_text s = send_string_format s := by
  have hd := decimal_length s.length 10 (by unfold INT_MAX at h; omega) (by decide)
  unfold send_string_text
  apply List.take_of_length_le
  unfold send_string_format
  simp only [List.length_append]
  have e1 : (str "HTTP/1.1 200 OK\r\n").length = 17 := by decide
  have e2 : (str "Content-Type: text/html; charset=utf-8\r\n").length = 40 := by decide
  have e3 : (str "Content-Length: ").length = 16 := by decide
  have e4 : (str "\r\n").length = 2 := by decide
  have e5 : (str "Connection: close\r\n\r\n").length = 21 := by decide
  rw [e1, e2, e3, e4, e5]
  omega

theorem send_plain_text_eq (s : List Byte) (h : s.length + 512 ≤ INT_MAX) :
    send_plain_text s = send_plain_format s := by
  have hd := decimal_length s.length 10 (by unfold INT_MAX at h; omega) (by decide)
  unfold send_plain_text
  apply List.take_of_length_le
  unfold send_plain_format
  simp only [List.length_append]
  have e1 : (str "HTTP/1.1 200 OK\r\n").length = 17 := by decide
  have e2 : (str "Content-Type: text/plain\r\n").length = 26 := by decide
  have e3 : (str "Content-Length: ").length = 16 := by decide
  have e4 : (str "\r\n").length = 2 := by decide
  have e5 : (str "Connection: close\r\n\r\n").length = 21 := by decide
  rw [e1, e2, e3, e4, e5]
  omega

theorem str_append (a b : String) : str (a ++ b) = str a ++ str b := by
  simp [str]

theorem send_json_response_headers_eq (status : response_status_t) (json : List Byte)
    (h : json.length < 2 ^ 63) :
    send_json_response_headers status json =
      status_line status ++ CRLF ++ str "Content-Type: application/json" ++ CRLF ++
        str "Content-Length: " ++ decimal json.length ++ CRLF ++
        str "Connection: keep-alive" ++ CRLF ++ CRLF := by
  have hd := decimal_length json.length 20 (by omega) (by decide)
  have hs : (decimal (get_response_info status).status).length ≤ 3 ∧
      (get_response_info status).message.length ≤ 21 := by
    cases status <;> decide
  unfold send_json_response_headers
  simp only
  rw [List.take_of_length_le, List.take_of_length_le (by decide)]
  · unfold status_line
    have e1 : str "Content-Type: application/json\r\n" =
        str "Content-Type: application/json" ++ CRLF := by decide
    have e2 : str "Connection: keep-alive\r\n" = str "Connection: keep-alive" ++ CRLF := by
      decide
    have e3 : str "\r\n" = CRLF := by decide
    rw [e1, e2, e3]
    simp only [List.append_assoc]
  · simp only [List.length_append]
    have e1 : (str "HTTP/1.1 ").length = 9 := by decide
    have e2 : (str " ").length = 1 := by decide
    have e3 : (str "\r\n").length = 2 := by decide
    have e4 : (str "Content-Type: application/json\r\n").length = 32 := by decide
    have e5 : (str "Content-Length: ").length = 16 := by decide
    have e6 : (str "Connection: keep-alive\r\n").length = 24 := by decide
    rw [e1, e2, e3, e4, e5, e6]
    omega

set_option maxRecDepth 100000 in
/-- C31: every response text the senders build has the layout of
`response_text`: a status line, then `Content-Type`, `Content-Length` and
`Connection`, a blank line and the body, with the byte length of that body as
the number in `Content-Length`. This holds for `send_error_response` at every
status, for `send_string` and `send_plain` at every string whose response fits
the `int` that holds its length, and for `send_json_response` at every status and
JSON text with a length that fits `ssize_t`; and no status line holds a line
break. -/
theorem responses_well_formed :
    (∀ status : response_status_t,
      send_error_response_text status =
        response_text (status_line status) (str "text/html") (str "close")
          (send_error_response_body status)) ∧
    (∀ s : List Byte, s.length + 512 ≤ INT_MAX →
      send_string_text s =
        response_text (str "HTTP/1.1 200 OK") (str "text/html; charset=utf-8") (str "close") s) ∧
    (∀ s : List Byte, s.length + 512 ≤ INT_MAX →
      send_plain_text s =
        response_text (str "HTTP/1.1 200 OK") (str "text/plain") (str "close") s) ∧
    (∀ (status : response_status_t) (json : List Byte), json.length < 2 ^ 63 →
      send_json_response_text status json =
        response_text (status_line status) (str "application/json") (str "keep-alive") json) ∧
    (∀ status : response_status_t, ¬ CRLF <:+: status_line status) := by
  refine ⟨?_, ?_, ?_, ?_, ?_⟩
  · intro status
    cases status <;> decide
  · intro s h
    rw [send_string_text_eq s h]
    unfold send_string_format response_text
    have e1 : str "HTTP/1.1 200 OK\r\n" = str "HTTP/1.1 200 OK" ++ CRLF := by decide
    have e2 : str "Content-Type: text/html; charset=utf-8\r\n" =
        str "Content-Type: " ++ str "text/html; charset=utf-8" ++ CRLF := by decide
    have e3 : str "\r\n" = CRLF := by decide
    have e4 : str "Connection: close\r\n\r\n" = str "Connection: " ++ str "close" ++ CRLF ++ CRLF :=
      by decide
    rw [e1, e2, e3, e4]
    simp only [List.append_assoc]
  · intro s h
    rw [send_plain_text_eq s h]
    unfold send_plain_format response_text
    have e1 : str "HTTP/1.1 200 OK\r\n" = str "HTTP/1.1 200 OK" ++ CRLF := by decide
    have e2 : str "Content-Type: text/plain\r\n" =
        str "Content-Type: " ++ str "text/plain" ++ CRLF := by decide
    have e3 : str "\r\n" = CRLF := by decide
    have e4 : str "Connection: close\r\n\r\n" = str "Connection: " ++ str "close" ++ CRLF ++ CRLF :=
      by decide
    rw [e1, e2, e3, e4]
    simp only [List.append_assoc]
  · intro status json h
    unfold send_json_response_text
    rw [send_json_response_headers_eq status json h]
    unfold response_text
    have e1 : str "Content-Type: application/json" =
        str "Content-Type: " ++ str "application/json" := by decide
    have e2 : str "Connection: keep-alive" = str "Connection: " ++ str "keep-alive" := by decide
    rw [e1, e2]
    simp only [List.append_assoc]
  · intro status
    cases status <;> decide

/-- Witness of C31: the response of `send_plain` for the text of the robots
route says `Content-Length: 22`, the length of that text. -/
theorem responses_well_formed_witness :
    send_plain_text (str "User-agent: *\nAllow: /") =
        str ("HTTP/1.1 200 OK\r\nContent-Type: text/plain\r\nContent-Length: 22\r\n" ++
          "Connection: close\r\n\r\nUser-agent: *\nAllow: /") ∧
      send_plain_text (str "User-agent: *\nAllow: /") =
        response_text (str "HTTP/1.1 200 OK") (str "text/plain") (str "close")
          (str "User-agent: *\nAllow: /") :=
  ⟨by decide, responses_well_formed.2.2.1 (str "User-agent: *\nAllow: /") (by decide)⟩

/-- C32, the failing input: `send_plain` and `send_string` with a socket that
takes 10 bytes, then reports would-block, then would take the rest. The loop
leaves at the would-block result, so the client gets the first 10 bytes only
(nothing at all when the very first call reports would-block), while the loop of
`send_error_response` goes on after the same result and sends its whole text. -/
theorem send_plain_stops_at_would_block :
    send_plain (str "User-agent: *\nAllow: /") [.sent 10, .would_block, .sent 200] =
        str "HTTP/1.1 2" ∧
      send_plain (str "User-agent: *\nAllow: /") [.would_block, .sent 200] = [] ∧
      send_string (str "<h1>e45g</h1>") [.sent 10, .would_block, .sent 200] = str "HTTP/1.1 2" ∧
      (send_plain_text (str "User-agent: *\nAllow: /")).length = 106 ∧
      send_error_response_loop [.sent 10, .would_block, .sent 200]
          (send_error_response_text ERR_NOTFOUND) =
        send_error_response_text ERR_NOTFOUND := by
  decide

theorem strrchr_append (pre tail : List Byte) (c : Byte) (h : c ∉ tail) :
    strrchr (pre ++ c :: tail) c = some pre.length := by
  have ht : strrchr tail c = none := by
    induction tail with
    | nil => rfl
    | cons x xs ih =>
      have hx : x ≠ c := fun e => h (by simp [e])
      have hxs : c ∉ xs := fun e => h (by simp [e])
      simp [strrchr, ih hxs, hx]
  induction pre with
  | nil => simp [strrchr, ht]
  | cons x xs ih => simp [strrchr, ih]

theorem strrchr_of_not_mem (l : List Byte) (c : Byte) (h : c ∉ l) : strrchr l c = none := by
  induction l with
  | nil => rfl
  | cons x xs ih =>
    have hx : x ≠ c := fun e => h (by simp [e])
    have hxs : c ∉ xs := fun e => h (by simp [e])
    simp [strrchr, ih hxs, hx]

theorem get_mime_type_ext (pre tail : List Byte) (h : 46 ∉ tail) :
    get_mime_type (pre ++ 46 :: tail) =
      match mime_types.find? (fun e => e.extension == 46 :: tail) with
      | some e => e.mime_type
      | none => str "application/octet-stream" := by
  unfold get_mime_type
  rw [strrchr_append pre tail 46 h]
  simp only [List.drop_left]

theorem mime_types_listed :
    ∀ e ∈ mime_types, e.extension ∈ listed_mime_types.map (fun p => p.1) := by
  decide

/-- C33: when the text from the last `.` of the path to its end is one of the
ten extensions listed, `get_mime_type` returns the MIME type listed with it;
for every other path, the paths without a `.` among them, it returns
`application/octet-stream`. -/
theorem get_mime_type_table :
    (∀ (pre tail mime : List Byte), 46 ∉ tail → (46 :: tail, mime) ∈ listed_mime_types →
      get_mime_type (pre ++ 46 :: tail) = mime) ∧
    (∀ (pre tail : List Byte), 46 ∉ tail →
      46 :: tail ∉ listed_mime_types.map (fun p => p.1) →
      get_mime_type (pre ++ 46 :: tail) = str "application/octet-stream") ∧
    (∀ path : List Byte, 46 ∉ path → get_mime_type path = str "application/octet-stream") ∧
    listed_mime_types.map (fun p => p.1) =
      [str ".html", str ".css", str ".js", str ".png", str ".jpg", str ".gif", str ".txt",
        str ".json", str ".svg", str ".pdf"] := by
  refine ⟨?_, ?_, ?_, by decide⟩
  · intro pre tail mime h hm
    rw [get_mime_type_ext pre tail h]
    simp only [listed_mime_types, List.mem_cons, Prod.mk.injEq, List.mem_singleton,
      List.not_mem_nil, or_false] at hm
    rcases hm with ⟨e, rfl⟩ | ⟨e, rfl⟩ | ⟨e, rfl⟩ | ⟨e, rfl⟩ | ⟨e, rfl⟩ | ⟨e, rfl⟩ | ⟨e, rfl⟩ |
      ⟨e, rfl⟩ | ⟨e, rfl⟩ | ⟨e, rfl⟩ <;> rw [e] <;> decide
  · intro pre tail h hn
    rw [get_mime_type_ext pre tail h]
    have : mime_types.find? (fun e => e.extension == 46 :: tail) = none := by
      rw [List.find?_eq_none]
      intro e he hq
      apply hn
      have hq2 : e.extension = 46 :: tail := by simpa using hq
      rw [← hq2]
      exact mime_types_listed e he
    rw [this]
  · intro path h
    unfold get_mime_type
    rw [strrchr_of_not_mem path 46 h]

/-- Witness of C33: `/css/site.css` is `text/css`, `/a.tar.gz` and `/README`
are `application/octet-stream`. -/
theorem get_mime_type_table_witness :
    get_mime_type (str "/css/site" ++ 46 :: str "css") = str "text/css" ∧
      get_mime_type (str "/a.tar" ++ 46 :: str "gz") = str "application/octet-stream" ∧
      get_mime_type (str "/README") = str "application/octet-stream" :=
  ⟨get_mime_type_table.1 (str "/css/site") (str "css") (str "text/css") (by decide) (by decide),
    get_mime_type_table.2.1 (str "/a.tar") (str "gz") (by decide) (by decide),
    get_mime_type_table.2.2.1 (str "/README") (by decide)⟩

/-! ## Claim C37: the request line decides the outcome of the parser -/

theorem parse_ok_of_request_line (buffer : List Byte) (buffer_len : Nat)
    (h : request_line_accepted buffer buffer_len) :
    ∃ req, parse_http_request buffer buffer_len = .ok req := by
  obtain ⟨hlen, line, rest, htext, hcrlf, hline, M, P, V, rfl, hM, hP, hMa, hsp, hV⟩ := h
  obtain ⟨sp, hsp⟩ := Option.isSome_iff_exists.mp hsp
  have h0 : 0 ∉ request_line M P V := by
    intro hm
    have : (0 : Byte) ∈ cstr buffer := by
      unfold request_line at hm
      rw [htext]
      exact List.mem_append_left _ (List.mem_append_left _ hm)
    exact cstr_not_mem buffer this
  have hv7 : V.take 7 = HTTP_1 := by
    obtain ⟨t, rfl⟩ := hV
    simp [HTTP_1]
  rw [← parse_cstr, htext]
  have e : M ++ 32 :: (P ++ 32 :: V) ++ CRLF ++ rest =
      request_line M P V ++ 13 :: 10 :: rest := by
    simp [request_line, CRLF]
  rw [e, parse_request_line M P V rest buffer_len hlen hM hP h0 hcrlf hline,
    (validate_http_method_iff M).mpr hMa, hsp]
  simp only [if_true, hv7, ne_eq, not_true_eq_false, if_false]
  exact ⟨_, rfl⟩

/-- C37: with allocations taken to succeed, `parse_http_request` returns
SERVER_OK exactly when the request line is accepted in the sense of
`request_line_accepted`: length of the buffer, CRLF, length of the first line,
allowed method, second space, `sanitize_path`, `HTTP/1.`. What follows the
first line has no part in it: two buffers with the same first line are both
accepted or both refused. -/
theorem parse_decided_by_request_line :
    (∀ (buffer : List Byte) (buffer_len : Nat),
      (∃ req, parse_http_request buffer buffer_len = .ok req) ↔
        request_line_accepted buffer buffer_len) ∧
    (∀ (line rest1 rest2 : List Byte) (buffer_len : Nat), ¬ CRLF <:+: line →
      ((∃ req, parse_http_request (line ++ CRLF ++ rest1) buffer_len = .ok req) ↔
        ∃ req, parse_http_request (line ++ CRLF ++ rest2) buffer_len = .ok req)) := by
  have hmain : ∀ (buffer : List Byte) (buffer_len : Nat),
      (∃ req, parse_http_request buffer buffer_len = .ok req) ↔
        request_line_accepted buffer buffer_len := by
    intro buffer buffer_len
    constructor
    · rintro ⟨req, h⟩
      obtain ⟨M, P, V, hdr, sp, htext, hM, hP, hcrlf, hval, hsp, hv7, -, hlen, hline⟩ :=
        parse_ok_inv buffer buffer_len req h
      refine ⟨hlen, request_line M P V, hdr, ?_, hcrlf, hline, M, P, V, rfl, hM, hP,
        (validate_http_method_iff M).mp hval, by rw [hsp]; rfl, ?_⟩
      · rw [htext]
        simp [CRLF]
      · refine ⟨V.drop 7, ?_⟩
        rw [← hv7]
        exact List.take_append_drop 7 V
    · exact parse_ok_of_request_line buffer buffer_len
  refine ⟨hmain, ?_⟩
  intro line rest1 rest2 buffer_len hcrlf
  have key : ∀ rest : List Byte,
      (∃ req, parse_http_request (line ++ CRLF ++ rest) buffer_len = .ok req) ↔
        (buffer_len ≤ MAX_REQUEST_SIZE ∧ 0 ∉ line ∧ line.length ≤ MAX_URI_LENGTH ∧
          ∃ M P V, line = M ++ 32 :: (P ++ 32 :: V) ∧ 32 ∉ M ∧ 32 ∉ P ∧
            M ∈ allowed_methods ∧ (sanitize_path P).isSome = true ∧ HTTP_1 <+: V) := by
    intro rest
    rw [hmain]
    constructor
    · rintro ⟨hlen, line2, rest2, htext, hcrlf2, hline, hrest⟩
      by_cases h0 : 0 ∈ line
      · exfalso
        rw [List.append_assoc, cstr_append_of_mem _ _ h0] at htext
        have hin : CRLF <:+: cstr line := ⟨line2, rest2, by rw [htext]⟩
        exact hcrlf (hin.trans (List.takeWhile_prefix _).isInfix)
      · rw [List.append_assoc, cstr_append_of_not_mem _ _ h0] at htext
        have hs1 := strstr_CRLF_append line (cstr rest) hcrlf
        have hs2 := strstr_CRLF_append line2 rest2 hcrlf2
        have e1 : line ++ cstr (CRLF ++ rest) = line ++ 13 :: 10 :: cstr rest := by
          congr 1
        have e2 : line2 ++ CRLF ++ rest2 = line2 ++ 13 :: 10 :: rest2 := by
          simp [CRLF]
        rw [e1, e2] at htext
        rw [htext, hs2] at hs1
        have hl : line2.length = line.length := Option.some.inj hs1
        have hline_eq : line2 = line := by
          have := congrArg (List.take line.length) htext
          rw [List.take_left' rfl, ← hl, List.take_left' rfl] at this
          exact this.symm
        subst hline_eq
        exact ⟨hlen, h0, hline, hrest⟩
    · rintro ⟨hlen, h0, hline, hrest⟩
      refine ⟨hlen, line, cstr rest, ?_, hcrlf, hline, hrest⟩
      rw [List.append_assoc, cstr_append_of_not_mem _ _ h0]
      simp only [List.append_assoc]
      congr 1
  rw [key rest1, key rest2]

set_option maxRecDepth 100000 in
/-- Witness of C37: a request line that is accepted, followed by header lines
without a colon and without an end. -/
theorem parse_decided_by_request_line_witness :
    request_line_accepted (str "GET /index.html HTTP/1.1\r\nno colon here\r\n: x\r\nopen") 49 ∧
      ∃ req, parse_http_request (str "GET /index.html HTTP/1.1\r\nno colon here\r\n: x\r\nopen")
        49 = .ok req :=
  have h : request_line_accepted
      (str "GET /index.html HTTP/1.1\r\nno colon here\r\n: x\r\nopen") 49 :=
    ⟨by decide, str "GET /index.html HTTP/1.1", str "no colon here\r\n: x\r\nopen", by decide,
      by decide, by decide, str "GET", str "/index.html", str "HTTP/1.1", by decide, by decide,
      by decide, by decide, by decide, by decide⟩
  ⟨h, (parse_decided_by_request_line.1 _ 49).mpr h⟩

/-! ## Claim C34: the route `/robots.txt` -/

theorem get_buffer_size (pool : buffer_pool_t) (min_size fresh : Nat) :
    (get_buffer pool min_size fresh).1.size ≥ min_size := by
  cases hf : pool.free_buffers with
  | nil =>
    rw [get_buffer_new _ _ _ (Or.inl hf)]
    exact le_max_left _ _
  | cons buf next =>
    by_cases hs : buf.size ≥ min_size
    · rw [get_buffer_reuse _ _ _ _ _ hf hs]
      exact hs
    · rw [get_buffer_new _ _ _ (Or.inr ⟨buf, next, hf, Nat.not_le.mp hs⟩)]
      exact le_max_left _ _

theorem extract_subdomain_fields (req : http_req_t) :
    extract_subdomain req = { req with sub_domain := (extract_subdomain req).sub_domain } := by
  unfold extract_subdomain
  cases get_header req HOST with
  | none => rfl
  | some host =>
    simp only
    cases strrchr (match strchr host 58 with
      | some port => host.take port
      | none => host) 46 with
    | none => rfl
    | some dot1 =>
      simp only
      cases strchr ((match strchr host 58 with
        | some port => host.take port
        | none => host).take dot1) 46 <;> rfl

theorem process_routes_robots (req : http_req_t) (hm : req.method = str "GET")
    (hp : req.path = str "/robots.txt") (hs : req.sub_domain = none) :
    process_routes load_routes req =
      (1, [({ method := str "GET", path := str "/robots.txt", callback := handle_robots },
            { req with wildcards := [] })]) := by
  have hl : load_routes =
      [{ method := str "GET", path := str "/log", callback := handle_log },
       { method := str "GET", path := str "/", callback := handle_root },
       { method := str "GET", path := str "/robots.txt", callback := handle_robots }] := by
    decide
  have h1 : ¬ route_matches req
      { method := str "GET", path := str "/log", callback := handle_log } := by
    intro h
    have := h.2.1
    rw [hp] at this
    revert this
    decide
  have h2 : ¬ route_matches req { method := str "GET", path := str "/", callback := handle_root } := by
    intro h
    have := h.2.1
    rw [hp] at this
    revert this
    decide
  have h3 : route_matches req
      { method := str "GET", path := str "/robots.txt", callback := handle_robots } := by
    refine ⟨hm, ?_, hs.symm⟩
    rw [hp]
    decide
  have hw : get_wildcards req
      { method := str "GET", path := str "/robots.txt", callback := handle_robots } =
        { req with wildcards := [] } := by
    unfold get_wildcards
    rw [hp]
    have : get_wildcards_loop (str "/robots.txt") (str "/robots.txt") [] = [] := by decide
    simp only [this]
  rw [hl, process_routes_cons, if_neg h1, process_routes_cons, if_neg h2, process_routes_cons,
    if_pos h3, hw]

/-- C34, the counterexample: the same `GET /robots.txt` with a `Host` header
that names a host of three labels, or an address such as `127.0.0.1:1444`, is
not given to `handle_robots`: the request then has a subdomain, the route has
none, and the request goes to the static files (here the file is absent and the
answer is 404). -/
theorem robots_txt_with_subdomain_not_routed :
    (handle_client { route := load_routes } 5
        { first_recv := .data
            (str "GET /robots.txt HTTP/1.1\r\nHost: www.example.com\r\n\r\n") }).map
        (fun r => r.2) =
      some [.serve_file 5 (str "/robots.txt") SERVER_ERR_FILE,
        .send_error_response 5 ERR_NOTFOUND, .close 5] ∧
    (handle_client { route := load_routes } 5
        { first_recv := .data
            (str "GET /robots.txt HTTP/1.1\r\nHost: www.example.com\r\n\r\n"),
          outcome := .sent }).map (fun r => r.2) =
      some [.serve_file 5 (str "/robots.txt") SERVER_OK, .close 5] ∧
    (handle_client { route := load_routes } 5
        { first_recv := .data
            (str "GET /robots.txt HTTP/1.1\r\nHost: 127.0.0.1:1444\r\n\r\n") }).map
        (fun r => r.2) =
      some [.serve_file 5 (str "/robots.txt") SERVER_ERR_FILE,
        .send_error_response 5 ERR_NOTFOUND, .close 5] := by
  refine ⟨?_, ?_, ?_⟩ <;> rfl

/-- C34 as amended: with the routes of `load_routes`, a `GET /robots.txt`
request with a version that begins with `HTTP/1.`, whatever follows the request
line, is given to `handle_robots`, once, and to nothing else, provided the
request ends up without a subdomain (no `Host` header kept, or one with fewer
than two dots before its port). `handle_robots` calls `send_plain` with its
literal, and the response built is 200 OK, `Content-Type: text/plain`,
`Content-Length: 22` and that literal. -/
theorem robots_txt_answered (st : server_state) (client_fd : Int) (io : client_io)
    (V rest : List Byte) (hroute : st.route = load_routes)
    (hconn : (get_connection st.conn_pool client_fd io.now io.conn_addr).isSome)
    (hrecv : io.first_recv =
      .data (request_line (str "GET") (str "/robots.txt") V ++ CRLF ++ rest))
    (hV : HTTP_1 <+: V) (h0 : 0 ∉ V) (hcrlf : ¬ CRLF <:+: V)
    (hline : (request_line (str "GET") (str "/robots.txt") V).length ≤ MAX_URI_LENGTH)
    (hlen : (request_line (str "GET") (str "/robots.txt") V ++ CRLF ++ rest).length <
      MAX_REQUEST_SIZE)
    (hsub : ∀ req, parse_http_request
        (request_line (str "GET") (str "/robots.txt") V ++ CRLF ++ rest)
        (request_line (str "GET") (str "/robots.txt") V ++ CRLF ++ rest).length = .ok req →
      (extract_subdomain req).sub_domain = none) :
    (∃ req, (handle_client st client_fd io).map (fun r => r.2) =
        some [.callback client_fd
            { method := str "GET", path := str "/robots.txt", callback := handle_robots } req,
          .close client_fd] ∧
        req.method = str "GET" ∧ req.path = str "/robots.txt") ∧
      handle_robots_sends [.sent 106] = send_plain_text ROBOTS_TXT ∧
      send_plain_text ROBOTS_TXT =
        response_text (str "HTTP/1.1 200 OK") (str "text/plain") (str "close") ROBOTS_TXT ∧
      decimal ROBOTS_TXT.length = str "22" := by
  refine ⟨?_, by decide, ?_, by decide⟩
  · generalize hb : request_line (str "GET") (str "/robots.txt") V ++ CRLF ++ rest = bytes
      at hrecv hlen hsub
    have hsize := get_buffer_size st.buffer_pool MAX_REQUEST_SIZE io.buf_addr
    have htake : bytes.take
        ((get_buffer st.buffer_pool MAX_REQUEST_SIZE io.buf_addr).1.size - 1) = bytes :=
      List.take_of_length_le (by omega)
    have hne : bytes.length ≠ 0 := by
      rw [← hb]
      simp [request_line]
    obtain ⟨hP32, hl0, hlc⟩ := request_line_clean (str "GET") (str "/robots.txt") V
      (str "/robots.txt") (by decide) (by decide) h0 hcrlf
    have hparse := parse_request_line (str "GET") (str "/robots.txt") V rest bytes.length
      (le_of_lt hlen) (by decide) hP32 hl0 hlc hline
    have hv7 : V.take 7 = HTTP_1 := by
      obtain ⟨t, rfl⟩ := hV
      simp [HTTP_1]
    have hb2 : request_line (str "GET") (str "/robots.txt") V ++ 13 :: 10 :: rest = bytes := by
      rw [← hb]
      simp [CRLF]
    rw [hb2] at hparse
    have hval : validate_http_method (str "GET") = true := by decide
    have hsp : sanitize_path (str "/robots.txt") = some (str "/robots.txt") := by decide
    rw [hval, hsp] at hparse
    simp only [if_true, hv7, ne_eq, not_true_eq_false, if_false] at hparse
    obtain ⟨f1, f2, -⟩ := parsed_fields (str "GET") (str "/robots.txt") V (cstr rest)
    generalize parsed (str "GET") (str "/robots.txt") V (cstr rest) = req at hparse f1 f2
    have hs := hsub req hparse
    have hread : read_request bytes io.more_recvs = some (SERVER_OK, some req, io.more_recvs) := by
      unfold read_request
      rw [hparse]
      simp only [read_full_body_after_parse bytes bytes.length req io.more_recvs hparse,
        Option.map_some']
    have hm : (extract_subdomain req).method = str "GET" := by
      rw [extract_subdomain_fields]
      exact f1
    have hp : (extract_subdomain req).path = str "/robots.txt" := by
      rw [extract_subdomain_fields]
      exact f2
    refine ⟨{ extract_subdomain req with wildcards := [] }, ?_, hm, hp⟩
    unfold handle_client
    obtain ⟨⟨conn, cp⟩, hg⟩ := Option.isSome_iff_exists.mp hconn
    rw [hg]
    simp only [hrecv, htake, hne, if_false, hread, Option.map_some', Option.getD_some]
    rw [handle_request_ok]
    simp only [hroute, process_routes_robots (extract_subdomain req) hm hp hs, List.map_cons,
      List.map_nil]
    rfl
  · exact (by
      have := send_plain_text_eq ROBOTS_TXT (by decide)
      rw [this]
      decide)

set_option maxRecDepth 100000 in
/-- Witness of C34 as amended: a request with a `Host` of two labels and two
more headers is given to `handle_robots`. -/
theorem robots_txt_answered_witness :
    ∃ req, (handle_client { route := load_routes } 5
        { first_recv := .data (request_line (str "GET") (str "/robots.txt") (str "HTTP/1.1") ++
            CRLF ++ str "Host: example.com\r\nUser-Agent: x\r\nAccept: text/plain\r\n\r\n") }).map
          (fun r => r.2) =
        some [.callback 5
            { method := str "GET", path := str "/robots.txt", callback := handle_robots } req,
          .close 5] ∧
        req.method = str "GET" ∧ req.path = str "/robots.txt" :=
  (robots_txt_answered { route := load_routes } 5
    { first_recv := .data (request_line (str "GET") (str "/robots.txt") (str "HTTP/1.1") ++
        CRLF ++ str "Host: example.com\r\nUser-Agent: x\r\nAccept: text/plain\r\n\r\n") }
    (str "HTTP/1.1") (str "Host: example.com\r\nUser-Agent: x\r\nAccept: text/plain\r\n\r\n")
    rfl (by decide) rfl (by decide) (by decide) (by decide) (by decide) (by decide)
    (fun req h => by
      have e : parse_http_request
          (request_line (str "GET") (str "/robots.txt") (str "HTTP/1.1") ++ CRLF ++
            str "Host: example.com\r\nUser-Agent: x\r\nAccept: text/plain\r\n\r\n")
          (request_line (str "GET") (str "/robots.txt") (str "HTTP/1.1") ++ CRLF ++
            str "Host: example.com\r\nUser-Agent: x\r\nAccept: text/plain\r\n\r\n").length =
          .ok { method := str "GET", path := str "/robots.txt", version := str "HTTP/1.1",
                headers := [{ name := str "Host", value := str "example.com" },
                  { name := str "User-Agent", value := str "x" },
                  { name := str "Accept", value := str "text/plain" }],
                body := some [] } := by rfl
      rw [e] at h
      cases h
      rfl)).1

/-! ## Claim C36: the strings of the request on the heap -/

/-- The heap view of the parser takes the branches of `parse_http_request`: both
give the same status. -/
theorem parse_http_request_heap_status (buffer : List Byte) (buffer_len : Nat) :
    (parse_http_request_heap buffer buffer_len).1 =
      match parse_http_request buffer buffer_len with
      | .ok _ => SERVER_OK
      | .error status => status := by
  unfold parse_http_request_heap parse_http_request sanitize_path
  by_cases h1 : buffer_len > MAX_REQUEST_SIZE
  · simp only [h1, if_true]
  simp only [h1, if_false]
  cases strstr (cstr buffer) CRLF with
  | none => rfl
  | some request_line_len =>
    simp only
    by_cases h2 : request_line_len > MAX_URI_LENGTH
    · simp only [h2, if_true]
    simp only [h2, if_false]
    cases strchr ((cstr buffer).take request_line_len) 32 with
    | none => rfl
    | some method_end =>
      simp only
      cases validate_http_method (((cstr buffer).take request_line_len).take method_end) with
      | false => rfl
      | true =>
        simp only [Bool.not_true, Bool.false_eq_true, if_false]
        cases strchr (((cstr buffer).take request_line_len).drop (method_end + 1)) 32 with
        | none => rfl
        | some path_end =>
          simp only
          by_cases h3 : ((((cstr buffer).take request_line_len).drop (method_end + 1)).take
              path_end).length = 0
          · simp only [h3, true_or, if_true]
          by_cases h4 : ((((cstr buffer).take request_line_len).drop (method_end + 1)).take
              path_end).length ≥ MAX_PATH_LENGTH
          · simp only [h3, h4, or_true, if_true, if_false]
          simp only [h3, h4, or_self, if_false]
          cases sanitize_loop ((((cstr buffer).take request_line_len).drop
              (method_end + 1)).take path_end) with
          | none => rfl
          | some sanitized_path =>
            simp only
            split_ifs <;> rfl

set_option maxRecDepth 100000 in
/-- C36, the failing input: the request `GET /../x HTTP/1.1`. The parser
allocates the method (block 1), `sanitize_path` allocates and frees its buffer
(block 2), the parser frees the method and returns SERVER_ERR_SECURITY with the
pointer still in `req.method`; `cleanup_request` then calls `http_req_free`,
which frees block 1 a second time. The same happens to the method after a
request line without a second space, and to the method and the path after a
version that is not `HTTP/1.`; a request that is accepted has every block
freed once. -/
theorem parse_error_frees_method_twice :
    handle_client_heap (str "GET /../x HTTP/1.1\r\n\r\n") =
        [.malloc 1, .malloc 2, .free 2, .free 1, .free 1] ∧
      ¬ released_exactly_once (handle_client_heap (str "GET /../x HTTP/1.1\r\n\r\n")) ∧
      handle_client_heap (str "GET /x\r\n\r\n") = [.malloc 1, .free 1, .free 1] ∧
      handle_client_heap (str "GET /x FTP/1.1\r\n\r\n") =
        [.malloc 1, .malloc 2, .free 1, .free 2, .free 1, .free 2] ∧
      (parse_http_request_heap (str "GET /../x HTTP/1.1\r\n\r\n") 22).1 = SERVER_ERR_SECURITY ∧
      (read_request (str "GET /../x HTTP/1.1\r\n\r\n") []).map (fun r => r.1) =
        some SERVER_ERR_SECURITY ∧
      released_exactly_once
        (handle_client_heap (str "GET /x HTTP/1.1\r\nHost: a.b.c\r\nAccept: x\r\n\r\n")) := by
  refine ⟨by rfl, by decide, by rfl, by rfl, by rfl, by rfl, by decide⟩

/-! ## Claim C35: printing a JSON value and parsing it back -/

set_option maxRecDepth 100000 in
/-- C35, the failing input: the number 1234567. `json_print` writes it with
`%g`, which keeps six significant digits, as `1.23457e+06`, and `json_parse`
reads that text back as 1234570: another number. A number of at most six
digits, the strings (quotes, backslashes and line breaks in them), `null`, `true`,
`false` and the arrays come back as they were; the pairs of an object come back
in the reverse order, because `json_object_add` puts each pair at the head of the
list. -/
theorem json_number_loses_digits :
    json_print (json_create_number 1234567) = str "1.23457e+06" ∧
    json_parse (json_print (json_create_number 1234567)) = .ok (json_create_number 1234570) [] ∧
    json_create_number 1234570 ≠ json_create_number 1234567 ∧
    json_parse (json_print (json_create_number (-999999))) =
      .ok (json_create_number (-999999)) [] ∧
    json_print
        (json_array_add (json_array_add (json_array_add (json_array_add (json_array_add
          (json_create_array 0) json_create_null) json_create_true) json_create_false)
          (json_create_number 42)) (json_create_string (str "a\"b\\c\nd"))) =
      str "[null,true,false,42,\"a\\\"b\\\\c\nd\"]" ∧
    json_parse (str "[null,true,false,42,\"a\\\"b\\\\c\nd\"]") =
      .ok (json_array_add (json_array_add (json_array_add (json_array_add (json_array_add
          (json_create_array 0) json_create_null) json_create_true) json_create_false)
          (json_create_number 42)) (json_create_string (str "a\"b\\c\nd"))) [] ∧
    json_print
        (json_object_add (json_object_add json_create_object (str "a") (json_create_number 1))
          (str "b") (json_create_array 0)) =
      str "\x7b\"b\": [],\"a\": 1\x7d" ∧
    json_parse (str "\x7b\"b\": [],\"a\": 1\x7d") =
      .ok (json_object_add (json_object_add json_create_object (str "b") (json_create_array 0))
          (str "a") (json_create_number 1)) [] := by
  refine ⟨by rfl, by rfl, ?_, by rfl, by rfl, by rfl, by rfl, by rfl⟩
  intro h
  have := json_t.JSON_NUMBER.inj h
  revert this
  decide

/-! ## The heap blocks of an accepted request -/

theorem count_free_released (trace : List heap_event) (b : Nat) :
    trace.count (.free b) = (released trace).count b := by
  induction trace with
  | nil => rfl
  | cons e rest ih =>
    cases e with
    | malloc a =>
      simp only [released, List.filterMap_cons] at ih ⊢
      rw [List.count_cons, ih]
      simp
    | free a =>
      simp only [released, List.filterMap_cons] at ih ⊢
      rw [List.count_cons, List.count_cons, ih]
      by_cases h : a = b
      · simp [h]
      · simp [h]

theorem released_exactly_once_of_perm (trace : List heap_event)
    (hn : (allocated trace).Nodup) (hp : (released trace).Perm (allocated trace)) :
    released_exactly_once trace := by
  intro b hb
  rw [count_free_released, hp.count_eq]
  exact List.count_eq_one_of_mem hn hb

theorem allocated_append (a b : List heap_event) :
    allocated (a ++ b) = allocated a ++ allocated b := by
  simp [allocated]

theorem released_append (a b : List heap_event) :
    released (a ++ b) = released a ++ released b := by
  simp [released]

theorem allocated_cons_malloc (b : Nat) (t : List heap_event) :
    allocated (.malloc b :: t) = b :: allocated t := rfl

theorem allocated_cons_free (b : Nat) (t : List heap_event) :
    allocated (.free b :: t) = allocated t := rfl

theorem released_cons_malloc (b : Nat) (t : List heap_event) :
    released (.malloc b :: t) = released t := rfl

theorem released_cons_free (b : Nat) (t : List heap_event) :
    released (.free b :: t) = b :: released t := rfl

theorem allocated_nil : allocated [] = [] := rfl

theorem released_nil : released [] = [] := rfl

theorem allocated_mallocs (hs : List (Nat × Nat)) :
    allocated (hs.flatMap (fun p => [heap_event.malloc p.1, heap_event.malloc p.2])) =
        hs.flatMap (fun p => [p.1, p.2]) ∧
      released (hs.flatMap (fun p => [heap_event.malloc p.1, heap_event.malloc p.2])) = [] := by
  induction hs with
  | nil => exact ⟨rfl, rfl⟩
  | cons p rest ih =>
    simp only [List.flatMap_cons, allocated_append, released_append, ih.1, ih.2]
    exact ⟨rfl, rfl⟩

theorem released_frees (hs : List (Nat × Nat)) :
    released (hs.flatMap (fun p => [heap_event.free p.1, heap_event.free p.2])) =
        hs.flatMap (fun p => [p.1, p.2]) ∧
      allocated (hs.flatMap (fun p => [heap_event.free p.1, heap_event.free p.2])) = [] := by
  induction hs with
  | nil => exact ⟨rfl, rfl⟩
  | cons p rest ih =>
    simp only [List.flatMap_cons, allocated_append, released_append, ih.1, ih.2]
    exact ⟨rfl, rfl⟩

theorem header_blocks (n : Nat) :
    ((List.range n).map (fun i => (5 + 2 * i, 6 + 2 * i))).flatMap
        (fun p : Nat × Nat => [p.1, p.2]) = List.range' 5 (2 * n) := by
  induction n with
  | zero => rfl
  | succ n ih =>
    rw [List.range_succ, List.map_append, List.flatMap_append, ih]
    have e : 2 * (n + 1) = 2 + 2 * n := by ring
    rw [e, ← List.range'_append 5 (2 * n) 2 1]
    congr 1
    simp only [List.map_cons, List.map_nil, List.flatMap_cons, List.flatMap_nil, List.append_nil,
      List.range', one_mul]
    have e6 : 6 + 2 * n = 5 + 2 * n + 1 := by ring
    rw [e6]

theorem parse_http_request_heap_ok (buffer : List Byte) (buffer_len : Nat) (req : http_req_t)
    (h : parse_http_request buffer buffer_len = .ok req) :
    parse_http_request_heap buffer buffer_len =
      (SERVER_OK,
        { method := some 1, path := some 2, version := some 3, headers := some 4,
          header_strings := (List.range req.headers.length).map (fun i => (5 + 2 * i, 6 + 2 * i)),
          body := if req.body.isSome then some (5 + 2 * req.headers.length) else none },
        [.malloc 1, .malloc 2, .malloc 3, .malloc 4] ++
          ((List.range req.headers.length).map (fun i => (5 + 2 * i, 6 + 2 * i))).flatMap
            (fun p => [.malloc p.1, .malloc p.2]) ++
          (if req.body.isSome then [.malloc (5 + 2 * req.headers.length)] else [])) := by
  unfold parse_http_request sanitize_path at h
  unfold parse_http_request_heap
  by_cases h1 : buffer_len > MAX_REQUEST_SIZE
  · simp [h1] at h
  simp only [h1, if_false] at h ⊢
  cases hs : strstr (cstr buffer) CRLF with
  | none => simp [hs] at h
  | some request_line_len =>
    rw [hs] at h
    simp only at h ⊢
    by_cases h2 : request_line_len > MAX_URI_LENGTH
    · simp [h2] at h
    simp only [h2, if_false] at h ⊢
    cases hm : strchr ((cstr buffer).take request_line_len) 32 with
    | none => simp [hm] at h
    | some method_end =>
      rw [hm] at h
      simp only at h ⊢
      cases hv : validate_http_method (((cstr buffer).take request_line_len).take method_end) with
      | false => simp [hv] at h
      | true =>
        rw [hv] at h
        simp only [Bool.not_true, Bool.false_eq_true, if_false] at h ⊢
        cases hp : strchr (((cstr buffer).take request_line_len).drop (method_end + 1)) 32 with
        | none => simp [hp] at h
        | some path_end =>
          rw [hp] at h
          simp only at h ⊢
          by_cases h3 : ((((cstr buffer).take request_line_len).drop (method_end + 1)).take
              path_end).length = 0
          · rw [if_pos h3] at h
            cases h
          by_cases h4 : ((((cstr buffer).take request_line_len).drop (method_end + 1)).take
              path_end).length ≥ MAX_PATH_LENGTH
          · rw [if_neg h3, if_pos h4] at h
            cases h
          rw [if_neg h3, if_neg h4] at h
          rw [if_neg (by simp only [h3, h4, or_self, not_false_eq_true])]
          cases hl : sanitize_loop ((((cstr buffer).take request_line_len).drop
              (method_end + 1)).take path_end) with
          | none => simp [hl] at h
          | some sanitized_path =>
            rw [hl] at h
            simp only at h ⊢
            by_cases h5 : ((((cstr buffer).take request_line_len).drop (method_end + 1)).drop
                (path_end + 1)).take 7 ≠ HTTP_1
            · rw [if_pos h5] at h
              cases h
            rw [if_neg h5] at h ⊢
            have := Except.ok.inj h
            simp only [this]

theorem extract_subdomain_heap_cases (req : http_req_t) (next : Nat) :
    extract_subdomain_heap req next = (none, []) ∨
      extract_subdomain_heap req next =
        (some (next + 1), [.malloc next, .malloc (next + 1), .free next]) ∨
      extract_subdomain_heap req next = (none, [.malloc next, .free next]) := by
  unfold extract_subdomain_heap
  cases get_header req HOST with
  | none => exact Or.inl rfl
  | some host =>
    simp only
    by_cases hs : (extract_subdomain req).sub_domain.isSome = true
    · rw [if_pos hs]
      exact Or.inr (Or.inl rfl)
    · rw [if_neg hs]
      exact Or.inr (Or.inr rfl)

/-- The strings of a request that the parser accepts are each released once:
in the run of `handle_client` on such a request every block allocated for the
request is freed exactly once. -/
theorem accepted_request_released_once (buffer : List Byte) (req : http_req_t)
    (h : parse_http_request buffer buffer.length = .ok req) :
    released_exactly_once (handle_client_heap buffer) := by
  have hk := parse_http_request_heap_ok buffer buffer.length req h
  unfold handle_client_heap
  simp only [hk, h, ne_eq, not_true_eq_false, if_false]
  generalize req.headers.length = n
  have hH := header_blocks n
  generalize (List.range n).map (fun i => (5 + 2 * i, 6 + 2 * i)) = HS at hH
  obtain ⟨a1, a2⟩ := allocated_mallocs HS
  obtain ⟨f1, f2⟩ := released_frees HS
  have hmem : ∀ x ∈ List.range' 5 (2 * n), 5 ≤ x ∧ x < 5 + 2 * n := by
    intro x hx
    rw [List.mem_range'_1] at hx
    exact hx
  have hnd : (List.range' 5 (2 * n)).Nodup := List.nodup_range' 5 (2 * n)
  cases hb : req.body.isSome
  · simp only [Bool.false_eq_true, if_false, add_zero, List.append_nil]
    rcases extract_subdomain_heap_cases req (5 + 2 * n) with hs | hs | hs <;>
      rw [hs] <;> apply released_exactly_once_of_perm <;>
      simp only [http_req_free_heap, allocated_append, released_append, a1, a2, f1, f2, hH,
        List.append_nil, List.nil_append, allocated_cons_malloc, allocated_cons_free,
        released_cons_malloc, released_cons_free, allocated_nil, released_nil,
        List.append_assoc, List.cons_append]
    all_goals first
      | (rw [List.perm_iff_count]
         intro a
         simp only [List.count_append, List.count_cons, List.count_nil]
         omega)
      | (rw [List.nodup_iff_count_le_one]
         intro a
         have h1 := List.nodup_iff_count_le_one.mp hnd a
         have h2 : a < 5 ∨ 5 + 2 * n ≤ a → List.count a (List.range' 5 (2 * n)) = 0 := by
           intro hlt
           apply List.count_eq_zero_of_not_mem
           intro hm
           have := hmem a hm
           omega
         simp only [List.count_append, List.count_cons, List.count_nil, beq_iff_eq]
         split_ifs <;> omega)
  · simp only [if_true]
    rcases extract_subdomain_heap_cases req (5 + 2 * n + 1) with hs | hs | hs <;>
      rw [hs] <;> apply released_exactly_once_of_perm <;>
      simp only [http_req_free_heap, allocated_append, released_append, a1, a2, f1, f2, hH,
        List.append_nil, List.nil_append, allocated_cons_malloc, allocated_cons_free,
        released_cons_malloc, released_cons_free, allocated_nil, released_nil,
        List.append_assoc, List.cons_append]
    all_goals first
      | (rw [List.perm_iff_count]
         intro a
         simp only [List.count_append, List.count_cons, List.count_nil]
         omega)
      | (rw [List.nodup_iff_count_le_one]
         intro a
         have h1 := List.nodup_iff_count_le_one.mp hnd a
         have h2 : a < 5 ∨ 5 + 2 * n ≤ a → List.count a (List.range' 5 (2 * n)) = 0 := by
           intro hlt
           apply List.count_eq_zero_of_not_mem
           intro hm
           have := hmem a hm
           omega
         simp only [List.count_append, List.count_cons, List.count_nil, beq_iff_eq]
         split_ifs <;> omega)

/-- The heap traces of the failing exits of the parser: nothing was allocated,
or the method (and the path) is freed by the parser and again by
`http_req_free`. -/
theorem rejected_request_heap (buffer : List Byte) (status : server_status_t)
    (h : parse_http_request buffer buffer.length = .error status) :
    handle_client_heap buffer = [] ∨
      handle_client_heap buffer = [.malloc 1, .free 1, .free 1] ∨
      handle_client_heap buffer = [.malloc 1, .malloc 2, .free 2, .free 1, .free 1] ∨
      handle_client_heap buffer = [.malloc 1, .malloc 2, .free 1, .free 2, .free 1, .free 2] := by
  have hst := parse_http_request_heap_status buffer buffer.length
  rw [h] at hst
  simp only at hst
  have hne : status ≠ SERVER_OK → handle_client_heap buffer =
      (parse_http_request_heap buffer buffer.length).2.2 ++
        http_req_free_heap (parse_http_request_heap buffer buffer.length).2.1 := by
    intro hs
    unfold handle_client_heap
    simp only [hst, ne_eq, hs, not_false_eq_true, if_true]
  have hok : status = SERVER_OK → handle_client_heap buffer =
      (parse_http_request_heap buffer buffer.length).2.2 ++
        http_req_free_heap (parse_http_request_heap buffer buffer.length).2.1 := by
    intro hs
    unfold handle_client_heap
    simp only [hst, hs, ne_eq, not_true_eq_false, if_false, h]
  have hall : handle_client_heap buffer =
      (parse_http_request_heap buffer buffer.length).2.2 ++
        http_req_free_heap (parse_http_request_heap buffer buffer.length).2.1 := by
    by_cases hs : status = SERVER_OK
    · exact hok hs
    · exact hne hs
  rw [hall]
  unfold parse_http_request sanitize_path at h
  unfold parse_http_request_heap
  by_cases h1 : buffer.length > MAX_REQUEST_SIZE
  · simp only [h1, if_true]
    exact Or.inl rfl
  simp only [h1, if_false] at h ⊢
  cases hs : strstr (cstr buffer) CRLF with
  | none => exact Or.inl rfl
  | some request_line_len =>
    rw [hs] at h
    simp only at h ⊢
    by_cases h2 : request_line_len > MAX_URI_LENGTH
    · simp only [h2, if_true]
      exact Or.inl rfl
    simp only [h2, if_false] at h ⊢
    cases hm : strchr ((cstr buffer).take request_line_len) 32 with
    | none => exact Or.inl rfl
    | some method_end =>
      rw [hm] at h
      simp only at h ⊢
      cases hv : validate_http_method (((cstr buffer).take request_line_len).take method_end) with
      | false => exact Or.inl rfl
      | true =>
        rw [hv] at h
        simp only [Bool.not_true, Bool.false_eq_true, if_false] at h ⊢
        cases hp : strchr (((cstr buffer).take request_line_len).drop (method_end + 1)) 32 with
        | none => exact Or.inr (Or.inl rfl)
        | some path_end =>
          rw [hp] at h
          simp only at h ⊢
          by_cases h3 : ((((cstr buffer).take request_line_len).drop (method_end + 1)).take
              path_end).length = 0
          · rw [if_pos (Or.inl h3)]
            exact Or.inr (Or.inl rfl)
          by_cases h4 : ((((cstr buffer).take request_line_len).drop (method_end + 1)).take
              path_end).length ≥ MAX_PATH_LENGTH
          · rw [if_pos (Or.inr h4)]
            exact Or.inr (Or.inl rfl)
          rw [if_neg h3, if_neg h4] at h
          rw [if_neg (by simp only [h3, h4, or_self, not_false_eq_true])]
          cases hl : sanitize_loop ((((cstr buffer).take request_line_len).drop
              (method_end + 1)).take path_end) with
          | none => exact Or.inr (Or.inr (Or.inl rfl))
          | some sanitized_path =>
            rw [hl] at h
            simp only at h ⊢
            by_cases h5 : ((((cstr buffer).take request_line_len).drop (method_end + 1)).drop
                (path_end + 1)).take 7 ≠ HTTP_1
            · rw [if_pos h5]
              exact Or.inr (Or.inr (Or.inr rfl))
            · rw [if_neg h5] at h
              cases h

end Webserver
